import Mathlib

/-!
# Syslog drain acceptance scenarios: address resolution and log emission

A shallow embedding of `app_syslog_tcp/syslog_drain.go` and
`app_syslog_tcp/syslog_drain_tcp_routing.go`.

* Text (Go `string` / `[]byte`) is a list of characters.
* `json.Unmarshal` into `[]struct{External, ExternalTLSProxy uint16}` is
  embedded in two layers: `parseJSON` (the syntax check and the value tree)
  and `decodePorts` (storing the tree into the Go slice).
* The JSON grammar `JsonText` is stated on its own, after RFC 8259 and the
  nesting limit of `encoding/json`; `parseJSON` is proved to accept every text
  of the grammar with the value it denotes.
* `os.Exit(1)` is the `Except.error` result of `parseInstancePorts`.
* The hooks `BeforeEach` and `AfterEach` are functions on the variables the
  closures of a `Describe` block share; the `cf` commands in them are taken to
  succeed.
* Run-time panics and failed Gomega polls are `Except.error` results of the
  functions that can raise them.
-/

namespace SyslogDrain

/-- Go text (a `string` or a `[]byte` holding UTF-8) as a list of characters. -/
abbrev Text := List Char

/-- Equality of Go results (value or error) is decidable. -/
instance instDecidableEqExcept {ε α : Type} [DecidableEq ε] [DecidableEq α] :
    DecidableEq (Except ε α)
  | Except.ok a, Except.ok b =>
    if h : a = b then isTrue (by rw [h]) else isFalse (fun h1 => h (Except.ok.inj h1))
  | Except.error a, Except.error b =>
    if h : a = b then isTrue (by rw [h]) else isFalse (fun h1 => h (Except.error.inj h1))
  | Except.ok _, Except.error _ => isFalse (fun h => Except.noConfusion h)
  | Except.error _, Except.ok _ => isFalse (fun h => Except.noConfusion h)

/-! ## JSON values -/

/-- A JSON number literal: either digits only (so it denotes a natural number),
or a literal carrying a sign, a fraction or an exponent. -/
inductive JNumber where
  | nat (n : Nat)
  | other
  deriving DecidableEq, Repr

/-- A JSON value tree. Object members keep their order and duplicates. -/
inductive JValue where
  | null
  | bool (b : Bool)
  | num (n : JNumber)
  | str (s : Text)
  | arr (xs : List JValue)
  | obj (kvs : List (Text × JValue))

/-! ## JSON syntax (`encoding/json` scanner) -/

/-- JSON insignificant whitespace. -/
def isSpace (c : Char) : Bool :=
  c = ' ' || c = '\t' || c = '\r' || c = '\n'

/-- Drop leading whitespace. -/
def skipSpace : Text → Text
  | [] => []
  | c :: cs => if isSpace c then skipSpace cs else c :: cs

/-- Split off the leading run of decimal digits. -/
def takeDigits : Text → Text × Text
  | [] => ([], [])
  | c :: cs =>
    if c.isDigit then
      let r := takeDigits cs
      (c :: r.1, r.2)
    else ([], c :: cs)

/-- Value of a run of decimal digits. -/
def digitsValue (ds : Text) : Nat :=
  ds.foldl (fun acc c => 10 * acc + (c.toNat - 48)) 0

/-- The integer part of a number literal: `0`, or a non-zero digit followed by
digits. Returns the digits and the rest. -/
def scanInt (cs : Text) : Option (Text × Text) :=
  match cs with
  | [] => none
  | c :: rest =>
    if c = '0' then some ([c], rest)
    else if c.isDigit then
      let r := takeDigits rest
      some (c :: r.1, r.2)
    else none

/-- The optional fraction of a number literal. `some (true, rest)` when a
fraction was read, `some (false, cs)` when there is none, `none` when a dot is
not followed by a digit. -/
def scanFrac (cs : Text) : Option (Bool × Text) :=
  match cs with
  | '.' :: rest =>
    match takeDigits rest with
    | ([], _) => none
    | (_ :: _, r) => some (true, r)
  | _ => some (false, cs)

/-- Drop one leading sign, if there is one. -/
def skipSign : Text → Text
  | [] => []
  | s :: r => if s = '+' || s = '-' then r else s :: r

/-- The optional exponent of a number literal, as for `scanFrac`. -/
def scanExp (cs : Text) : Option (Bool × Text) :=
  match cs with
  | [] => some (false, [])
  | c :: rest =>
    if c = 'e' || c = 'E' then
      match takeDigits (skipSign rest) with
      | ([], _) => none
      | (_ :: _, r) => some (true, r)
    else some (false, c :: rest)

/-- A JSON number literal at the head of the text. -/
def scanNumber (cs : Text) : Option (JNumber × Text) :=
  let neg := cs.head? = some '-'
  let body := if neg then cs.tail else cs
  match scanInt body with
  | none => none
  | some (ds, r1) =>
    match scanFrac r1 with
    | none => none
    | some (hasFrac, r2) =>
      match scanExp r2 with
      | none => none
      | some (hasExp, r3) =>
        if neg || hasFrac || hasExp then some (JNumber.other, r3)
        else some (JNumber.nat (digitsValue ds), r3)

/-- Value of a hexadecimal digit. -/
def hexValue (c : Char) : Option Nat :=
  if c.isDigit then some (c.toNat - 48)
  else if 'a' ≤ c ∧ c ≤ 'f' then some (c.toNat - 87)
  else if 'A' ≤ c ∧ c ≤ 'F' then some (c.toNat - 55)
  else none

/-- The four hexadecimal digits of a `\u` escape (`getu4`). -/
def getu4 (a b c d : Char) : Option Nat :=
  match hexValue a, hexValue b, hexValue c, hexValue d with
  | some x, some y, some z, some w => some (((x * 16 + y) * 16 + z) * 16 + w)
  | _, _, _, _ => none

/-- A UTF-16 surrogate code unit. -/
def isSurrogate (n : Nat) : Bool := 0xD800 ≤ n && n < 0xE000

/-- The replacement character U+FFFD. -/
def replacementChar : Char := Char.ofNat 0xFFFD

/-- What the scanner finds at one position inside a string literal. -/
inductive StringStep where
  /-- The closing quote, with the text after it. -/
  | close (rest : Text)
  /-- One character of the string (plain or escaped), with the text after it. -/
  | char (c : Char) (rest : Text)
  /-- A syntax error: end of text, a control character or an unknown escape. -/
  | invalid

/-- The text left after a step, when the step is not a syntax error. -/
def StringStep.rest : StringStep → Option Text
  | StringStep.close rest => some rest
  | StringStep.char _ rest => some rest
  | StringStep.invalid => none

/-- The character a `\u` escape with code unit `hi` stands for, given the text
after its four digits: a surrogate followed by a second `\u` escape that
completes the pair is the combined character, any other surrogate is U+FFFD. -/
def unicodeEscape (hi : Nat) (rest : Text) : StringStep :=
  if isSurrogate hi then
    match rest with
    | b1 :: b2 :: l1 :: l2 :: l3 :: l4 :: rest2 =>
      match getu4 l1 l2 l3 l4 with
      | some lo =>
        if b1 = '\\' && b2 = 'u' && hi < 0xDC00 && 0xDC00 ≤ lo && lo < 0xE000 then
          StringStep.char (Char.ofNat (0x10000 + (hi - 0xD800) * 0x400 + (lo - 0xDC00))) rest2
        else StringStep.char replacementChar rest
      | none => StringStep.char replacementChar rest
    | _ => StringStep.char replacementChar rest
  else StringStep.char (Char.ofNat hi) rest

/-- The character a one-letter escape stands for. -/
def simpleEscape (e : Char) : Option Char :=
  if e = '"' then some '"'
  else if e = '\\' then some '\\'
  else if e = '/' then some '/'
  else if e = 'b' then some (Char.ofNat 8)
  else if e = 'f' then some (Char.ofNat 12)
  else if e = 'n' then some '\n'
  else if e = 'r' then some '\r'
  else if e = 't' then some '\t'
  else none

/-- The escape after a backslash: a `\u` escape with four hexadecimal digits,
or a one-letter escape. -/
def escapeStep (cs : Text) : StringStep :=
  match cs with
  | [] => StringStep.invalid
  | e :: rest =>
    if e = 'u' then
      match rest with
      | h1 :: h2 :: h3 :: h4 :: rest1 =>
        match getu4 h1 h2 h3 h4 with
        | none => StringStep.invalid
        | some hi => unicodeEscape hi rest1
      | _ => StringStep.invalid
    else
      match simpleEscape e with
      | some c => StringStep.char c rest
      | none => StringStep.invalid

/-- One step inside a string literal. Control characters and unknown escapes
are syntax errors. -/
def stringStep (cs : Text) : StringStep :=
  match cs with
  | [] => StringStep.invalid
  | c :: rest =>
    if c = '"' then StringStep.close rest
    else if c = '\\' then escapeStep rest
    else if c.toNat < 0x20 then StringStep.invalid
    else StringStep.char c rest

/-- The body of a string literal after the opening quote: unescaped contents
and the text after the closing quote. Every step consumes a character, so the
length of the text plus one is enough fuel (`scanString_fuel`). -/
def scanString : Nat → Text → Text → Option (Text × Text)
  | 0, _, _ => none
  | fuel + 1, cs, acc =>
    match stringStep cs with
    | StringStep.invalid => none
    | StringStep.close rest => some (acc.reverse, rest)
    | StringStep.char c rest => scanString fuel rest (c :: acc)

/-- A string literal at the head of the text. -/
def scanQuoted (cs : Text) : Option (Text × Text) :=
  match cs with
  | [] => none
  | q :: rest => if q = '"' then scanString (rest.length + 1) rest [] else none

/-- A value that is not a container: a string, `true`, `false`, `null` or a
number. -/
def parseScalar (cs : Text) : Option (JValue × Text) :=
  match cs with
  | [] => none
  | c :: rest =>
    if c = '"' then
      match scanQuoted (c :: rest) with
      | some (s, r) => some (JValue.str s, r)
      | none => none
    else if c = 't' then
      match rest with
      | 'r' :: 'u' :: 'e' :: r => some (JValue.bool true, r)
      | _ => none
    else if c = 'f' then
      match rest with
      | 'a' :: 'l' :: 's' :: 'e' :: r => some (JValue.bool false, r)
      | _ => none
    else if c = 'n' then
      match rest with
      | 'u' :: 'l' :: 'l' :: r => some (JValue.null, r)
      | _ => none
    else
      match scanNumber (c :: rest) with
      | some (n, r) => some (JValue.num n, r)
      | none => none

/-- What follows the opening bracket of a container. -/
inductive Opening where
  /-- The closing bracket: the container is empty. -/
  | empty (rest : Text)
  /-- The first element or member starts at `rest`. -/
  | content (rest : Text)
  /-- End of text. -/
  | invalid

/-- Classify the text after an opening bracket, for the closing bracket
`closer`. -/
def opening (closer : Char) (cs : Text) : Opening :=
  match skipSpace cs with
  | [] => Opening.invalid
  | d :: r => if d = closer then Opening.empty r else Opening.content (d :: r)

/-- What follows an element or a member of a container. -/
inductive Separator where
  /-- The closing bracket. -/
  | close (rest : Text)
  /-- A comma: the next element or member starts at `rest`. -/
  | next (rest : Text)
  /-- Anything else. -/
  | invalid

/-- Classify the text after an element or member, for the closing bracket
`closer`. -/
def separator (closer : Char) (cs : Text) : Separator :=
  match skipSpace cs with
  | [] => Separator.invalid
  | d :: r =>
    if d = closer then Separator.close r
    else if d = ',' then Separator.next (skipSpace r)
    else Separator.invalid

/-- The key of an object member and its colon: the key and the text at which
the member value starts. -/
def memberKey (cs : Text) : Option (Text × Text) :=
  match scanQuoted cs with
  | none => none
  | some (k, r) =>
    match skipSpace r with
    | [] => none
    | colon :: r1 => if colon = ':' then some (k, skipSpace r1) else none

/-- Greatest container nesting the scanner accepts (`maxNestingDepth`). -/
def maxNestingDepth : Nat := 10000

/-- The opening bracket of an object. -/
def openBrace : Char := Char.ofNat 123

/-- The closing bracket of an object. -/
def closeBrace : Char := Char.ofNat 125

mutual
/-- One JSON value at the head of the text (no leading whitespace), inside
`depth` enclosing containers. -/
def parseValue : Nat → Nat → Text → Option (JValue × Text)
  | 0, _, _ => none
  | fuel + 1, depth, cs =>
    match cs with
    | [] => none
    | c :: rest =>
      if c = '[' then
        if depth ≥ maxNestingDepth then none
        else
          match opening ']' rest with
          | Opening.invalid => none
          | Opening.empty r => some (JValue.arr [], r)
          | Opening.content r =>
            match parseElems fuel (depth + 1) r with
            | some (xs, r1) => some (JValue.arr xs, r1)
            | none => none
      else if c = openBrace then
        if depth ≥ maxNestingDepth then none
        else
          match opening closeBrace rest with
          | Opening.invalid => none
          | Opening.empty r => some (JValue.obj [], r)
          | Opening.content r =>
            match parseMembers fuel (depth + 1) r with
            | some (kvs, r1) => some (JValue.obj kvs, r1)
            | none => none
      else parseScalar (c :: rest)
/-- The elements of an array after `[`, up to and including `]`. -/
def parseElems : Nat → Nat → Text → Option (List JValue × Text)
  | 0, _, _ => none
  | fuel + 1, depth, cs =>
    match parseValue fuel depth cs with
    | none => none
    | some (v, r) =>
      match separator ']' r with
      | Separator.invalid => none
      | Separator.close r1 => some ([v], r1)
      | Separator.next r1 =>
        match parseElems fuel depth r1 with
        | some (vs, r2) => some (v :: vs, r2)
        | none => none
/-- The members of an object after the opening brace, up to and including the
closing brace. -/
def parseMembers : Nat → Nat → Text → Option (List (Text × JValue) × Text)
  | 0, _, _ => none
  | fuel + 1, depth, cs =>
    match memberKey cs with
    | none => none
    | some (k, r) =>
      match parseValue fuel depth r with
      | none => none
      | some (v, r2) =>
        match separator closeBrace r2 with
        | Separator.invalid => none
        | Separator.close r3 => some ([(k, v)], r3)
        | Separator.next r3 =>
          match parseMembers fuel depth r3 with
          | some (kvs, r4) => some ((k, v) :: kvs, r4)
          | none => none
end

/-- The syntax layer of `json.Unmarshal`: the whole text must be one JSON
value surrounded by optional whitespace; `none` is a `SyntaxError`. Of any
two nested calls at least one consumes a character, so twice the length of
the text plus two is enough fuel (`parseValue_fuel`). -/
def parseJSON (raw : Text) : Option JValue :=
  match parseValue (2 * raw.length + 2) 0 (skipSpace raw) with
  | some (v, rest) => if skipSpace rest = [] then some v else none
  | none => none

/-! ## Storing a JSON value into the Go slice (`encoding/json` decoder) -/

/-- The element type of `ports` in `parseInstancePorts`:
`struct { External uint16; ExternalTLSProxy uint16 }`. -/
structure PortMapping where
  External : Nat
  ExternalTLSProxy : Nat
  deriving DecidableEq, Repr

/-- The two exported fields of `PortMapping`. -/
inductive Field where
  | External
  | ExternalTLSProxy
  deriving DecidableEq, Repr

/-- Read a field. -/
def PortMapping.get (pm : PortMapping) : Field → Nat
  | Field.External => pm.External
  | Field.ExternalTLSProxy => pm.ExternalTLSProxy

/-- Write a field. -/
def PortMapping.set (pm : PortMapping) (f : Field) (n : Nat) : PortMapping :=
  match f with
  | Field.External => { pm with External := n }
  | Field.ExternalTLSProxy => { pm with ExternalTLSProxy := n }

/-- The JSON names given by the struct tags:
`json:"external"` and `json:"external_tls_proxy"`. -/
def fieldName : Field → Text
  | Field.External => "external".toList
  | Field.ExternalTLSProxy => "external_tls_proxy".toList

/-- The fields of the struct with their JSON names, in declaration order. -/
def fieldNames : List (Text × Field) :=
  [(fieldName Field.External, Field.External),
   (fieldName Field.ExternalTLSProxy, Field.ExternalTLSProxy)]

/-- Case folding of one character as `encoding/json` folds key names: ASCII
letters to upper case, and the two non-ASCII characters that fold to an ASCII
letter (U+017F to `S`, U+212A to `K`). Other characters fold among non-ASCII
characters only and are left as they are, which cannot change a comparison
with an ASCII field name. -/
def foldRune (c : Char) : Char :=
  if 'a' ≤ c ∧ c ≤ 'z' then Char.ofNat (c.toNat - 32)
  else if c = Char.ofNat 0x17F then 'S'
  else if c = Char.ofNat 0x212A then 'K'
  else c

/-- Case folding of a key (`foldName`). -/
def foldName (s : Text) : Text := s.map foldRune

/-- A JSON key matches a name when it is equal to it or equal up to case
folding. -/
def keyMatches (name key : Text) : Bool :=
  name = key || foldName name = foldName key

/-- The struct field a JSON key is stored into: an exact match of the JSON name
is preferred, a case-insensitive match is accepted, other keys are skipped. -/
def findField (key : Text) : Option Field :=
  match fieldNames.find? (fun p => p.1 = key) with
  | some p => some p.2
  | none =>
    match fieldNames.find? (fun p => foldName p.1 = foldName key) with
    | some p => some p.2
    | none => none

/-- Errors of `json.Unmarshal`: a `SyntaxError` or an `UnmarshalTypeError`. -/
inductive UnmarshalError where
  | invalidJSON
  | typeMismatch
  deriving DecidableEq, Repr

/-- Store a JSON value into a `uint16` holding `old`: `null` leaves the value
as it is, a digits-only literal that fits 16 bits is stored, anything else is
an `UnmarshalTypeError`. -/
def storeUint16 (v : JValue) (old : Nat) : Except UnmarshalError Nat :=
  match v with
  | JValue.null => Except.ok old
  | JValue.num (JNumber.nat n) =>
    if n ≤ 65535 then Except.ok n else Except.error UnmarshalError.typeMismatch
  | _ => Except.error UnmarshalError.typeMismatch

/-- Store the members of a JSON object into a struct, in order: a later member
overwrites an earlier one that names the same field. -/
def decodeObject : List (Text × JValue) → PortMapping → Except UnmarshalError PortMapping
  | [], pm => Except.ok pm
  | (k, v) :: rest, pm =>
    match findField k with
    | none => decodeObject rest pm
    | some f =>
      match storeUint16 v (pm.get f) with
      | Except.error err => Except.error err
      | Except.ok n => decodeObject rest (pm.set f n)

/-- Store one array element into a fresh (zero) struct: `null` leaves it zero,
an object is stored member by member, anything else is an
`UnmarshalTypeError`. -/
def decodeElem (v : JValue) : Except UnmarshalError PortMapping :=
  match v with
  | JValue.null => Except.ok { External := 0, ExternalTLSProxy := 0 }
  | JValue.obj kvs => decodeObject kvs { External := 0, ExternalTLSProxy := 0 }
  | _ => Except.error UnmarshalError.typeMismatch

/-- Store every element of a JSON array; the slice gets one struct per
element. -/
def decodeElems : List JValue → Except UnmarshalError (List PortMapping)
  | [] => Except.ok []
  | v :: vs =>
    match decodeElem v with
    | Except.error err => Except.error err
    | Except.ok pm =>
      match decodeElems vs with
      | Except.error err => Except.error err
      | Except.ok pms => Except.ok (pm :: pms)

/-- Store a JSON value into the nil slice `ports`: `null` leaves it nil, an
array is stored element by element, anything else is an
`UnmarshalTypeError`. -/
def decodePorts (v : JValue) : Except UnmarshalError (List PortMapping) :=
  match v with
  | JValue.null => Except.ok []
  | JValue.arr xs => decodeElems xs
  | _ => Except.error UnmarshalError.typeMismatch

/-- The call `json.Unmarshal(instancePorts, &ports)`: the error it returns, or
the decoded slice. Go keeps decoding after an `UnmarshalTypeError` and returns
the first one at the end; the partly filled slice is not represented because
`parseInstancePorts` exits when the error is not nil. -/
def Unmarshal (raw : Text) : Except UnmarshalError (List PortMapping) :=
  match parseJSON raw with
  | none => Except.error UnmarshalError.invalidJSON
  | some v => decodePorts v

/-! ## `parseInstancePorts` -/

/-- The two `os.Exit(1)` sites of `parseInstancePorts`. -/
inductive Fatal where
  | cannotUnmarshal (err : UnmarshalError)
  | emptyPorts
  deriving DecidableEq, Repr

/-- The function `parseInstancePorts`: returns `(internalPort, externalPort)`,
or terminates the process. -/
def parseInstancePorts (instancePorts : Text) : Except Fatal (Nat × Nat) :=
  let internalPort : Nat := 8080
  match Unmarshal instancePorts with
  | Except.error err => Except.error (Fatal.cannotUnmarshal err)
  | Except.ok ports =>
    if h : ports.length ≤ 0 then Except.error Fatal.emptyPorts
    else
      let first := ports.get ⟨0, by omega⟩
      let externalPort := first.External
      let externalPort := if externalPort = 0 then first.ExternalTLSProxy else externalPort
      Except.ok (internalPort, externalPort)

/-! ## Port-mapping payloads, as the specification describes them -/

/-- The values of the members of an object whose key matches `name`. -/
def membersNamed (name : Text) (kvs : List (Text × JValue)) : List JValue :=
  (kvs.filter (fun kv => keyMatches name kv.1)).map Prod.snd

/-- The value is the digits-only number literal `n`. -/
def isNatLit (n : Nat) : JValue → Bool
  | JValue.num (JNumber.nat m) => decide (m = n)
  | _ => false

/-- The object has the numeric field `name` with value `n`: at least one member
is keyed `name`, and every member keyed `name` carries the number `n`. -/
def HasField (name : Text) (kvs : List (Text × JValue)) (n : Nat) : Prop :=
  (membersNamed name kvs).isEmpty = false ∧ (membersNamed name kvs).all (isNatLit n) = true

instance instDecidableHasField (name : Text) (kvs : List (Text × JValue)) (n : Nat) :
    Decidable (HasField name kvs n) :=
  inferInstanceAs (Decidable
    ((membersNamed name kvs).isEmpty = false ∧ (membersNamed name kvs).all (isNatLit n) = true))

/-- The field `name` is zero or absent: every member keyed `name` (there may be
none) carries the number `0`. -/
def ZeroOrAbsent (name : Text) (kvs : List (Text × JValue)) : Prop :=
  (membersNamed name kvs).all (isNatLit 0) = true

instance instDecidableZeroOrAbsent (name : Text) (kvs : List (Text × JValue)) :
    Decidable (ZeroOrAbsent name kvs) :=
  inferInstanceAs (Decidable ((membersNamed name kvs).all (isNatLit 0) = true))

/-- A member value a `uint16` port field accepts: `null` or an integer literal
in `0..65535`. -/
def isPortValue : JValue → Bool
  | JValue.null => true
  | JValue.num (JNumber.nat n) => decide (n ≤ 65535)
  | _ => false

/-- A port-mapping object: each member keyed `external` or
`external_tls_proxy` carries a port value; other members are free. -/
def isPortObject (kvs : List (Text × JValue)) : Bool :=
  kvs.all (fun kv =>
    (!keyMatches (fieldName Field.External) kv.1 &&
      !keyMatches (fieldName Field.ExternalTLSProxy) kv.1) || isPortValue kv.2)

/-- A port-mapping array element: a port-mapping object, or `null`. -/
def isPortElem : JValue → Bool
  | JValue.null => true
  | JValue.obj kvs => isPortObject kvs
  | _ => false

/-- The payload has the expected shape: it is valid JSON, and it is an array of
port-mapping elements (or the JSON value `null`, an absent array). -/
def hasPortsShape (raw : Text) : Bool :=
  match parseJSON raw with
  | some JValue.null => true
  | some (JValue.arr xs) => xs.all isPortElem
  | _ => false


/-- The payload is valid JSON for an empty sequence: the value `null` or the
empty array. -/
def isEmptyPayload (raw : Text) : Bool :=
  match parseJSON raw with
  | some JValue.null => true
  | some (JValue.arr []) => true
  | _ => false

/-! ## Concrete payloads -/

/-- A payload whose object names the TLS proxy port `externalTLSProxy`. -/
def camelCasePayload : Text :=
  "[\x7b\"external\":0,\"externalTLSProxy\":61046\x7d]".toList

/-- The members of the object of `camelCasePayload`. -/
def camelCaseMembers : List (Text × JValue) :=
  [("external".toList, JValue.num (JNumber.nat 0)),
   ("externalTLSProxy".toList, JValue.num (JNumber.nat 61046))]

/-- A one-element payload. -/
def singlePayload : Text := "[\x7b\"external\":5\x7d]".toList

/-- The same first element followed by an object whose port does not fit 16
bits. -/
def overflowTailPayload : Text :=
  "[\x7b\"external\":5\x7d,\x7b\"external\":70000\x7d]".toList

/-- The same first element followed by a second port-mapping object. -/
def twoElementPayload : Text :=
  "[\x7b\"external\":5\x7d,\x7b\"external\":6\x7d]".toList

/-- The first element of `singlePayload`, `overflowTailPayload` and
`twoElementPayload`. -/
def firstOfFive : JValue := JValue.obj [("external".toList, JValue.num (JNumber.nat 5))]

/-! ## Address resolution (`getSyslogDrainAddresses`) -/

/-- The constant `numberOfListenerApps`. -/
def numberOfListenerApps : Nat := 2

/-- Ways a scenario step stops the test or the process. -/
inductive Failure where
  /-- Run-time panic: index out of range. -/
  | indexOutOfRange
  /-- Run-time panic: close of closed channel. -/
  | closeOfClosedChannel
  /-- A call of `os.Exit(1)`. -/
  | exit (f : Fatal)
  /-- An `Eventually` whose matcher never succeeded within its budget. -/
  | timedOut
  deriving DecidableEq, Repr

/-- The regular expression `pattern + "=(.*)"` tried at the head of the text:
the literal `pattern=` followed by the capture, which runs to the end of the
line (`.` matches every character but the newline). -/
def matchHere (pattern : Text) (text : Text) : Option Text :=
  if (pattern ++ ['=']).isPrefixOf text then
    some ((text.drop (pattern.length + 1)).takeWhile (fun c => c ≠ '\n'))
  else none

/-- The first capture group of the leftmost match, or `none` when
`FindSubmatch` returns nil. -/
def FindSubmatch (pattern : Text) : Text → Option Text
  | [] => matchHere pattern []
  | c :: rest =>
    match matchHere pattern (c :: rest) with
    | some capture => some capture
    | none => FindSubmatch pattern rest

/-- The verbs `%s:%d` of `fmt.Sprintf`: the host, a colon, the port in
decimal. -/
def formatAddress (host : Text) (port : Nat) : Text :=
  host ++ [':'] ++ Nat.toDigits 10 port

/-- The function literal polled by `Eventually` for one instance: reads the
three variables from the environment text of the instance, parses the ports,
appends the external and the internal address to `addresses`, and returns the
non-nil slice of the two. Indexing a nil `FindSubmatch` result panics. -/
def pollInstance (appEnvironment : Text) (addresses : List Text) :
    Except Failure (Option (List Text) × List Text) :=
  match FindSubmatch "CF_INSTANCE_INTERNAL_IP".toList appEnvironment with
  | none => Except.error Failure.indexOutOfRange
  | some internalIP =>
    match FindSubmatch "CF_INSTANCE_IP".toList appEnvironment with
    | none => Except.error Failure.indexOutOfRange
    | some externalIP =>
      match FindSubmatch "CF_INSTANCE_PORTS".toList appEnvironment with
      | none => Except.error Failure.indexOutOfRange
      | some instancePorts =>
        match parseInstancePorts instancePorts with
        | Except.error f => Except.error (Failure.exit f)
        | Except.ok (internalPort, externalPort) =>
          let internalAddress := formatAddress internalIP internalPort
          let externalAddress := formatAddress externalIP externalPort
          let addresses := addresses ++ [externalAddress]
          let addresses := addresses ++ [internalAddress]
          Except.ok (some [externalAddress, internalAddress], addresses)

/-- The matcher `Not(BeNil())` on a slice value (`none` is the nil slice). -/
def notBeNil (actual : Option (List Text)) : Bool := actual.isSome

/-- The polling of `Eventually(f).Should(matcher)`: `f` is called, and called
again while the matcher fails, at most `polls` times in all; a panic or an exit
inside `f` ends the polling. The attempt number selects what the outside world
answers at that call. -/
def eventuallyLoop {σ α : Type} (matcher : α → Bool)
    (f : Nat → σ → Except Failure (α × σ)) : Nat → Nat → σ → Except Failure σ
  | 0, _, _ => Except.error Failure.timedOut
  | polls + 1, attempt, st =>
    match f attempt st with
    | Except.error e => Except.error e
    | Except.ok (actual, st1) =>
      if matcher actual then Except.ok st1
      else eventuallyLoop matcher f polls (attempt + 1) st1

/-- The assertion `Eventually(f).Should(matcher)` with a budget of `retries`
polls after the first one. -/
def Eventually {σ α : Type} (retries : Nat) (matcher : α → Bool)
    (f : Nat → σ → Except Failure (α × σ)) (st : σ) : Except Failure σ :=
  eventuallyLoop matcher f (retries + 1) 0 st

/-- The loop `for i := 0; i < numberOfListenerApps; i++` of
`getSyslogDrainAddresses`, with `remaining` iterations left. `env i attempt` is
the output of `cf ssh appName -c env -i i` at the given polling attempt. -/
def resolveInstances (retries : Nat) (env : Nat → Nat → Text) :
    Nat → Nat → List Text → Except Failure (List Text)
  | 0, _, addresses => Except.ok addresses
  | remaining + 1, i, addresses =>
    match Eventually retries notBeNil (fun attempt st => pollInstance (env i attempt) st)
        addresses with
    | Except.error e => Except.error e
    | Except.ok addresses1 => resolveInstances retries env remaining (i + 1) addresses1

/-- The function `getSyslogDrainAddresses`. -/
def getSyslogDrainAddresses (retries : Nat) (env : Nat → Nat → Text) :
    Except Failure (List Text) :=
  resolveInstances retries env numberOfListenerApps 0 []

/-- The environment text of an instance resolves to the given external and
internal address: the three variables are found, the ports parse, and the
addresses are the formatted pairs. -/
def ResolvesTo (text externalAddress internalAddress : Text) : Prop :=
  ∃ internalIP externalIP ports externalPort,
    FindSubmatch "CF_INSTANCE_INTERNAL_IP".toList text = some internalIP ∧
    FindSubmatch "CF_INSTANCE_IP".toList text = some externalIP ∧
    FindSubmatch "CF_INSTANCE_PORTS".toList text = some ports ∧
    parseInstancePorts ports = Except.ok (8080, externalPort) ∧
    externalAddress = formatAddress externalIP externalPort ∧
    internalAddress = formatAddress internalIP 8080

/-- Whitespace of the regular-expression class `\s` (so `\S` is its
complement): tab, newline, form feed, carriage return, space. -/
def isRegexSpace (c : Char) : Bool :=
  c = '\t' || c = '\n' || c = Char.ofNat 12 || c = '\r' || c = ' '

/-- The text matches `^\S+:\d+$` split after `i` characters: a non-empty host
without whitespace, a colon, one or more decimal digits. -/
def matchesAddressAt (s : Text) (i : Nat) : Bool :=
  !(s.take i).isEmpty && (s.take i).all (fun c => !isRegexSpace c) &&
    match s.drop i with
    | c :: ds => c = ':' && !ds.isEmpty && ds.all Char.isDigit
    | [] => false

/-- The text matches the regular expression `^\S+:\d+$`. -/
def matchesAddress (s : Text) : Bool :=
  (List.range (s.length + 1)).any (matchesAddressAt s)

/-! ## The scenarios -/

/-- The settings of `Config` the scenarios read. -/
structure Config where
  RequireProxiedAppTraffic : Bool
  IncludeTCPRouting : Bool
  AppSyslogTcpClientCert : Text
  AppSyslogTcpClientKey : Text
  DefaultTimeoutDuration : Nat

/-- The `cf` commands a scenario issues while provisioning drains. -/
inductive CfCommand where
  /-- The command `cf cups name -l url`, with `-p credentials` when given (the
  certificate and the key that were marshalled). -/
  | cups (serviceName url : Text) (credentials : Option (Text × Text))
  /-- The command `cf bind-service appName serviceName`. -/
  | bindService (appName serviceName : Text)
  deriving DecidableEq, Repr

/-- The drain URL the IP based scenario builds for an address. -/
def syslogDrainURL (cfg : Config) (address : Text) : Text :=
  if cfg.RequireProxiedAppTraffic then "syslog-tls://".toList ++ address
  else "syslog://".toList ++ address

/-- The scheme of a URL: the text before the first colon. -/
def schemeOf (url : Text) : Text := url.takeWhile (fun c => c ≠ ':')

/-- The slice `serviceNames` built by the `BeforeEach` of the IP based
scenario. `CATSRandomName` stands for `random_name.CATSRandomName`. -/
def serviceNames (CATSRandomName : Text → Text) : List Text :=
  [CATSRandomName "SVIN1".toList, CATSRandomName "SVIN-INT1".toList,
   CATSRandomName "SVIN2".toList, CATSRandomName "SVIN-INT2".toList]

/-- The `cups` command of the IP based scenario: without credentials when the
client certificate or the client key is empty, with both otherwise. -/
def createService (cfg : Config) (name url : Text) : CfCommand :=
  let cert := cfg.AppSyslogTcpClientCert
  let key := cfg.AppSyslogTcpClientKey
  if cert = [] || key = [] then CfCommand.cups name url none
  else CfCommand.cups name url (some (cert, key))

/-- The loop `for i, address := range getSyslogDrainAddresses(...)` of the IP
based scenario, from index `i` on: one user-provided service per address and
its binding to the first log writer. Indexing `serviceNames` out of range
panics. Each `cf` command is taken to exit with 0. -/
def registerDrains (cfg : Config) (names : List Text) (logWriterAppName1 : Text) :
    Nat → List Text → Except Failure (List CfCommand)
  | _, [] => Except.ok []
  | i, address :: rest =>
    match names.get? i with
    | none => Except.error Failure.indexOutOfRange
    | some name =>
      let syslogDrainURL := syslogDrainURL cfg address
      match registerDrains cfg names logWriterAppName1 (i + 1) rest with
      | Except.error e => Except.error e
      | Except.ok cmds =>
        Except.ok (createService cfg name syslogDrainURL ::
          CfCommand.bindService logWriterAppName1 name :: cmds)

/-- The provisioning part of the IP based scenario: `none` when the scenario is
skipped because TCP routing is included. -/
def ipScenario (cfg : Config) (CATSRandomName : Text → Text) (logWriterAppName1 : Text)
    (retries : Nat) (env : Nat → Nat → Text) : Option (Except Failure (List CfCommand)) :=
  if cfg.IncludeTCPRouting then none
  else
    match getSyslogDrainAddresses retries env with
    | Except.error e => some (Except.error e)
    | Except.ok addresses =>
      some (registerDrains cfg (serviceNames CATSRandomName) logWriterAppName1 0 addresses)

/-- The drain URL the tcp-routing based scenario builds:
`fmt.Sprintf("syslog://%s:%s", domainName, externalPort)`. -/
def tcpRoutingDrainURL (domainName externalPort : Text) : Text :=
  "syslog://".toList ++ domainName ++ [':'] ++ externalPort

/-- The provisioning part of the tcp-routing based scenario: `none` when the
scenario is skipped because TCP routing is not included. -/
def tcpRoutingScenario (cfg : Config) (serviceName domainName externalPort : Text)
    (logWriterAppName1 : Text) : Option (List CfCommand) :=
  if !cfg.IncludeTCPRouting then none
  else
    some [CfCommand.cups serviceName (tcpRoutingDrainURL domainName externalPort) none,
      CfCommand.bindService logWriterAppName1 serviceName]

/-- The URLs of the `cups` commands in a list of commands. -/
def drainURLs : List CfCommand → List Text
  | [] => []
  | CfCommand.cups _ url _ :: rest => url :: drainURLs rest
  | CfCommand.bindService _ _ :: rest => drainURLs rest

/-- The services bound in a list of commands, with the application each is
bound to. -/
def bindings : List CfCommand → List (Text × Text)
  | [] => []
  | CfCommand.cups _ _ _ :: rest => bindings rest
  | CfCommand.bindService app name :: rest => (app, name) :: bindings rest

/-- The services created in a list of commands, with the URL of each. -/
def createdServices : List CfCommand → List (Text × Text)
  | [] => []
  | CfCommand.cups name url _ :: rest => (name, url) :: createdServices rest
  | CfCommand.bindService _ _ :: rest => createdServices rest

/-! ## Log emission (`writeLogsUntilInterrupted`) and its cancel signal -/

/-- A Go channel of `struct`, as far as the scenarios use it: whether it has
been closed, and how many values are buffered. -/
structure Chan where
  closed : Bool
  buffered : Nat
  capacity : Nat
  deriving DecidableEq, Repr

/-- The call `make(chan struct, 1)` of `BeforeEach`. -/
def makeInterrupt : Chan := { closed := false, buffered := 0, capacity := 1 }

/-- The builtin `close`: closing a closed channel is a run-time panic. -/
def Chan.close (c : Chan) : Except Failure Chan :=
  if c.closed then Except.error Failure.closeOfClosedChannel
  else Except.ok { c with closed := true }

/-- A receive that does not block (a `select` with a `default` case): `some`
of the channel after the receive when a value is buffered or the channel is
closed, `none` when the receive would block. -/
def Chan.tryReceive (c : Chan) : Option Chan :=
  if 0 < c.buffered then some { c with buffered := c.buffered - 1 }
  else if c.closed then some c
  else none

/-- What a log writer does, in order. -/
inductive Event where
  /-- The call `helpers.CurlAppWithTimeout(Config, appName, path, timeout)`. -/
  | curl (appName path : Text) (timeout : Nat)
  /-- The call `time.Sleep` with the given number of seconds. -/
  | sleep (seconds : Nat)
  deriving DecidableEq, Repr

/-- One iteration of the loop of `writeLogsUntilInterrupted`: `none` when the
`select` receives from `interrupt` and the function returns, otherwise the
events of the `default` case. -/
def writeLogsIteration (cfg : Config) (interrupt : Chan) (randomMessage : Text)
    (logWriterAppName : Text) : Option (List Event) :=
  match interrupt.tryReceive with
  | some _ => none
  | none =>
    some [Event.curl logWriterAppName ("/log/".toList ++ randomMessage)
        cfg.DefaultTimeoutDuration,
      Event.sleep 3]

/-- The function `writeLogsUntilInterrupted`, run for at most `fuel`
iterations starting with iteration `k`. `interrupt k` is the state of the
channel when iteration `k` begins (other goroutines may close it in between).
Returns the events issued and whether the function has returned. -/
def writeLogsUntilInterrupted (cfg : Config) (interrupt : Nat → Chan) (randomMessage : Text)
    (logWriterAppName : Text) : Nat → Nat → List Event × Bool
  | 0, _ => ([], false)
  | fuel + 1, k =>
    match writeLogsIteration cfg (interrupt k) randomMessage logWriterAppName with
    | none => ([], true)
    | some events =>
      let r := writeLogsUntilInterrupted cfg interrupt randomMessage logWriterAppName fuel (k + 1)
      (events ++ r.1, r.2)

/-- The events of one iteration that finds the signal not set: one request for
`/log/` followed by the tag, then a sleep of 3 seconds. -/
def iterationEvents (cfg : Config) (randomMessage logWriterAppName : Text) : List Event :=
  [Event.curl logWriterAppName ("/log/".toList ++ randomMessage) cfg.DefaultTimeoutDuration,
    Event.sleep 3]

/-- The events `events` issued `n` times in a row. -/
def repeatedEvents : Nat → List Event → List Event
  | 0, _ => []
  | n + 1, events => events ++ repeatedEvents n events

/-! ## Concrete environments -/

/-- The output of `env` on a listener instance. -/
def sampleEnvironment (internalIP externalIP ports : String) : Text :=
  ("HOME=/home/vcap/app\nCF_INSTANCE_INTERNAL_IP=" ++ internalIP ++
    "\nCF_INSTANCE_IP=" ++ externalIP ++
    "\nCF_INSTANCE_PORTS=" ++ ports ++ "\nPORT=8080\n").toList

/-- Two well-formed listener instances. -/
def sampleEnv (i : Nat) (_attempt : Nat) : Text :=
  if i = 0 then sampleEnvironment "10.255.0.1" "10.0.1.5" "[\x7b\"external\":61045\x7d]"
  else sampleEnvironment "10.255.0.2" "10.0.1.6" "[\x7b\"external_tls_proxy\":61002\x7d]"

/-- Two listener instances whose `CF_INSTANCE_IP` is set to the empty text. -/
def emptyHostEnv (i : Nat) (_attempt : Nat) : Text :=
  if i = 0 then sampleEnvironment "10.255.0.1" "" "[\x7b\"external\":61045\x7d]"
  else sampleEnvironment "10.255.0.2" "" "[\x7b\"external\":61046\x7d]"

/-- The channel made by `BeforeEach` after one `close`. -/
def closedInterrupt : Chan := { closed := true, buffered := 0, capacity := 1 }

/-- A signal that is open at iterations 0 and 1 and closed from iteration 2
on. -/
def closedFromThird (k : Nat) : Chan :=
  if k < 2 then makeInterrupt else closedInterrupt

/-- The addresses `emptyHostEnv` resolves to. -/
def emptyHostAddresses : List Text :=
  [":61045".toList, "10.255.0.1:8080".toList, ":61046".toList, "10.255.0.2:8080".toList]

/-- The addresses `sampleEnv` resolves to. -/
def sampleAddresses : List Text :=
  ["10.0.1.5:61045".toList, "10.255.0.1:8080".toList,
    "10.0.1.6:61002".toList, "10.255.0.2:8080".toList]

/-- A name generator that puts a fixed tag before the resource name. -/
def sampleRandomName (resource : Text) : Text := "CATS-1-".toList ++ resource

/-- Settings with proxied traffic required and TCP routing included. -/
def proxiedTCPConfig : Config :=
  { RequireProxiedAppTraffic := true, IncludeTCPRouting := true,
    AppSyslogTcpClientCert := [], AppSyslogTcpClientKey := [], DefaultTimeoutDuration := 30 }

/-- Settings with proxied traffic required and TCP routing not included. -/
def proxiedIPConfig : Config :=
  { RequireProxiedAppTraffic := true, IncludeTCPRouting := false,
    AppSyslogTcpClientCert := [], AppSyslogTcpClientKey := [], DefaultTimeoutDuration := 30 }

/-- Settings with neither proxied traffic nor TCP routing. -/
def plainIPConfig : Config :=
  { RequireProxiedAppTraffic := false, IncludeTCPRouting := false,
    AppSyslogTcpClientCert := [], AppSyslogTcpClientKey := [], DefaultTimeoutDuration := 30 }


/-! ## JSON texts (RFC 8259), as a grammar

The grammar is stated on its own, without the scanner: `JsonText raw v` says
that the text `raw` is a JSON text and denotes the value tree `v`. Strings
denote their unescaped contents the way `encoding/json` unquotes them (an
unpaired surrogate escape denotes U+FFFD); containers nest at most
`10000` deep, the limit of `encoding/json`. -/

/-- One of the four JSON whitespace characters. -/
def isBlankChar (c : Char) : Bool :=
  c = ' ' || c = '\n' || c = '\r' || c = '\t'

/-- A run of JSON whitespace, possibly empty. -/
def Blank (w : Text) : Prop := w.all isBlankChar = true

instance instDecidableBlank (w : Text) : Decidable (Blank w) :=
  inferInstanceAs (Decidable (w.all isBlankChar = true))

/-- A non-empty run of decimal digits. -/
def IsDigits (ds : Text) : Prop := ds.isEmpty = false ∧ ds.all Char.isDigit = true

instance instDecidableIsDigits (ds : Text) : Decidable (IsDigits ds) :=
  inferInstanceAs (Decidable (ds.isEmpty = false ∧ ds.all Char.isDigit = true))

/-- The integer part of a number: `0`, or digits that do not start with `0`. -/
def IsIntPart (ds : Text) : Prop := ds = ['0'] ∨ (IsDigits ds ∧ ds.head? ≠ some '0')

instance instDecidableIsIntPart (ds : Text) : Decidable (IsIntPart ds) :=
  inferInstanceAs (Decidable (ds = ['0'] ∨ (IsDigits ds ∧ ds.head? ≠ some '0')))

/-- The fraction of a number: nothing, or a dot and digits. -/
inductive IsFracPart : Text → Prop where
  | none : IsFracPart []
  | some (ds : Text) : IsDigits ds → IsFracPart ('.' :: ds)

/-- The exponent of a number: nothing, or `e` or `E`, an optional sign, and
digits. -/
inductive IsExpPart : Text → Prop where
  | none : IsExpPart []
  | some (e : Char) (sign ds : Text) : (e = 'e' ∨ e = 'E') →
      (sign = [] ∨ sign = ['+'] ∨ sign = ['-']) → IsDigits ds → IsExpPart (e :: (sign ++ ds))

/-- A number literal and what it denotes: the decimal numeral of a natural
number denotes that number; a literal with a minus sign, a fraction or an
exponent is kept as `JNumber.other`. -/
inductive NumberText : Text → JNumber → Prop where
  | nat (n : Nat) : NumberText (Nat.toDigits 10 n) (JNumber.nat n)
  | other (sign int frac exp : Text) : (sign = [] ∨ sign = ['-']) → IsIntPart int →
      IsFracPart frac → IsExpPart exp → (sign ≠ [] ∨ frac ≠ [] ∨ exp ≠ []) →
      NumberText (sign ++ (int ++ (frac ++ exp))) JNumber.other

/-- A hexadecimal digit and its value: the digit character of the value, in
lower or upper case. -/
def HexDigit (c : Char) (v : Nat) : Prop :=
  v < 16 ∧ (c = Nat.digitChar v ∨ c = (Nat.digitChar v).toUpper)

/-- Four hexadecimal digits and the 16-bit code unit they spell. -/
def Hex4 (h1 h2 h3 h4 : Char) (code : Nat) : Prop :=
  ∃ a b c d, HexDigit h1 a ∧ HexDigit h2 b ∧ HexDigit h3 c ∧ HexDigit h4 d ∧
    code = ((a * 16 + b) * 16 + c) * 16 + d

/-- The one-letter escapes and the characters they denote. -/
def escapeTable : List (Char × Char) :=
  [('"', '"'), ('\\', '\\'), ('/', '/'), ('b', Char.ofNat 8), ('f', Char.ofNat 12),
   ('n', Char.ofNat 10), ('r', Char.ofNat 13), ('t', Char.ofNat 9)]

/-- The text begins with the escape of a low surrogate (`\uDC00` to
`\uDFFF`). -/
def BeginsWithLowSurrogate (t : Text) : Prop :=
  ∃ l1 l2 l3 l4 lo tail, t = '\\' :: 'u' :: l1 :: l2 :: l3 :: l4 :: tail ∧
    Hex4 l1 l2 l3 l4 lo ∧ 0xDC00 ≤ lo ∧ lo < 0xE000

/-- The text between the quotes of a string literal, and the contents it
denotes. -/
inductive StringText : Text → Text → Prop where
  | nil : StringText [] []
  /-- Any character from U+0020 on, but the quote and the backslash, stands for
  itself. -/
  | plain (c : Char) (body s : Text) : 0x20 ≤ c.toNat → c ≠ '"' → c ≠ '\\' →
      StringText body s → StringText (c :: body) (c :: s)
  /-- A one-letter escape. -/
  | escape (e c : Char) (body s : Text) : (e, c) ∈ escapeTable →
      StringText body s → StringText ('\\' :: e :: body) (c :: s)
  /-- A `\u` escape of a code unit that is not a surrogate. -/
  | unicode (h1 h2 h3 h4 : Char) (code : Nat) (body s : Text) : Hex4 h1 h2 h3 h4 code →
      ¬ (0xD800 ≤ code ∧ code < 0xE000) → StringText body s →
      StringText ('\\' :: 'u' :: h1 :: h2 :: h3 :: h4 :: body) (Char.ofNat code :: s)
  /-- A high surrogate escape followed by a low surrogate escape. -/
  | pair (h1 h2 h3 h4 l1 l2 l3 l4 : Char) (hi lo : Nat) (body s : Text) :
      Hex4 h1 h2 h3 h4 hi → Hex4 l1 l2 l3 l4 lo → 0xD800 ≤ hi → hi < 0xDC00 →
      0xDC00 ≤ lo → lo < 0xE000 → StringText body s →
      StringText ('\\' :: 'u' :: h1 :: h2 :: h3 :: h4 :: '\\' :: 'u' :: l1 :: l2 :: l3 :: l4 :: body)
        (Char.ofNat (0x10000 + (hi - 0xD800) * 0x400 + (lo - 0xDC00)) :: s)
  /-- A surrogate escape that is not the first half of a pair denotes
  U+FFFD. -/
  | lone (h1 h2 h3 h4 : Char) (code : Nat) (body s : Text) : Hex4 h1 h2 h3 h4 code →
      0xD800 ≤ code → code < 0xE000 → ¬ (code < 0xDC00 ∧ BeginsWithLowSurrogate body) →
      StringText body s →
      StringText ('\\' :: 'u' :: h1 :: h2 :: h3 :: h4 :: body) (Char.ofNat 0xFFFD :: s)

/-- A value that is not a container, and what it denotes. -/
inductive ScalarText : Text → JValue → Prop where
  | null : ScalarText "null".toList JValue.null
  | true : ScalarText "true".toList (JValue.bool Bool.true)
  | false : ScalarText "false".toList (JValue.bool Bool.false)
  | num (t : Text) (n : JNumber) : NumberText t n → ScalarText t (JValue.num n)
  | str (body s : Text) : StringText body s → ScalarText ('"' :: (body ++ ['"'])) (JValue.str s)

/-- The elements of a non-empty array with the closing bracket, for elements
described by `P`: values separated by commas, with optional whitespace around
the commas and before the bracket. -/
inductive ElemsText (P : Text → JValue → Prop) : Text → List JValue → Prop where
  | last (t w : Text) (v : JValue) : P t v → Blank w → ElemsText P (t ++ (w ++ [']'])) [v]
  | cons (t w1 w2 rest : Text) (v : JValue) (vs : List JValue) : P t v → Blank w1 →
      Blank w2 → ElemsText P rest vs → ElemsText P (t ++ (w1 ++ ',' :: (w2 ++ rest))) (v :: vs)

/-- The members of a non-empty object with the closing brace, for member values
described by `P`: each member is a string, a colon and a value, with optional
whitespace around the colon, around the commas and before the brace. -/
inductive MembersText (P : Text → JValue → Prop) : Text → List (Text × JValue) → Prop where
  | last (kbody k w1 w2 t w3 : Text) (v : JValue) : StringText kbody k → Blank w1 →
      Blank w2 → P t v → Blank w3 →
      MembersText P ('"' :: (kbody ++ '"' :: (w1 ++ ':' :: (w2 ++ (t ++ (w3 ++ [closeBrace]))))))
        [(k, v)]
  | cons (kbody k w1 w2 t w3 w4 rest : Text) (v : JValue) (kvs : List (Text × JValue)) :
      StringText kbody k → Blank w1 → Blank w2 → P t v → Blank w3 → Blank w4 →
      MembersText P rest kvs →
      MembersText P
        ('"' :: (kbody ++ '"' :: (w1 ++ ':' :: (w2 ++ (t ++ (w3 ++ ',' :: (w4 ++ rest)))))))
        ((k, v) :: kvs)

/-- A container whose elements or member values are described by `P`. -/
inductive ContainerText (P : Text → JValue → Prop) : Text → JValue → Prop where
  | emptyArray (w : Text) : Blank w → ContainerText P ('[' :: (w ++ [']'])) (JValue.arr [])
  | array (w t : Text) (xs : List JValue) : Blank w → ElemsText P t xs →
      ContainerText P ('[' :: (w ++ t)) (JValue.arr xs)
  | emptyObject (w : Text) : Blank w →
      ContainerText P (openBrace :: (w ++ [closeBrace])) (JValue.obj [])
  | object (w t : Text) (kvs : List (Text × JValue)) : Blank w → MembersText P t kvs →
      ContainerText P (openBrace :: (w ++ t)) (JValue.obj kvs)

/-- A JSON value whose containers nest at most `depth` deep, and what it
denotes. -/
def ValueText : Nat → Text → JValue → Prop
  | 0 => ScalarText
  | depth + 1 => fun t v => ScalarText t v ∨ ContainerText (ValueText depth) t v

/-- A JSON text and the value it denotes: one value, with optional whitespace
before and after it, nesting at most 10000 deep. -/
def JsonText (raw : Text) (v : JValue) : Prop :=
  ∃ w1 t w2, Blank w1 ∧ Blank w2 ∧ ValueText 10000 t v ∧ raw = w1 ++ (t ++ w2)

/-- A character that can continue a number literal. -/
def numberChar (c : Char) : Bool :=
  c.isDigit || c = '.' || c = 'e' || c = 'E'

/-- The text cannot continue a number literal: it is empty or starts with a
character that is not a digit, a dot or an exponent letter. -/
def Terminated (rest : Text) : Prop := ∀ c, rest.head? = some c → numberChar c = false

/-- The text starts with a character at which a value can start: not
whitespace and not a closing bracket. -/
def StartsValue (t : Text) : Prop :=
  ∃ c cs, t = c :: cs ∧ isSpace c = false ∧ c ≠ ']' ∧ c ≠ closeBrace

/-- The scanner reads the value `v` off the text `t` at nesting `depth`,
whatever terminated text follows, given enough fuel. -/
def ParsesValue (depth : Nat) (t : Text) (v : JValue) : Prop :=
  StartsValue t ∧
    ∀ rest, Terminated rest →
      ∃ f0, ∀ f, f0 ≤ f → parseValue f depth (t ++ rest) = some (v, rest)

/-! ## The hooks of the scenarios (`BeforeEach`, `AfterEach`) -/

/-- Run-time panics of a hook. -/
inductive Panic where
  /-- A method call through a nil pointer. -/
  | nilPointerDereference
  /-- The builtin `close` on the nil channel. -/
  | closeOfNilChannel
  /-- A failure of an operation on a channel that is not nil, such as the close
  of a closed channel. -/
  | failure (f : Failure)
  deriving DecidableEq, Repr

/-- The session `logs`: following the listener, or killed. -/
inductive LogSession where
  | following
  | killed
  deriving DecidableEq, Repr

/-- The variables of a `Describe` block that its hooks and its `It` share.
`interrupt` and `logs` are `none` while they hold Go's nil. For the tcp-routing
based scenario `serviceNames` holds its one variable `serviceName`. -/
structure SuiteVars where
  interrupt : Option Chan
  logs : Option LogSession
  serviceNames : List Text
  listenerAppName : Text
  logWriterAppName1 : Text
  logWriterAppName2 : Text
  deriving DecidableEq, Repr

/-- The `cf` calls of an `AfterEach` after the cancel. -/
inductive TeardownCommand where
  /-- The call `app_helpers.AppReport(appName)`. -/
  | appReport (appName : Text)
  /-- The command `cf delete appName -f -r`. -/
  | deleteApp (appName : Text)
  /-- The command `cf delete-service serviceName -f`. -/
  | deleteService (serviceName : Text)
  /-- The command `cf delete-orphaned-routes -f`. -/
  | deleteOrphanedRoutes
  deriving DecidableEq, Repr

/-- How a hook ends: it calls `Skip`, it panics, or it runs to its end with the
variables as it leaves them and the commands it issued. -/
inductive HookResult where
  | skipped
  | panicked (p : Panic)
  | completed (vars : SuiteVars) (commands : List TeardownCommand)
  deriving DecidableEq, Repr

/-- The assignments of a `BeforeEach` that is not skipped: a fresh channel
`make(chan struct, 1)`, the generated service names and application names.
The `cf push` commands that follow are taken to exit with 0. -/
def setUp (CATSRandomName : Text → Text) (names : List Text) (vars : SuiteVars) : SuiteVars :=
  { vars with
    interrupt := some makeInterrupt
    serviceNames := names
    listenerAppName := CATSRandomName "APP-SYSLOG-LISTENER".toList
    logWriterAppName1 := CATSRandomName "APP-FIRST-LOG-WRITER".toList
    logWriterAppName2 := CATSRandomName "APP-SECOND-LOG-WRITER".toList }

/-- The `BeforeEach` of the IP based scenario: skipped when TCP routing is
included. -/
def ipBeforeEach (cfg : Config) (CATSRandomName : Text → Text) (vars : SuiteVars) :
    HookResult :=
  if cfg.IncludeTCPRouting then HookResult.skipped
  else HookResult.completed (setUp CATSRandomName (serviceNames CATSRandomName) vars) []

/-- The `BeforeEach` of the tcp-routing based scenario: skipped when TCP routing
is not included. The router group check, `create-shared-domain` and
`MapTCPRoute` are taken to succeed; `domainName` and `externalPort`, which
they set, are read by the `It` only and are not among the `SuiteVars`. -/
def tcpRoutingBeforeEach (cfg : Config) (CATSRandomName : Text → Text) (vars : SuiteVars) :
    HookResult :=
  if !cfg.IncludeTCPRouting then HookResult.skipped
  else HookResult.completed (setUp CATSRandomName [CATSRandomName "SVIN1".toList] vars) []

/-- The statement `logs = logshelper.Follow(listenerAppName)` of an `It`, after
which the two log writers are started on `interrupt`. -/
def followLogs (vars : SuiteVars) : SuiteVars :=
  { vars with logs := some LogSession.following }

/-- The call `logs.Kill()`: a nil session is a nil pointer dereference. -/
def killLogs (logs : Option LogSession) : Except Panic (Option LogSession) :=
  match logs with
  | none => Except.error Panic.nilPointerDereference
  | some _ => Except.ok (some LogSession.killed)

/-- The statement `close(interrupt)`, the cancel operation of the scenarios:
closing the nil channel or a closed channel is a run-time panic. -/
def closeInterrupt (interrupt : Option Chan) : Except Panic (Option Chan) :=
  match interrupt with
  | none => Except.error Panic.closeOfNilChannel
  | some c =>
    match c.close with
    | Except.error e => Except.error (Panic.failure e)
    | Except.ok c1 => Except.ok (some c1)

/-- The commands an `AfterEach` issues after the cancel: the three reports,
the three deletions, the deletion of each service whose name is not empty,
and the deletion of the orphaned routes. Each is taken to succeed. -/
def cleanUp (vars : SuiteVars) : List TeardownCommand :=
  [TeardownCommand.appReport vars.logWriterAppName1,
   TeardownCommand.appReport vars.logWriterAppName2,
   TeardownCommand.appReport vars.listenerAppName,
   TeardownCommand.deleteApp vars.logWriterAppName1,
   TeardownCommand.deleteApp vars.logWriterAppName2,
   TeardownCommand.deleteApp vars.listenerAppName] ++
  ((vars.serviceNames.filter (fun name => !name.isEmpty)).map TeardownCommand.deleteService ++
    [TeardownCommand.deleteOrphanedRoutes])

/-- The body of an `AfterEach` that is not skipped: `logs.Kill()`, then
`close(interrupt)`, then the clean-up. -/
def tearDown (vars : SuiteVars) : HookResult :=
  match killLogs vars.logs with
  | Except.error e => HookResult.panicked e
  | Except.ok logs =>
    match closeInterrupt vars.interrupt with
    | Except.error e => HookResult.panicked e
    | Except.ok interrupt =>
      HookResult.completed { vars with logs := logs, interrupt := interrupt } (cleanUp vars)

/-- The `AfterEach` of the IP based scenario. -/
def ipAfterEach (cfg : Config) (vars : SuiteVars) : HookResult :=
  if cfg.IncludeTCPRouting then HookResult.skipped else tearDown vars

/-- The `AfterEach` of the tcp-routing based scenario. -/
def tcpRoutingAfterEach (cfg : Config) (vars : SuiteVars) : HookResult :=
  if !cfg.IncludeTCPRouting then HookResult.skipped else tearDown vars

/-- The variables before any hook has run: Go's zero values. -/
def zeroVars : SuiteVars :=
  { interrupt := none, logs := none, serviceNames := [], listenerAppName := [],
    logWriterAppName1 := [], logWriterAppName2 := [] }

/-- The variables of the IP based scenario after its `BeforeEach` and the
`logs` assignment of its `It`, with `sampleRandomName` as name generator. -/
def sampleRunVars : SuiteVars :=
  followLogs (setUp sampleRandomName (serviceNames sampleRandomName) zeroVars)

/-- The variables `sampleRunVars` after one `AfterEach`. -/
def sampleTornDownVars : SuiteVars :=
  { sampleRunVars with logs := some LogSession.killed, interrupt := some closedInterrupt }

/-! ## Concrete JSON texts -/

/-- A payload written with whitespace between its tokens. -/
def spacedPayload : Text :=
  "[ \x7b\"external\": 61045, \"internal\": 8080\x7d ]\n".toList

/-- The members of the object of `spacedPayload`. -/
def spacedMembers : List (Text × JValue) :=
  [("external".toList, JValue.num (JNumber.nat 61045)),
   ("internal".toList, JValue.num (JNumber.nat 8080))]

/-- A payload on several lines whose object has no `external` member. -/
def proxyLinesPayload : Text :=
  "[\n  \x7b\"internal\":8080, \"external_tls_proxy\":61046\x7d\n]".toList

/-- The members of the object of `proxyLinesPayload`. -/
def proxyLinesMembers : List (Text × JValue) :=
  [("internal".toList, JValue.num (JNumber.nat 8080)),
   ("external_tls_proxy".toList, JValue.num (JNumber.nat 61046))]

/-- The closing part of `deepPayload`: 9998 more opening brackets, the 9999
closing brackets, and the end of the object and of the array. -/
def deepTail : Text :=
  List.replicate 9998 '[' ++ (List.replicate 9999 ']' ++ [closeBrace, ']'])

/-- An array of one object with the member `key` = `n` and a member `x` that
holds arrays nested 9999 deep, so that the innermost array is the 10001st
container. -/
def deepPayload (key : Text) (n : Nat) : Text :=
  '[' :: openBrace :: '"' :: (key ++ '"' :: ':' ::
    (Nat.toDigits 10 n ++ ',' :: '"' :: 'x' :: '"' :: ':' :: '[' :: deepTail))

/-- A character that stands for itself inside a string literal. -/
def isPlainChar (c : Char) : Bool :=
  decide (0x20 ≤ c.toNat) && c != '"' && c != '\\'

/-- The value of `n + 1` arrays inside one another, the innermost empty. -/
def nestedArrays : Nat → JValue
  | 0 => JValue.arr []
  | n + 1 => JValue.arr [nestedArrays n]

/-- A payload whose first object also has a TLS proxy port that is a string. -/
def badProxyPayload : Text :=
  "[\x7b\"external\":5,\"external_tls_proxy\":\"x\"\x7d]".toList

/-- The members of the object of `badProxyPayload`. -/
def badProxyMembers : List (Text × JValue) :=
  [("external".toList, JValue.num (JNumber.nat 5)),
   ("external_tls_proxy".toList, JValue.str ['x'])]

/-- A payload whose first object has `external` and, after it, `EXTERNAL`. -/
def upperCasePayload : Text :=
  "[\x7b\"external\":5,\"EXTERNAL\":6\x7d]".toList

/-- The members of the object of `upperCasePayload`. -/
def upperCaseMembers : List (Text × JValue) :=
  [("external".toList, JValue.num (JNumber.nat 5)),
   ("EXTERNAL".toList, JValue.num (JNumber.nat 6))]

/-- A payload whose `external` is written with a fraction. -/
def fractionPayload : Text := "[\x7b\"external\":5.0\x7d]".toList

/-- The members of the object of `fractionPayload`. -/
def fractionMembers : List (Text × JValue) :=
  [("external".toList, JValue.num JNumber.other)]

/-- A payload whose first element is `null` and whose first object is the
second element. -/
def nullFirstPayload : Text := "[null,\x7b\"external\":5\x7d]".toList

/-- A payload whose first object has `external` = 0, then `EXTERNAL` = 7, and
a TLS proxy port. -/
def shadowedZeroPayload : Text :=
  "[\x7b\"external\":0,\"EXTERNAL\":7,\"external_tls_proxy\":9\x7d]".toList

/-- The members of the object of `shadowedZeroPayload`. -/
def shadowedZeroMembers : List (Text × JValue) :=
  [("external".toList, JValue.num (JNumber.nat 0)),
   ("EXTERNAL".toList, JValue.num (JNumber.nat 7)),
   ("external_tls_proxy".toList, JValue.num (JNumber.nat 9))]

/-- A payload whose first object has `external_tls_proxy` = 9 and, after it,
`EXTERNAL_TLS_PROXY` = 7. -/
def shadowedProxyPayload : Text :=
  "[\x7b\"external_tls_proxy\":9,\"EXTERNAL_TLS_PROXY\":7\x7d]".toList

/-- The members of the object of `shadowedProxyPayload`. -/
def shadowedProxyMembers : List (Text × JValue) :=
  [("external_tls_proxy".toList, JValue.num (JNumber.nat 9)),
   ("EXTERNAL_TLS_PROXY".toList, JValue.num (JNumber.nat 7))]

/-- A payload whose first object only has a TLS proxy port, followed by an
object whose port does not fit 16 bits. -/
def proxyOverflowTailPayload : Text :=
  "[\x7b\"external_tls_proxy\":9\x7d,\x7b\"external\":70000\x7d]".toList

/-- The first object of `proxyOverflowTailPayload`. -/
def proxyOfNineMembers : List (Text × JValue) :=
  [("external_tls_proxy".toList, JValue.num (JNumber.nat 9))]

/-- A payload whose `external` is zero written with a fraction. -/
def zeroFractionPayload : Text :=
  "[\x7b\"external\":0.0,\"external_tls_proxy\":9\x7d]".toList

/-- The members of the object of `zeroFractionPayload`. -/
def zeroFractionMembers : List (Text × JValue) :=
  [("external".toList, JValue.num JNumber.other),
   ("external_tls_proxy".toList, JValue.num (JNumber.nat 9))]
/-! ## Lemmas on the decoder -/

theorem fieldName_ne : fieldName Field.External ≠ fieldName Field.ExternalTLSProxy := by decide

theorem foldName_fieldName_ne :
    foldName (fieldName Field.External) ≠ foldName (fieldName Field.ExternalTLSProxy) := by decide

/-- A key is stored into field `f` exactly when it matches the JSON name of `f`. -/
theorem findField_eq_some (f : Field) (k : Text) :
    findField k = some f ↔ keyMatches (fieldName f) k = true := by
  have h1 := fieldName_ne
  have h2 := foldName_fieldName_ne
  by_cases a : fieldName Field.External = k
  · subst a
    cases f
    · simp [findField, fieldNames, List.find?, keyMatches]
    · simp [findField, fieldNames, List.find?, keyMatches]
      simp_all [eq_comm]
  · by_cases b : fieldName Field.ExternalTLSProxy = k
    · subst b
      cases f
      · simp [findField, fieldNames, List.find?, keyMatches, a]
        simp_all [eq_comm]
      · simp [findField, fieldNames, List.find?, keyMatches, a]
    · by_cases c : foldName (fieldName Field.External) = foldName k
      · cases f <;> simp [findField, fieldNames, List.find?, keyMatches, a, b, c]
        intro d
        exact h2 (c.trans d.symm)
      · by_cases d : foldName (fieldName Field.ExternalTLSProxy) = foldName k
        · cases f <;> simp [findField, fieldNames, List.find?, keyMatches, a, b, c, d]
        · cases f <;> simp [findField, fieldNames, List.find?, keyMatches, a, b, c, d]

/-- A key is skipped exactly when it matches neither JSON name. -/
theorem findField_eq_none (k : Text) :
    findField k = none ↔
      (keyMatches (fieldName Field.External) k = false ∧
        keyMatches (fieldName Field.ExternalTLSProxy) k = false) := by
  have e := findField_eq_some Field.External k
  have t := findField_eq_some Field.ExternalTLSProxy k
  cases h : findField k with
  | none =>
    rw [h] at e t
    simp at e t
    simp [e, t]
  | some f =>
    cases f
    · have := e.mp h
      simp [this]
    · have := t.mp h
      simp [this]

theorem PortMapping.get_set_same (pm : PortMapping) (f : Field) (n : Nat) :
    (pm.set f n).get f = n := by
  cases f <;> rfl

theorem PortMapping.get_set_other (pm : PortMapping) (f g : Field) (n : Nat) (h : g ≠ f) :
    (pm.set g n).get f = pm.get f := by
  cases f <;> cases g <;> first | rfl | exact absurd rfl h

/-- A `uint16` field accepts exactly the port values. -/
theorem storeUint16_ok_iff (v : JValue) (old : Nat) :
    (∃ n, storeUint16 v old = Except.ok n) ↔ isPortValue v = true := by
  cases v with
  | num n =>
    cases n with
    | nat m =>
      by_cases h : m ≤ 65535 <;> simp [storeUint16, isPortValue, h]
    | other => simp [storeUint16, isPortValue]
  | _ => simp [storeUint16, isPortValue]

/-- Storing the literal `n` yields `n`. -/
theorem storeUint16_natLit (v : JValue) (old n m : Nat) (hv : isNatLit n v = true)
    (h : storeUint16 v old = Except.ok m) : m = n := by
  cases v with
  | num x =>
    cases x with
    | nat k =>
      simp [isNatLit] at hv
      subst hv
      by_cases hk : k ≤ 65535
      · simp [storeUint16, hk] at h
        exact h.symm
      · simp [storeUint16, hk] at h
    | other => simp [isNatLit] at hv
  | _ => simp [isNatLit] at hv

/-- An object is stored without error exactly when it is a port-mapping
object. -/
theorem decodeObject_ok_iff (kvs : List (Text × JValue)) (pm : PortMapping) :
    (∃ pm1, decodeObject kvs pm = Except.ok pm1) ↔ isPortObject kvs = true := by
  induction kvs generalizing pm with
  | nil => simp [decodeObject, isPortObject]
  | cons kv rest ih =>
    obtain ⟨k, v⟩ := kv
    have hcons : isPortObject ((k, v) :: rest) =
        (((!keyMatches (fieldName Field.External) k &&
          !keyMatches (fieldName Field.ExternalTLSProxy) k) || isPortValue v) &&
          isPortObject rest) := by
      simp [isPortObject]
    rw [hcons]
    cases hf : findField k with
    | none =>
      have hn := (findField_eq_none k).mp hf
      simp [decodeObject, hf, hn.1, hn.2, ih]
    | some f =>
      have hm : (!keyMatches (fieldName Field.External) k &&
          !keyMatches (fieldName Field.ExternalTLSProxy) k) = false := by
        cases f
        · simp [(findField_eq_some Field.External k).mp hf]
        · simp [(findField_eq_some Field.ExternalTLSProxy k).mp hf]
      rw [hm]
      cases hs : storeUint16 v (pm.get f) with
      | error err =>
        have hv : isPortValue v = false := by
          cases hpv : isPortValue v with
          | false => rfl
          | true =>
            obtain ⟨n, hn⟩ := (storeUint16_ok_iff v (pm.get f)).mpr hpv
            rw [hs] at hn
            cases hn
        simp [decodeObject, hf, hs, hv]
      | ok n =>
        have hv : isPortValue v = true := (storeUint16_ok_iff v (pm.get f)).mp ⟨n, hs⟩
        simp [decodeObject, hf, hs, hv, ih]

/-- The value a field ends with, when every member keyed to it carries the
literal `n`: `n` if there is such a member, the starting value otherwise. -/
theorem decodeObject_get (f : Field) (n : Nat) (kvs : List (Text × JValue))
    (pm pm1 : PortMapping) (h : decodeObject kvs pm = Except.ok pm1)
    (hall : (membersNamed (fieldName f) kvs).all (isNatLit n) = true) :
    pm1.get f = if (membersNamed (fieldName f) kvs).isEmpty = true then pm.get f else n := by
  induction kvs generalizing pm with
  | nil =>
    simp [decodeObject] at h
    simp [membersNamed, h]
  | cons kv rest ih =>
    obtain ⟨k, v⟩ := kv
    cases hf : findField k with
    | none =>
      have hn : keyMatches (fieldName f) k = false := by
        cases f
        · exact ((findField_eq_none k).mp hf).1
        · exact ((findField_eq_none k).mp hf).2
      have hmem : membersNamed (fieldName f) ((k, v) :: rest) = membersNamed (fieldName f) rest := by
        simp [membersNamed, List.filter, hn]
      rw [hmem] at hall ⊢
      simp [decodeObject, hf] at h
      exact ih pm h hall
    | some g =>
      simp only [decodeObject, hf] at h
      cases hs : storeUint16 v (pm.get g) with
      | error err => simp [hs] at h
      | ok m =>
        simp only [hs] at h
        by_cases hgf : g = f
        · subst hgf
          have hk : keyMatches (fieldName g) k = true := (findField_eq_some g k).mp hf
          have hmem : membersNamed (fieldName g) ((k, v) :: rest) =
              v :: membersNamed (fieldName g) rest := by
            simp [membersNamed, List.filter, hk]
          rw [hmem] at hall ⊢
          simp only [List.all_cons, Bool.and_eq_true] at hall
          have hm : m = n := storeUint16_natLit v (pm.get g) n m hall.1 hs
          subst hm
          have := ih (pm.set g m) h hall.2
          rw [this, PortMapping.get_set_same]
          simp
        · have hk : keyMatches (fieldName f) k = false := by
            cases hkm : keyMatches (fieldName f) k with
            | false => rfl
            | true =>
              have := (findField_eq_some f k).mpr hkm
              rw [hf] at this
              exact absurd (Option.some.inj this) hgf
          have hmem : membersNamed (fieldName f) ((k, v) :: rest) =
              membersNamed (fieldName f) rest := by
            simp [membersNamed, List.filter, hk]
          rw [hmem] at hall ⊢
          have := ih (pm.set g m) h hall
          rw [this, PortMapping.get_set_other pm f g m hgf]

/-- An element is stored without error exactly when it is a port-mapping
element. -/
theorem decodeElem_ok_iff (v : JValue) :
    (∃ pm, decodeElem v = Except.ok pm) ↔ isPortElem v = true := by
  cases v with
  | obj kvs => simpa [decodeElem, isPortElem] using decodeObject_ok_iff kvs _
  | _ => simp [decodeElem, isPortElem]

/-- An array is stored without error exactly when all its elements are
port-mapping elements. -/
theorem decodeElems_ok_iff (xs : List JValue) :
    (∃ pms, decodeElems xs = Except.ok pms) ↔ xs.all isPortElem = true := by
  induction xs with
  | nil => simp [decodeElems]
  | cons x rest ih =>
    rw [List.all_cons, Bool.and_eq_true, ← ih, ← decodeElem_ok_iff]
    constructor
    · rintro ⟨pms, h⟩
      simp only [decodeElems] at h
      cases hx : decodeElem x with
      | error err => simp [hx] at h
      | ok pm =>
        simp only [hx] at h
        cases hr : decodeElems rest with
        | error err => simp [hr] at h
        | ok l => exact ⟨⟨pm, rfl⟩, ⟨l, rfl⟩⟩
    · rintro ⟨⟨pm, hx⟩, ⟨l, hr⟩⟩
      exact ⟨pm :: l, by simp [decodeElems, hx, hr]⟩

/-- The first struct of a decoded non-empty array is the decoded first
element. -/
theorem decodeElems_cons (x : JValue) (rest : List JValue) (pm : PortMapping)
    (hx : decodeElem x = Except.ok pm) (hrest : rest.all isPortElem = true) :
    ∃ pms, decodeElems (x :: rest) = Except.ok (pm :: pms) := by
  obtain ⟨l, hl⟩ := (decodeElems_ok_iff rest).mpr hrest
  exact ⟨l, by simp [decodeElems, hx, hl]⟩

/-! ## The fuel of the parser is enough -/

theorem skipSpace_length (cs : Text) : (skipSpace cs).length ≤ cs.length := by
  induction cs with
  | nil => simp [skipSpace]
  | cons c cs ih =>
    simp only [skipSpace]
    split
    · simp only [List.length_cons]
      omega
    · exact Nat.le_refl _

theorem takeDigits_length (cs : Text) : (takeDigits cs).2.length ≤ cs.length := by
  induction cs with
  | nil => simp [takeDigits]
  | cons c cs ih =>
    simp only [takeDigits]
    split
    · simp only [List.length_cons]
      omega
    · exact Nat.le_refl _

theorem scanInt_length (cs ds r : Text) (h : scanInt cs = some (ds, r)) :
    r.length < cs.length := by
  cases cs with
  | nil => simp [scanInt] at h
  | cons c rest =>
    simp only [scanInt] at h
    have ht := takeDigits_length rest
    split at h
    · cases h
      simp
    · split at h
      · cases h
        simp only [List.length_cons]
        omega
      · cases h

theorem scanFrac_length (cs r : Text) (b : Bool) (h : scanFrac cs = some (b, r)) :
    r.length ≤ cs.length := by
  unfold scanFrac at h
  split at h
  · rename_i rest
    have ht := takeDigits_length rest
    split at h
    · cases h
    · rename_i c ds r1 heq
      cases h
      rw [heq] at ht
      simp only [List.length_cons]
      exact Nat.le_succ_of_le ht
  · cases h
    exact Nat.le_refl _

theorem skipSign_length (cs : Text) : (skipSign cs).length ≤ cs.length := by
  cases cs with
  | nil => simp [skipSign]
  | cons s r =>
    simp only [skipSign]
    split
    · simp
    · exact Nat.le_refl _

theorem scanExp_length (cs r : Text) (b : Bool) (h : scanExp cs = some (b, r)) :
    r.length ≤ cs.length := by
  cases cs with
  | nil =>
    simp only [scanExp] at h
    cases h
    exact Nat.le_refl _
  | cons c rest =>
    simp only [scanExp] at h
    split at h
    · have h1 := skipSign_length rest
      have ht := takeDigits_length (skipSign rest)
      split at h
      · cases h
      · rename_i c1 ds r1 heq
        cases h
        rw [heq] at ht
        simp only [List.length_cons] at ht ⊢
        omega
    · cases h
      exact Nat.le_refl _

theorem scanNumber_length (cs r : Text) (n : JNumber) (h : scanNumber cs = some (n, r)) :
    r.length < cs.length := by
  unfold scanNumber at h
  simp only at h
  have hbody : (if cs.head? = some '-' then cs.tail else cs).length ≤ cs.length := by
    split
    · simp
    · exact Nat.le_refl _
  split at h
  · cases h
  · rename_i ds r1 h1
    have l1 := scanInt_length _ _ _ h1
    split at h
    · cases h
    · rename_i b2 r2 h2
      have l2 := scanFrac_length _ _ _ h2
      split at h
      · cases h
      · rename_i b3 r3 h3
        have l3 := scanExp_length _ _ _ h3
        split at h <;> cases h <;> omega

theorem unicodeEscape_char (hi : Nat) (rest : Text) :
    ∃ c r, unicodeEscape hi rest = StringStep.char c r ∧ r.length ≤ rest.length := by
  unfold unicodeEscape
  split
  · split
    · split
      · split
        · exact ⟨_, _, rfl, by simp only [List.length_cons]; omega⟩
        · exact ⟨_, _, rfl, Nat.le_refl _⟩
      · exact ⟨_, _, rfl, Nat.le_refl _⟩
    · exact ⟨_, _, rfl, Nat.le_refl _⟩
  · exact ⟨_, _, rfl, Nat.le_refl _⟩

theorem escapeStep_length (cs r : Text) (h : (escapeStep cs).rest = some r) :
    r.length < cs.length := by
  unfold escapeStep at h
  split at h
  · cases h
  · rename_i e rest
    split at h
    · split at h
      · rename_i h1 h2 h3 h4 rest1
        split at h
        · cases h
        · rename_i hi _
          obtain ⟨c1, r1, he, hl⟩ := unicodeEscape_char hi rest1
          rw [he] at h
          cases h
          simp only [List.length_cons]
          omega
      · cases h
    · split at h
      · cases h
        simp
      · cases h

/-- A step inside a string literal consumes at least one character. -/
theorem stringStep_length (cs r : Text) (h : (stringStep cs).rest = some r) :
    r.length < cs.length := by
  unfold stringStep at h
  split at h
  · cases h
  · rename_i c rest
    split at h
    · cases h
      simp
    · split at h
      · have := escapeStep_length rest r h
        simp only [List.length_cons]
        omega
      · split at h
        · cases h
        · cases h
          simp

theorem scanString_length (fuel : Nat) :
    ∀ (cs acc s r : Text), scanString fuel cs acc = some (s, r) → r.length < cs.length := by
  induction fuel with
  | zero =>
    intro cs acc s r h
    simp [scanString] at h
  | succ f ih =>
    intro cs acc s r h
    simp only [scanString] at h
    split at h
    · cases h
    · rename_i rest heq
      cases h
      exact stringStep_length cs _ (by rw [heq]; rfl)
    · rename_i c rest heq
      have h1 := stringStep_length cs rest (by rw [heq]; rfl)
      have h2 := ih _ _ _ _ h
      omega

/-- Any fuel greater than the length of the text gives the same result of
`scanString`. -/
theorem scanString_fuel (f : Nat) :
    ∀ (g : Nat) (cs acc : Text), cs.length < f → cs.length < g →
      scanString f cs acc = scanString g cs acc := by
  induction f with
  | zero =>
    intro g cs acc hf _
    omega
  | succ f ih =>
    intro g cs acc hf hg
    obtain ⟨g1, rfl⟩ : ∃ g1, g = g1 + 1 := ⟨g - 1, by omega⟩
    simp only [scanString]
    split
    · rfl
    · rfl
    · rename_i c rest heq
      have h1 := stringStep_length cs rest (by rw [heq]; rfl)
      exact ih g1 rest _ (by omega) (by omega)

theorem scanQuoted_length (cs s r : Text) (h : scanQuoted cs = some (s, r)) :
    r.length < cs.length := by
  cases cs with
  | nil => simp [scanQuoted] at h
  | cons q rest =>
    simp only [scanQuoted] at h
    split at h
    · have := scanString_length _ _ _ _ _ h
      simp only [List.length_cons]
      omega
    · cases h

theorem parseScalar_length (cs r : Text) (v : JValue) (h : parseScalar cs = some (v, r)) :
    r.length < cs.length := by
  cases cs with
  | nil => simp [parseScalar] at h
  | cons c rest =>
    simp only [parseScalar] at h
    split at h
    · split at h
      · rename_i s r1 hq
        cases h
        exact scanQuoted_length _ _ _ hq
      · cases h
    · split at h
      · split at h
        · cases h
          simp only [List.length_cons]
          omega
        · cases h
      · split at h
        · split at h
          · cases h
            simp only [List.length_cons]
            omega
          · cases h
        · split at h
          · split at h
            · cases h
              simp only [List.length_cons]
              omega
            · cases h
          · split at h
            · rename_i n r1 hn
              cases h
              exact scanNumber_length _ _ _ hn
            · cases h

theorem opening_length (closer : Char) (cs : Text) :
    (∀ r, opening closer cs = Opening.empty r → r.length < cs.length) ∧
    (∀ r, opening closer cs = Opening.content r → r.length ≤ cs.length) := by
  unfold opening
  have hs := skipSpace_length cs
  split
  · simp
  · rename_i d r heq
    rw [heq] at hs
    simp only [List.length_cons] at hs
    split
    · constructor
      · intro r1 h
        cases h
        omega
      · intro r1 h
        cases h
    · constructor
      · intro r1 h
        cases h
      · intro r1 h
        cases h
        simp only [List.length_cons]
        omega

theorem separator_length (closer : Char) (cs : Text) :
    (∀ r, separator closer cs = Separator.close r → r.length < cs.length) ∧
    (∀ r, separator closer cs = Separator.next r → r.length < cs.length) := by
  unfold separator
  have hs := skipSpace_length cs
  split
  · simp
  · rename_i d r heq
    rw [heq] at hs
    simp only [List.length_cons] at hs
    have hr := skipSpace_length r
    split
    · constructor
      · intro r1 h
        cases h
        omega
      · intro r1 h
        cases h
    · split
      · constructor
        · intro r1 h
          cases h
        · intro r1 h
          cases h
          omega
      · simp

theorem memberKey_length (cs k r : Text) (h : memberKey cs = some (k, r)) :
    r.length < cs.length := by
  unfold memberKey at h
  split at h
  · cases h
  · rename_i k1 r1 hq
    have h1 := scanQuoted_length _ _ _ hq
    have hs := skipSpace_length r1
    split at h
    · cases h
    · rename_i colon r2 heq
      rw [heq] at hs
      simp only [List.length_cons] at hs
      have h2 := skipSpace_length r2
      split at h
      · cases h
        omega
      · cases h

/-- The parser functions consume at least one character when they succeed. -/
theorem parse_length (fuel : Nat) :
    (∀ depth cs v r, parseValue fuel depth cs = some (v, r) → r.length < cs.length) ∧
    (∀ depth cs vs r, parseElems fuel depth cs = some (vs, r) → r.length < cs.length) ∧
    (∀ depth cs kvs r, parseMembers fuel depth cs = some (kvs, r) → r.length < cs.length) := by
  induction fuel with
  | zero => simp [parseValue, parseElems, parseMembers]
  | succ f ih =>
    obtain ⟨ihV, ihE, ihM⟩ := ih
    refine ⟨?_, ?_, ?_⟩
    · intro depth cs v r h
      cases cs with
      | nil => simp [parseValue] at h
      | cons c rest =>
        simp only [parseValue] at h
        split at h
        · split at h
          · cases h
          · have ho := opening_length ']' rest
            split at h
            · cases h
            · rename_i r0 heq
              cases h
              have := ho.1 _ heq
              simp only [List.length_cons]
              omega
            · rename_i r0 heq
              have h0 := ho.2 _ heq
              split at h
              · rename_i xs r1 he
                cases h
                have := ihE _ _ _ _ he
                simp only [List.length_cons]
                omega
              · cases h
        · split at h
          · split at h
            · cases h
            · have ho := opening_length closeBrace rest
              split at h
              · cases h
              · rename_i r0 heq
                cases h
                have := ho.1 _ heq
                simp only [List.length_cons]
                omega
              · rename_i r0 heq
                have h0 := ho.2 _ heq
                split at h
                · rename_i xs r1 he
                  cases h
                  have := ihM _ _ _ _ he
                  simp only [List.length_cons]
                  omega
                · cases h
          · exact parseScalar_length _ _ _ h
    · intro depth cs vs r h
      simp only [parseElems] at h
      split at h
      · cases h
      · rename_i v r0 hv
        have h0 := ihV _ _ _ _ hv
        have hs := separator_length ']' r0
        split at h
        · cases h
        · rename_i r1 heq
          cases h
          have := hs.1 _ heq
          omega
        · rename_i r1 heq
          have h1 := hs.2 _ heq
          split at h
          · rename_i xs r2 he
            cases h
            have := ihE _ _ _ _ he
            omega
          · cases h
    · intro depth cs kvs r h
      simp only [parseMembers] at h
      split at h
      · cases h
      · rename_i k r0 hk
        have hk0 := memberKey_length _ _ _ hk
        split at h
        · cases h
        · rename_i v r1 hv
          have h0 := ihV _ _ _ _ hv
          have hs := separator_length closeBrace r1
          split at h
          · cases h
          · rename_i r2 heq
            cases h
            have := hs.1 _ heq
            omega
          · rename_i r2 heq
            have h1 := hs.2 _ heq
            split at h
            · rename_i xs r3 he
              cases h
              have := ihM _ _ _ _ he
              omega
            · cases h

/-- More fuel than twice the length of the text does not change the result of
the parser functions. -/
theorem parse_fuel (f : Nat) :
    ∀ g, f ≤ g →
      (∀ depth cs, 2 * cs.length + 1 ≤ f → parseValue g depth cs = parseValue f depth cs) ∧
      (∀ depth cs, 2 * cs.length + 2 ≤ f → parseElems g depth cs = parseElems f depth cs) ∧
      (∀ depth cs, 2 * cs.length + 2 ≤ f →
        parseMembers g depth cs = parseMembers f depth cs) := by
  induction f with
  | zero =>
    intro g _
    refine ⟨?_, ?_, ?_⟩ <;> intro depth cs h <;> omega
  | succ f ih =>
    intro g hg
    obtain ⟨g1, rfl⟩ : ∃ g1, g = g1 + 1 := ⟨g - 1, by omega⟩
    obtain ⟨ihV, ihE, ihM⟩ := ih g1 (by omega)
    have hlen := parse_length f
    refine ⟨?_, ?_, ?_⟩
    · intro depth cs hf
      cases cs with
      | nil => simp [parseValue]
      | cons c rest =>
        simp only [List.length_cons] at hf
        simp only [parseValue]
        split
        · split
          · rfl
          · have ho := opening_length ']' rest
            split
            · rfl
            · rfl
            · rename_i r0 heq
              have h0 := ho.2 _ heq
              rw [ihE (depth + 1) r0 (by omega)]
        · split
          · split
            · rfl
            · have ho := opening_length closeBrace rest
              split
              · rfl
              · rfl
              · rename_i r0 heq
                have h0 := ho.2 _ heq
                rw [ihM (depth + 1) r0 (by omega)]
          · rfl
    · intro depth cs hf
      simp only [parseElems]
      rw [ihV depth cs (by omega)]
      split
      · rfl
      · rename_i v r0 hv
        have h0 := hlen.1 _ _ _ _ hv
        have hs := separator_length ']' r0
        split
        · rfl
        · rfl
        · rename_i r1 heq
          have h1 := hs.2 _ heq
          rw [ihE depth r1 (by omega)]
    · intro depth cs hf
      simp only [parseMembers]
      split
      · rfl
      · rename_i k r0 hk
        have hk0 := memberKey_length _ _ _ hk
        rw [ihV depth r0 (by omega)]
        split
        · rfl
        · rename_i v r1 hv
          have h0 := hlen.1 _ _ _ _ hv
          have hs := separator_length closeBrace r1
          split
          · rfl
          · rfl
          · rename_i r2 heq
            have h1 := hs.2 _ heq
            rw [ihM depth r2 (by omega)]

/-- The fuel `parseJSON` gives to `parseValue` is enough: any greater amount
gives the same result. -/
theorem parseValue_fuel (raw : Text) (g : Nat) (hg : 2 * raw.length + 2 ≤ g) :
    parseValue g 0 (skipSpace raw) = parseValue (2 * raw.length + 2) 0 (skipSpace raw) := by
  have hs := skipSpace_length raw
  exact ((parse_fuel (2 * raw.length + 2) g hg).1 0 (skipSpace raw) (by omega))


/-! ## The scanner accepts every JSON text -/

theorem skipSpace_blank (w rest : Text) (hw : Blank w) :
    skipSpace (w ++ rest) = skipSpace rest := by
  induction w with
  | nil => rfl
  | cons c w ih =>
    unfold Blank at hw
    rw [List.all_cons, Bool.and_eq_true] at hw
    have hc : isSpace c = true := by
      have h1 := hw.1
      simp only [isBlankChar, Bool.or_eq_true, decide_eq_true_eq] at h1
      simp only [isSpace, Bool.or_eq_true, decide_eq_true_eq]
      tauto
    simp only [List.cons_append, skipSpace, hc, if_true]
    exact ih hw.2

theorem skipSpace_cons (c : Char) (rest : Text) (h : isSpace c = false) :
    skipSpace (c :: rest) = c :: rest := by
  simp [skipSpace, h]

theorem skipSpace_blank_nil (w : Text) (hw : Blank w) : skipSpace w = [] := by
  have := skipSpace_blank w [] hw
  simpa [skipSpace] using this

/-- A blank run followed by a separator or bracket terminates a number. -/
theorem terminated_blank (w : Text) (c : Char) (rest : Text) (hw : Blank w)
    (hc : numberChar c = false) : Terminated (w ++ c :: rest) := by
  intro x hx
  cases w with
  | nil =>
    simp only [List.nil_append, List.head?_cons, Option.some.injEq] at hx
    rw [← hx]
    exact hc
  | cons b w =>
    simp only [List.cons_append, List.head?_cons, Option.some.injEq] at hx
    unfold Blank at hw
    rw [List.all_cons, Bool.and_eq_true] at hw
    have hb := hw.1
    rw [hx] at hb
    simp only [isBlankChar, Bool.or_eq_true, decide_eq_true_eq] at hb
    rcases hb with ((rfl | rfl) | rfl) | rfl <;> decide

theorem terminated_blank_end (w : Text) (hw : Blank w) : Terminated w := by
  intro x hx
  cases w with
  | nil => simp at hx
  | cons b w =>
    simp only [List.head?_cons, Option.some.injEq] at hx
    unfold Blank at hw
    rw [List.all_cons, Bool.and_eq_true] at hw
    have hb := hw.1
    rw [hx] at hb
    simp only [isBlankChar, Bool.or_eq_true, decide_eq_true_eq] at hb
    rcases hb with ((rfl | rfl) | rfl) | rfl <;> decide

theorem digitChar_facts (m : Nat) (h : m < 10) :
    (Nat.digitChar m).toNat - 48 = m ∧ (Nat.digitChar m).isDigit = true ∧
      (0 < m → Nat.digitChar m ≠ '0') := by
  interval_cases m <;> decide

/-- The digits `Nat.toDigitsCore` puts before the accumulator: a well-formed
integer part whose value is the number. -/
theorem toDigitsCore_spec (fuel : Nat) :
    ∀ (n : Nat) (acc : List Char), n < fuel →
      ∃ ds, Nat.toDigitsCore 10 fuel n acc = ds ++ acc ∧ ds.isEmpty = false ∧
        ds.all Char.isDigit = true ∧ (n = 0 → ds = ['0']) ∧ (0 < n → ds.head? ≠ some '0') ∧
        ∀ a, ds.foldl (fun acc c => 10 * acc + (c.toNat - 48)) a = a * 10 ^ ds.length + n := by
  induction fuel with
  | zero =>
    intro n acc h
    omega
  | succ fuel ih =>
    intro n acc h
    have hd := digitChar_facts (n % 10) (Nat.mod_lt n (by decide))
    simp only [Nat.toDigitsCore]
    split
    · rename_i hn
      have hlt : n < 10 := by omega
      have hmod : n % 10 = n := Nat.mod_eq_of_lt hlt
      rw [hmod] at hd ⊢
      refine ⟨[Nat.digitChar n], rfl, rfl, by simp [hd.2.1], ?_, ?_, ?_⟩
      · intro h0
        subst h0
        rfl
      · intro hpos
        simpa using hd.2.2 hpos
      · intro a
        simp [hd.1]
        omega
    · rename_i hn
      have hpos : 0 < n / 10 := Nat.pos_of_ne_zero hn
      have hlt : n / 10 < fuel := by omega
      obtain ⟨ds, h1, h2, h3, _, h5, h6⟩ := ih (n / 10) (Nat.digitChar (n % 10) :: acc) hlt
      refine ⟨ds ++ [Nat.digitChar (n % 10)], by simp [h1], by simp, by simp [h3, hd.2.1], ?_, ?_,
        ?_⟩
      · intro h0
        omega
      · intro _
        cases ds with
        | nil => simp at h2
        | cons c cs => simpa using h5 hpos
      · intro a
        simp only [List.foldl_append, List.foldl_cons, List.foldl_nil, h6, hd.1,
          List.length_append, List.length_singleton]
        have := Nat.div_add_mod n 10
        rw [Nat.pow_succ]
        nlinarith [Nat.div_add_mod n 10]

/-- The decimal numeral of a number is a well-formed integer part and its
value is the number. -/
theorem toDigits_spec (n : Nat) :
    IsIntPart (Nat.toDigits 10 n) ∧ digitsValue (Nat.toDigits 10 n) = n := by
  obtain ⟨ds, h1, h2, h3, h4, h5, h6⟩ := toDigitsCore_spec (n + 1) n [] (by omega)
  unfold Nat.toDigits
  rw [h1, List.append_nil]
  constructor
  · by_cases hn : n = 0
    · exact Or.inl (h4 hn)
    · exact Or.inr ⟨⟨h2, h3⟩, h5 (Nat.pos_of_ne_zero hn)⟩
  · have := h6 0
    simpa [digitsValue] using this

theorem takeDigits_append (ds rest : Text) (hds : ds.all Char.isDigit = true)
    (hrest : ∀ c, rest.head? = some c → c.isDigit = false) :
    takeDigits (ds ++ rest) = (ds, rest) := by
  induction ds with
  | nil =>
    cases rest with
    | nil => rfl
    | cons c r =>
      have := hrest c rfl
      simp [takeDigits, this]
  | cons d ds ih =>
    rw [List.all_cons, Bool.and_eq_true] at hds
    simp [takeDigits, hds.1, ih hds.2]

theorem scanInt_append (ds rest : Text) (hds : IsIntPart ds)
    (hrest : ∀ c, rest.head? = some c → c.isDigit = false) :
    scanInt (ds ++ rest) = some (ds, rest) := by
  rcases hds with h0 | ⟨⟨hne, hall⟩, hhead⟩
  · subst h0
    simp [scanInt]
  · cases ds with
    | nil => simp at hne
    | cons c cs =>
      rw [List.all_cons, Bool.and_eq_true] at hall
      have hc0 : c ≠ '0' := by
        intro h
        apply hhead
        simp [h]
      simp [scanInt, hc0, hall.1, takeDigits_append cs rest hall.2 hrest]

theorem scanFrac_append (fr rest : Text) (hfr : IsFracPart fr)
    (hrest : ∀ c, rest.head? = some c → c.isDigit = false ∧ c ≠ '.') :
    scanFrac (fr ++ rest) = some (!fr.isEmpty, rest) := by
  cases hfr with
  | none =>
    simp only [List.nil_append, List.isEmpty_nil, Bool.not_true]
    unfold scanFrac
    split
    · rename_i r0
      exact absurd rfl (hrest '.' rfl).2
    · rfl
  | some ds hds =>
    obtain ⟨hne, hall⟩ := hds
    have ht := takeDigits_append ds rest hall (fun c hc => (hrest c hc).1)
    cases ds with
    | nil => simp at hne
    | cons d ds =>
      simp only [List.cons_append] at ht ⊢
      simp [scanFrac, ht]

theorem scanExp_append (ex rest : Text) (hex : IsExpPart ex)
    (hrest : ∀ c, rest.head? = some c → c.isDigit = false ∧ c ≠ 'e' ∧ c ≠ 'E') :
    scanExp (ex ++ rest) = some (!ex.isEmpty, rest) := by
  cases hex with
  | none =>
    simp only [List.nil_append, List.isEmpty_nil, Bool.not_true]
    cases rest with
    | nil => rfl
    | cons c r =>
      have := hrest c rfl
      simp [scanExp, this.2.1, this.2.2]
  | some e sign ds he hsign hds =>
    obtain ⟨hne, hall⟩ := hds
    have ht := takeDigits_append ds rest hall (fun c hc => (hrest c hc).1)
    cases ds with
    | nil => simp at hne
    | cons d ds =>
      rw [List.all_cons, Bool.and_eq_true] at hall
      have hd : d ≠ '+' ∧ d ≠ '-' := by
        constructor <;> intro h <;> rw [h] at hall <;> exact absurd hall.1 (by decide)
      have hskip : skipSign (sign ++ (d :: ds) ++ rest) = (d :: ds) ++ rest := by
        rcases hsign with rfl | rfl | rfl
        · simp [skipSign, hd.1, hd.2]
        · simp [skipSign]
        · simp [skipSign]
      have he2 : (decide (e = 'e') || decide (e = 'E')) = true := by
        rcases he with rfl | rfl <;> decide
      simp only [List.cons_append, scanExp, he2, if_true, List.append_assoc] at hskip ⊢
      rw [hskip]
      simp only [List.cons_append] at ht
      simp [ht]

theorem intPart_head (ds : Text) (hds : IsIntPart ds) :
    ∃ c cs, ds = c :: cs ∧ c.isDigit = true := by
  rcases hds with h0 | ⟨⟨hne, hall⟩, _⟩
  · exact ⟨'0', [], h0, by decide⟩
  · cases ds with
    | nil => simp at hne
    | cons c cs =>
      rw [List.all_cons, Bool.and_eq_true] at hall
      exact ⟨c, cs, rfl, hall.1⟩

theorem numberChar_false (c : Char) (h : numberChar c = false) :
    c.isDigit = false ∧ c ≠ '.' ∧ c ≠ 'e' ∧ c ≠ 'E' := by
  simp only [numberChar, Bool.or_eq_false_iff, decide_eq_false_iff_not] at h
  exact ⟨h.1.1.1, h.1.1.2, h.1.2, h.2⟩

theorem expPart_head (ex rest : Text) (hex : IsExpPart ex) (hrest : Terminated rest) :
    ∀ c, (ex ++ rest).head? = some c → c.isDigit = false ∧ c ≠ '.' := by
  intro c hc
  cases hex with
  | none =>
    have := numberChar_false c (hrest c hc)
    exact ⟨this.1, this.2.1⟩
  | some e sign ds he _ _ =>
    simp only [List.cons_append, List.head?_cons, Option.some.injEq] at hc
    subst hc
    rcases he with rfl | rfl <;> exact ⟨by decide, by decide⟩

theorem fracPart_head (fr rest : Text) (hfr : IsFracPart fr)
    (hrest : ∀ c, rest.head? = some c → c.isDigit = false) :
    ∀ c, (fr ++ rest).head? = some c → c.isDigit = false := by
  intro c hc
  cases hfr with
  | none => exact hrest c hc
  | some ds _ =>
    simp only [List.cons_append, List.head?_cons, Option.some.injEq] at hc
    subst hc
    decide

/-- The scanner reads a number literal that is followed by a terminated
text. -/
theorem scanNumber_append (t rest : Text) (n : JNumber) (ht : NumberText t n)
    (hrest : Terminated rest) : scanNumber (t ++ rest) = some (n, rest) := by
  have hr := fun c hc => numberChar_false c (hrest c hc)
  cases ht with
  | nat m =>
    obtain ⟨hint, hval⟩ := toDigits_spec m
    obtain ⟨c, cs, hcs, hc⟩ := intPart_head _ hint
    have hneg : ((Nat.toDigits 10 m ++ rest).head? = some '-') = False := by
      rw [hcs]
      simp only [List.cons_append, List.head?_cons, Option.some.injEq, eq_iff_iff, iff_false]
      intro h
      rw [h] at hc
      exact absurd hc (by decide)
    have h1 := scanInt_append _ rest hint (fun c hc => (hr c hc).1)
    have h2 := scanFrac_append [] rest IsFracPart.none (fun c hc => ⟨(hr c hc).1, (hr c hc).2.1⟩)
    have h3 := scanExp_append [] rest IsExpPart.none
      (fun c hc => ⟨(hr c hc).1, (hr c hc).2.2.1, (hr c hc).2.2.2⟩)
    simp only [List.nil_append] at h2 h3
    simp only [scanNumber, hneg, if_false, h1, h2, h3, decide_False]
    simp [hval]
  | other sign int frac exp hsign hint hfrac hexp hsome =>
    obtain ⟨c, cs, hcs, hc⟩ := intPart_head _ hint
    have hc' : c ≠ '-' := by
      intro h
      rw [h] at hc
      exact absurd hc (by decide)
    have hX := fracPart_head frac (exp ++ rest) hfrac
      (fun c hc => (expPart_head exp rest hexp hrest c hc).1)
    have h1 := scanInt_append int (frac ++ (exp ++ rest)) hint hX
    have h2 := scanFrac_append frac (exp ++ rest) hfrac (expPart_head exp rest hexp hrest)
    have h3 := scanExp_append exp rest hexp
      (fun c hc => ⟨(hr c hc).1, (hr c hc).2.2.1, (hr c hc).2.2.2⟩)
    have hflag : ∀ b : Bool, (sign ≠ [] → b = true) →
        (b || !frac.isEmpty || !exp.isEmpty) = true := by
      intro b hb
      rcases hsome with h | h | h
      · simp [hb h]
      · cases frac with
        | nil => exact absurd rfl h
        | cons _ _ => simp
      · cases exp with
        | nil => exact absurd rfl h
        | cons _ _ => simp
    rcases hsign with rfl | rfl
    · have hneg : (((([] : Text) ++ (int ++ (frac ++ exp))) ++ rest).head? = some '-') = False := by
        rw [hcs]
        simp only [List.nil_append, List.cons_append, List.head?_cons, Option.some.injEq,
          eq_iff_iff, iff_false]
        exact hc'
      have hf := hflag false (fun h => absurd rfl h)
      simp only [scanNumber, hneg, if_false, decide_False]
      simp only [List.nil_append, List.append_assoc, h1, h2, h3]
      simp only [Bool.false_or] at hf ⊢
      simp [hf]
    · have hf := hflag true (fun _ => rfl)
      simp only [scanNumber, List.cons_append, List.nil_append, List.head?_cons, if_true,
        List.tail_cons, decide_True, List.append_assoc, h1, h2, h3]
      simp

theorem hexValue_of_hexDigit (c : Char) (v : Nat) (h : HexDigit c v) : hexValue c = some v := by
  obtain ⟨hv, hc⟩ := h
  interval_cases v <;> rcases hc with rfl | rfl <;> decide

theorem getu4_of_hex4 (h1 h2 h3 h4 : Char) (code : Nat) (h : Hex4 h1 h2 h3 h4 code) :
    getu4 h1 h2 h3 h4 = some code := by
  obtain ⟨a, b, c, d, ha, hb, hc, hd, rfl⟩ := h
  simp [getu4, hexValue_of_hexDigit _ _ ha, hexValue_of_hexDigit _ _ hb,
    hexValue_of_hexDigit _ _ hc, hexValue_of_hexDigit _ _ hd]

theorem simpleEscape_of_table (e c : Char) (h : (e, c) ∈ escapeTable) :
    e ≠ 'u' ∧ simpleEscape e = some c := by
  simp only [escapeTable, List.mem_cons, Prod.mk.injEq, List.mem_singleton, List.not_mem_nil,
    or_false] at h
  rcases h with ⟨rfl, rfl⟩ | ⟨rfl, rfl⟩ | ⟨rfl, rfl⟩ | ⟨rfl, rfl⟩ | ⟨rfl, rfl⟩ | ⟨rfl, rfl⟩ |
    ⟨rfl, rfl⟩ | ⟨rfl, rfl⟩ <;> exact ⟨by decide, by decide⟩

/-- A string body that, with the closing quote after it, begins with a `\u`
escape has the four digits of that escape, and they are hexadecimal. -/
theorem stringText_begins_escape (body s rest rest2 : Text) (l1 l2 l3 l4 : Char)
    (hst : StringText body s)
    (heq : body ++ '"' :: rest = '\\' :: 'u' :: l1 :: l2 :: l3 :: l4 :: rest2) :
    ∃ lo tail, body = '\\' :: 'u' :: l1 :: l2 :: l3 :: l4 :: tail ∧ Hex4 l1 l2 l3 l4 lo := by
  cases hst with
  | nil =>
    simp only [List.nil_append, List.cons.injEq] at heq
    exact absurd heq.1 (by decide)
  | plain c body1 s1 _ _ hb _ =>
    simp only [List.cons_append, List.cons.injEq] at heq
    exact absurd heq.1 hb
  | escape e c body1 s1 ht _ =>
    simp only [List.cons_append, List.cons.injEq] at heq
    exact absurd heq.2.1 (simpleEscape_of_table e c ht).1
  | unicode h1 h2 h3 h4 code body1 s1 hh _ _ =>
    simp only [List.cons_append, List.cons.injEq, true_and] at heq
    obtain ⟨rfl, rfl, rfl, rfl, _⟩ := heq
    exact ⟨code, body1, rfl, hh⟩
  | pair h1 h2 h3 h4 m1 m2 m3 m4 hi lo body1 s1 hh _ _ _ _ _ _ =>
    simp only [List.cons_append, List.cons.injEq, true_and] at heq
    obtain ⟨rfl, rfl, rfl, rfl, _⟩ := heq
    exact ⟨hi, _, rfl, hh⟩
  | lone h1 h2 h3 h4 code body1 s1 hh _ _ _ _ =>
    simp only [List.cons_append, List.cons.injEq, true_and] at heq
    obtain ⟨rfl, rfl, rfl, rfl, _⟩ := heq
    exact ⟨code, body1, rfl, hh⟩

/-- A surrogate escape that is not the first half of a pair is read as
U+FFFD. -/
theorem unicodeEscape_lone (code : Nat) (body s rest : Text) (hst : StringText body s)
    (h1 : 0xD800 ≤ code) (h2 : code < 0xE000)
    (hno : ¬ (code < 0xDC00 ∧ BeginsWithLowSurrogate body)) :
    unicodeEscape code (body ++ '"' :: rest) =
      StringStep.char replacementChar (body ++ '"' :: rest) := by
  have hs : isSurrogate code = true := by simp [isSurrogate, h1, h2]
  unfold unicodeEscape
  rw [if_pos hs]
  split
  · rename_i b1 b2 l1 l2 l3 l4 rest2 heq
    split
    · rename_i lo hlo
      split
      · rename_i hcond
        simp only [Bool.and_eq_true, decide_eq_true_eq] at hcond
        obtain ⟨⟨⟨⟨hb1, hb2⟩, hhi⟩, hlo1⟩, hlo2⟩ := hcond
        subst hb1 hb2
        obtain ⟨lo', tail, hbody, hhex⟩ := stringText_begins_escape _ _ _ _ _ _ _ _ hst heq
        have hg := getu4_of_hex4 _ _ _ _ _ hhex
        rw [hlo] at hg
        have : lo = lo' := Option.some.inj hg
        subst this
        exact absurd ⟨hhi, ⟨l1, l2, l3, l4, lo, tail, hbody, hhex, hlo1, hlo2⟩⟩ hno
      · rfl
    · rfl
  · rfl

/-- The scanner reads a string body up to its closing quote. -/
theorem scanString_append (body s : Text) (hst : StringText body s) :
    ∀ (rest acc : Text) (fuel : Nat), body.length < fuel →
      scanString fuel (body ++ '"' :: rest) acc = some (acc.reverse ++ s, rest) := by
  induction hst with
  | nil =>
    intro rest acc fuel hf
    obtain ⟨f, rfl⟩ : ∃ f, fuel = f + 1 := ⟨fuel - 1, by omega⟩
    simp [scanString, stringStep]
  | plain c body1 s1 hc hq hb _ ih =>
    intro rest acc fuel hf
    obtain ⟨f, rfl⟩ : ∃ f, fuel = f + 1 := ⟨fuel - 1, by omega⟩
    simp only [List.length_cons] at hf
    have hstep : stringStep (c :: body1 ++ '"' :: rest) =
        StringStep.char c (body1 ++ '"' :: rest) := by
      have : ¬ c.toNat < 0x20 := by omega
      simp [stringStep, hq, hb, this]
    rw [scanString, hstep]
    simp only
    rw [ih rest (c :: acc) f (by omega)]
    simp
  | escape e c body1 s1 ht _ ih =>
    intro rest acc fuel hf
    obtain ⟨f, rfl⟩ : ∃ f, fuel = f + 1 := ⟨fuel - 1, by omega⟩
    simp only [List.length_cons] at hf
    obtain ⟨hu, hse⟩ := simpleEscape_of_table e c ht
    have hstep : stringStep ('\\' :: e :: body1 ++ '"' :: rest) =
        StringStep.char c (body1 ++ '"' :: rest) := by
      simp [stringStep, escapeStep, hu, hse]
    rw [scanString, hstep]
    simp only
    rw [ih rest (c :: acc) f (by omega)]
    simp
  | unicode h1 h2 h3 h4 code body1 s1 hh hns _ ih =>
    intro rest acc fuel hf
    obtain ⟨f, rfl⟩ : ∃ f, fuel = f + 1 := ⟨fuel - 1, by omega⟩
    simp only [List.length_cons] at hf
    have hs : isSurrogate code = false := by
      simp only [isSurrogate, Bool.and_eq_false_iff, decide_eq_false_iff_not]
      omega
    have hstep : stringStep ('\\' :: 'u' :: h1 :: h2 :: h3 :: h4 :: body1 ++ '"' :: rest) =
        StringStep.char (Char.ofNat code) (body1 ++ '"' :: rest) := by
      simp [stringStep, escapeStep, getu4_of_hex4 _ _ _ _ _ hh, unicodeEscape, hs]
    rw [scanString, hstep]
    simp only
    rw [ih rest (Char.ofNat code :: acc) f (by omega)]
    simp
  | pair h1 h2 h3 h4 l1 l2 l3 l4 hi lo body1 s1 hh hl a1 a2 a3 a4 _ ih =>
    intro rest acc fuel hf
    obtain ⟨f, rfl⟩ : ∃ f, fuel = f + 1 := ⟨fuel - 1, by omega⟩
    simp only [List.length_cons] at hf
    have hs : isSurrogate hi = true := by
      simp only [isSurrogate, Bool.and_eq_true, decide_eq_true_eq]
      omega
    have hstep : stringStep ('\\' :: 'u' :: h1 :: h2 :: h3 :: h4 :: '\\' :: 'u' :: l1 :: l2 ::
          l3 :: l4 :: body1 ++ '"' :: rest) =
        StringStep.char (Char.ofNat (0x10000 + (hi - 0xD800) * 0x400 + (lo - 0xDC00)))
          (body1 ++ '"' :: rest) := by
      simp [stringStep, escapeStep, getu4_of_hex4 _ _ _ _ _ hh, getu4_of_hex4 _ _ _ _ _ hl,
        unicodeEscape, hs, a2, a3, a4]
    rw [scanString, hstep]
    simp only
    rw [ih rest (_ :: acc) f (by omega)]
    simp
  | lone h1 h2 h3 h4 code body1 s1 hh a1 a2 hno hst1 ih =>
    intro rest acc fuel hf
    obtain ⟨f, rfl⟩ : ∃ f, fuel = f + 1 := ⟨fuel - 1, by omega⟩
    simp only [List.length_cons] at hf
    have hstep : stringStep ('\\' :: 'u' :: h1 :: h2 :: h3 :: h4 :: body1 ++ '"' :: rest) =
        StringStep.char replacementChar (body1 ++ '"' :: rest) := by
      simp only [stringStep, List.cons_append, escapeStep, getu4_of_hex4 _ _ _ _ _ hh]
      simp only [show ('\\' : Char) ≠ '"' by decide, if_false, if_true]
      exact unicodeEscape_lone code body1 s1 rest hst1 a1 a2 hno
    rw [scanString, hstep]
    simp only
    rw [ih rest (replacementChar :: acc) f (by omega)]
    simp [replacementChar]

/-- The scanner reads a string literal. -/
theorem scanQuoted_append (body s rest : Text) (hst : StringText body s) :
    scanQuoted ('"' :: (body ++ '"' :: rest)) = some (s, rest) := by
  have := scanString_append body s hst rest [] ((body ++ '"' :: rest).length + 1)
    (by simp; omega)
  simpa [scanQuoted] using this

theorem separator_close (closer : Char) (w rest : Text) (hw : Blank w)
    (hc : isSpace closer = false) :
    separator closer (w ++ closer :: rest) = Separator.close rest := by
  simp [separator, skipSpace_blank w _ hw, skipSpace_cons closer rest hc]

theorem separator_next (closer : Char) (w1 w2 t : Text) (hw1 : Blank w1) (hw2 : Blank w2)
    (hc : closer ≠ ',') (ht : StartsValue t) :
    separator closer (w1 ++ ',' :: (w2 ++ t)) = Separator.next t := by
  obtain ⟨c, cs, rfl, hsp, _, _⟩ := ht
  have h1 : skipSpace (w1 ++ ',' :: (w2 ++ c :: cs)) = ',' :: (w2 ++ c :: cs) := by
    rw [skipSpace_blank w1 _ hw1]
    exact skipSpace_cons _ _ (by decide)
  have h2 : skipSpace (w2 ++ c :: cs) = c :: cs := by
    rw [skipSpace_blank w2 _ hw2]
    exact skipSpace_cons _ _ hsp
  have hc' : ¬ (',' : Char) = closer := fun h => hc h.symm
  simp [separator, h1, h2, hc']

theorem opening_empty (closer : Char) (w rest : Text) (hw : Blank w)
    (hc : isSpace closer = false) :
    opening closer (w ++ closer :: rest) = Opening.empty rest := by
  simp [opening, skipSpace_blank w _ hw, skipSpace_cons closer rest hc]

theorem opening_content (closer : Char) (w t : Text) (hw : Blank w) (c : Char) (cs : Text)
    (ht : t = c :: cs) (hsp : isSpace c = false) (hc : c ≠ closer) :
    opening closer (w ++ t) = Opening.content t := by
  subst ht
  simp [opening, skipSpace_blank w _ hw, skipSpace_cons c cs hsp, hc]

theorem memberKey_append (kbody k w1 w2 t : Text) (hk : StringText kbody k) (hw1 : Blank w1)
    (hw2 : Blank w2) (ht : StartsValue t) :
    memberKey ('"' :: (kbody ++ '"' :: (w1 ++ ':' :: (w2 ++ t)))) = some (k, t) := by
  obtain ⟨c, cs, rfl, hsp, _, _⟩ := ht
  have h1 : skipSpace (w1 ++ ':' :: (w2 ++ c :: cs)) = ':' :: (w2 ++ c :: cs) := by
    rw [skipSpace_blank w1 _ hw1]
    exact skipSpace_cons _ _ (by decide)
  have h2 : skipSpace (w2 ++ c :: cs) = c :: cs := by
    rw [skipSpace_blank w2 _ hw2]
    exact skipSpace_cons _ _ hsp
  simp [memberKey, scanQuoted_append kbody k _ hk, h1, h2]

theorem numberText_head (t : Text) (n : JNumber) (ht : NumberText t n) :
    ∃ c cs, t = c :: cs ∧ (c.isDigit = true ∨ c = '-') := by
  cases ht with
  | nat m =>
    obtain ⟨c, cs, hcs, hc⟩ := intPart_head _ (toDigits_spec m).1
    exact ⟨c, cs, hcs, Or.inl hc⟩
  | other sign int frac exp hsign hint _ _ _ =>
    obtain ⟨c, cs, hcs, hc⟩ := intPart_head _ hint
    rcases hsign with rfl | rfl
    · exact ⟨c, cs ++ (frac ++ exp), by simp [hcs], Or.inl hc⟩
    · exact ⟨'-', int ++ (frac ++ exp), by simp, Or.inr rfl⟩

/-- A character that starts a number starts no other kind of value. -/
theorem numberStart_facts (c : Char) (h : c.isDigit = true ∨ c = '-') :
    isSpace c = false ∧ c ≠ ']' ∧ c ≠ closeBrace ∧ c ≠ '[' ∧ c ≠ openBrace ∧ c ≠ '"' ∧
      c ≠ 't' ∧ c ≠ 'f' ∧ c ≠ 'n' := by
  rcases h with h | rfl
  · have key : ∀ d : Char, d.isDigit = false → c ≠ d := by
      intro d hd hcd
      rw [hcd] at h
      rw [h] at hd
      cases hd
    refine ⟨?_, key _ (by decide), key _ (by decide), key _ (by decide), key _ (by decide),
      key _ (by decide), key _ (by decide), key _ (by decide), key _ (by decide)⟩
    simp only [isSpace, Bool.or_eq_false_iff, decide_eq_false_iff_not]
    exact ⟨⟨⟨key _ (by decide), key _ (by decide)⟩, key _ (by decide)⟩, key _ (by decide)⟩
  · decide

/-- The scanner reads a scalar that is followed by a terminated text. -/
theorem parseScalar_append (t rest : Text) (v : JValue) (ht : ScalarText t v)
    (hrest : Terminated rest) : parseScalar (t ++ rest) = some (v, rest) := by
  cases ht with
  | null => rfl
  | true => rfl
  | false => rfl
  | num t n hn =>
    obtain ⟨c, cs, hcs, hc⟩ := numberText_head t n hn
    have hf := numberStart_facts c hc
    have hs := scanNumber_append t rest n hn hrest
    rw [hcs] at hs ⊢
    simp only [List.cons_append] at hs ⊢
    simp [parseScalar, hf.2.2.2.2.2.1, hf.2.2.2.2.2.2.1, hf.2.2.2.2.2.2.2.1,
      hf.2.2.2.2.2.2.2.2, hs]
  | str body s hs =>
    have := scanQuoted_append body s rest hs
    simp only [List.cons_append, List.append_assoc, List.singleton_append]
    simp [parseScalar, this]

theorem scalar_start (t : Text) (v : JValue) (ht : ScalarText t v) :
    ∃ c cs, t = c :: cs ∧ isSpace c = false ∧ c ≠ ']' ∧ c ≠ closeBrace ∧ c ≠ '[' ∧
      c ≠ openBrace := by
  cases ht with
  | null => exact ⟨'n', _, rfl, by decide, by decide, by decide, by decide, by decide⟩
  | true => exact ⟨'t', _, rfl, by decide, by decide, by decide, by decide, by decide⟩
  | false => exact ⟨'f', _, rfl, by decide, by decide, by decide, by decide, by decide⟩
  | num t n hn =>
    obtain ⟨c, cs, hcs, hc⟩ := numberText_head t n hn
    have hf := numberStart_facts c hc
    exact ⟨c, cs, hcs, hf.1, hf.2.1, hf.2.2.1, hf.2.2.2.1, hf.2.2.2.2.1⟩
  | str body s hs =>
    exact ⟨'"', _, rfl, by decide, by decide, by decide, by decide, by decide⟩

/-- Scalars are read at every depth, with one unit of fuel. -/
theorem scalar_parses (depth : Nat) (t : Text) (v : JValue) (ht : ScalarText t v) :
    ParsesValue depth t v := by
  obtain ⟨c, cs, hcs, h1, h2, h3, h4, h5⟩ := scalar_start t v ht
  refine ⟨⟨c, cs, hcs, h1, h2, h3⟩, fun rest hrest => ⟨1, fun f hf => ?_⟩⟩
  obtain ⟨g, rfl⟩ : ∃ g, f = g + 1 := ⟨f - 1, by omega⟩
  have hp := parseScalar_append t rest v ht hrest
  rw [hcs] at hp ⊢
  simp only [List.cons_append] at hp ⊢
  simp [parseValue, h4, h5, hp]

/-- The elements of an array are read when each element is. -/
theorem elems_parse (depth : Nat) (P : Text → JValue → Prop)
    (hP : ∀ t v, P t v → ParsesValue depth t v) (t : Text) (xs : List JValue)
    (ht : ElemsText P t xs) :
    StartsValue t ∧
      ∀ rest, ∃ f0, ∀ f, f0 ≤ f → parseElems f depth (t ++ rest) = some (xs, rest) := by
  induction ht with
  | last tv w v hv hw =>
    obtain ⟨hstart, hparse⟩ := hP tv v hv
    constructor
    · obtain ⟨c, cs, rfl, h⟩ := hstart
      exact ⟨c, _, rfl, h⟩
    · intro rest
      obtain ⟨f0, hf0⟩ := hparse (w ++ ']' :: rest) (terminated_blank w ']' rest hw (by decide))
      refine ⟨f0 + 1, fun f hf => ?_⟩
      obtain ⟨g, rfl⟩ : ∃ g, f = g + 1 := ⟨f - 1, by omega⟩
      have hv' := hf0 g (by omega)
      simp only [List.append_assoc, List.singleton_append]
      simp [parseElems, hv', separator_close ']' w rest hw (by decide)]
  | cons tv w1 w2 t2 v vs hv hw1 hw2 _ ih =>
    obtain ⟨hstart, hparse⟩ := hP tv v hv
    obtain ⟨hstart2, hparse2⟩ := ih
    constructor
    · obtain ⟨c, cs, rfl, h⟩ := hstart
      exact ⟨c, _, rfl, h⟩
    · intro rest
      obtain ⟨f0, hf0⟩ := hparse (w1 ++ ',' :: (w2 ++ (t2 ++ rest)))
        (terminated_blank w1 ',' _ hw1 (by decide))
      obtain ⟨f1, hf1⟩ := hparse2 rest
      refine ⟨max f0 f1 + 1, fun f hf => ?_⟩
      obtain ⟨g, rfl⟩ : ∃ g, f = g + 1 := ⟨f - 1, by omega⟩
      have hv' := hf0 g (by omega)
      have he' := hf1 g (by omega)
      have hstart2' : StartsValue (t2 ++ rest) := by
        obtain ⟨c, cs, rfl, h⟩ := hstart2
        exact ⟨c, _, rfl, h⟩
      have hsep := separator_next ']' w1 w2 (t2 ++ rest) hw1 hw2 (by decide) hstart2'
      simp only [List.append_assoc, List.cons_append]
      simp [parseElems, hv', hsep, he']

/-- The members of an object are read when each member value is. -/
theorem members_parse (depth : Nat) (P : Text → JValue → Prop)
    (hP : ∀ t v, P t v → ParsesValue depth t v) (t : Text) (kvs : List (Text × JValue))
    (ht : MembersText P t kvs) :
    StartsValue t ∧
      ∀ rest, ∃ f0, ∀ f, f0 ≤ f → parseMembers f depth (t ++ rest) = some (kvs, rest) := by
  induction ht with
  | last kbody k w1 w2 tv w3 v hk hw1 hw2 hv hw3 =>
    obtain ⟨hstart, hparse⟩ := hP tv v hv
    constructor
    · exact ⟨'"', _, rfl, by decide, by decide, by decide⟩
    · intro rest
      obtain ⟨f0, hf0⟩ := hparse (w3 ++ closeBrace :: rest)
        (terminated_blank w3 closeBrace rest hw3 (by decide))
      refine ⟨f0 + 1, fun f hf => ?_⟩
      obtain ⟨g, rfl⟩ : ∃ g, f = g + 1 := ⟨f - 1, by omega⟩
      have hv' := hf0 g (by omega)
      have hstart' : StartsValue (tv ++ (w3 ++ closeBrace :: rest)) := by
        obtain ⟨c, cs, rfl, h⟩ := hstart
        exact ⟨c, _, rfl, h⟩
      have hkey := memberKey_append kbody k w1 w2 _ hk hw1 hw2 hstart'
      simp only [List.append_assoc, List.cons_append, List.singleton_append, List.nil_append]
      simp [parseMembers, hkey, hv', separator_close closeBrace w3 rest hw3 (by decide)]
  | cons kbody k w1 w2 tv w3 w4 t2 v kvs hk hw1 hw2 hv hw3 hw4 _ ih =>
    obtain ⟨hstart, hparse⟩ := hP tv v hv
    obtain ⟨hstart2, hparse2⟩ := ih
    constructor
    · exact ⟨'"', _, rfl, by decide, by decide, by decide⟩
    · intro rest
      obtain ⟨f0, hf0⟩ := hparse (w3 ++ ',' :: (w4 ++ (t2 ++ rest)))
        (terminated_blank w3 ',' _ hw3 (by decide))
      obtain ⟨f1, hf1⟩ := hparse2 rest
      refine ⟨max f0 f1 + 1, fun f hf => ?_⟩
      obtain ⟨g, rfl⟩ : ∃ g, f = g + 1 := ⟨f - 1, by omega⟩
      have hv' := hf0 g (by omega)
      have he' := hf1 g (by omega)
      have hstart' : StartsValue (tv ++ (w3 ++ ',' :: (w4 ++ (t2 ++ rest)))) := by
        obtain ⟨c, cs, rfl, h⟩ := hstart
        exact ⟨c, _, rfl, h⟩
      have hstart2' : StartsValue (t2 ++ rest) := by
        obtain ⟨c, cs, rfl, h⟩ := hstart2
        exact ⟨c, _, rfl, h⟩
      have hkey := memberKey_append kbody k w1 w2 _ hk hw1 hw2 hstart'
      have hsep := separator_next closeBrace w3 w4 (t2 ++ rest) hw3 hw4 (by decide) hstart2'
      simp only [List.append_assoc, List.cons_append]
      simp [parseMembers, hkey, hv', hsep, he']

/-- A container is read when its elements or member values are read one level
deeper and the nesting limit is not reached. -/
theorem container_parses (depth : Nat) (P : Text → JValue → Prop)
    (hP : ∀ t v, P t v → ParsesValue (depth + 1) t v) (hd : depth < maxNestingDepth)
    (t : Text) (v : JValue) (ht : ContainerText P t v) : ParsesValue depth t v := by
  have hnd : ¬ depth ≥ maxNestingDepth := by omega
  have hob : ¬ openBrace = '[' := by decide
  cases ht with
  | emptyArray w hw =>
    refine ⟨⟨'[', _, rfl, by decide, by decide, by decide⟩, fun rest _ => ⟨1, fun f hf => ?_⟩⟩
    obtain ⟨g, rfl⟩ : ∃ g, f = g + 1 := ⟨f - 1, by omega⟩
    simp only [List.cons_append, List.append_assoc, List.singleton_append]
    simp [parseValue, hnd, opening_empty ']' w rest hw (by decide)]
  | array w t1 xs hw he =>
    obtain ⟨hstart, hparse⟩ := elems_parse (depth + 1) P hP t1 xs he
    refine ⟨⟨'[', _, rfl, by decide, by decide, by decide⟩, fun rest _ => ?_⟩
    obtain ⟨f0, hf0⟩ := hparse rest
    refine ⟨f0 + 1, fun f hf => ?_⟩
    obtain ⟨g, rfl⟩ : ∃ g, f = g + 1 := ⟨f - 1, by omega⟩
    obtain ⟨c, cs, hcs, hsp, hc, _⟩ := hstart
    have hopen := opening_content ']' w (t1 ++ rest) hw c (cs ++ rest) (by simp [hcs]) hsp hc
    simp only [List.cons_append, List.append_assoc]
    simp [parseValue, hnd, hopen, hf0 g (by omega)]
  | emptyObject w hw =>
    refine ⟨⟨openBrace, _, rfl, by decide, by decide, by decide⟩,
      fun rest _ => ⟨1, fun f hf => ?_⟩⟩
    obtain ⟨g, rfl⟩ : ∃ g, f = g + 1 := ⟨f - 1, by omega⟩
    simp only [List.cons_append, List.append_assoc, List.singleton_append]
    simp [parseValue, hnd, hob, opening_empty closeBrace w rest hw (by decide)]
  | object w t1 kvs hw hm =>
    obtain ⟨hstart, hparse⟩ := members_parse (depth + 1) P hP t1 kvs hm
    refine ⟨⟨openBrace, _, rfl, by decide, by decide, by decide⟩, fun rest _ => ?_⟩
    obtain ⟨f0, hf0⟩ := hparse rest
    refine ⟨f0 + 1, fun f hf => ?_⟩
    obtain ⟨g, rfl⟩ : ∃ g, f = g + 1 := ⟨f - 1, by omega⟩
    obtain ⟨c, cs, hcs, hsp, _, hc⟩ := hstart
    have hopen := opening_content closeBrace w (t1 ++ rest) hw c (cs ++ rest) (by simp [hcs])
      hsp hc
    simp only [List.cons_append, List.append_assoc]
    simp [parseValue, hnd, hob, hopen, hf0 g (by omega)]

/-- Every value of the grammar is read by the scanner, within the nesting
limit. -/
theorem value_parses (b : Nat) :
    ∀ (depth : Nat) (t : Text) (v : JValue), depth + b ≤ maxNestingDepth →
      ValueText b t v → ParsesValue depth t v := by
  induction b with
  | zero =>
    intro depth t v _ ht
    exact scalar_parses depth t v ht
  | succ b ih =>
    intro depth t v hd ht
    rcases ht with hs | hc
    · exact scalar_parses depth t v hs
    · exact container_parses depth (ValueText b) (fun t1 v1 h1 => ih (depth + 1) t1 v1 (by omega) h1)
        (by omega) t v hc

/-- The scanner accepts every JSON text and builds the value the text
denotes. -/
theorem parseJSON_of_jsonText (raw : Text) (v : JValue) (h : JsonText raw v) :
    parseJSON raw = some v := by
  obtain ⟨w1, t, w2, hw1, hw2, hv, rfl⟩ := h
  obtain ⟨hstart, hparse⟩ := value_parses 10000 0 t v (by decide) hv
  obtain ⟨f0, hf0⟩ := hparse w2 (terminated_blank_end w2 hw2)
  have hskip : skipSpace (w1 ++ (t ++ w2)) = t ++ w2 := by
    rw [skipSpace_blank w1 _ hw1]
    obtain ⟨c, cs, rfl, hsp, _⟩ := hstart
    exact skipSpace_cons c _ hsp
  have hfuel := parseValue_fuel (w1 ++ (t ++ w2)) (max (2 * (w1 ++ (t ++ w2)).length + 2) f0)
    (Nat.le_max_left _ _)
  rw [hskip] at hfuel
  rw [hf0 _ (Nat.le_max_right _ _)] at hfuel
  unfold parseJSON
  rw [hskip, ← hfuel]
  simp [skipSpace_blank_nil w2 hw2]

/-! ## Building and refuting concrete JSON texts -/

/-- A text of plain characters is the body of the string with the same
contents. -/
theorem stringText_plain (s : Text) (h : s.all isPlainChar = true) : StringText s s := by
  induction s with
  | nil => exact StringText.nil
  | cons c s ih =>
    rw [List.all_cons, Bool.and_eq_true] at h
    have hc := h.1
    simp only [isPlainChar, Bool.and_eq_true, decide_eq_true_eq, bne_iff_ne, ne_eq] at hc
    exact StringText.plain c s s hc.1.1 hc.1.2 hc.2 (ih h.2)

theorem valueText_scalar (b : Nat) (t : Text) (v : JValue) (h : ScalarText t v) :
    ValueText b t v := by
  cases b with
  | zero => exact h
  | succ b => exact Or.inl h

theorem valueText_container (b : Nat) (t : Text) (v : JValue)
    (h : ContainerText (ValueText b) t v) : ValueText (b + 1) t v :=
  Or.inr h

/-- The decimal numeral of `n` is a value that denotes `n`. -/
theorem valueText_nat (b n : Nat) (t : Text) (h : t = Nat.toDigits 10 n) :
    ValueText b t (JValue.num (JNumber.nat n)) := by
  subst h
  exact valueText_scalar b _ _ (ScalarText.num _ _ (NumberText.nat n))

/-- One step of the scanner on a scalar. -/
theorem parseValue_scalar (f depth : Nat) (t rest : Text) (v : JValue) (ht : ScalarText t v)
    (hrest : Terminated rest) : parseValue (f + 1) depth (t ++ rest) = some (v, rest) := by
  obtain ⟨c, cs, hcs, _, _, _, h4, h5⟩ := scalar_start t v ht
  have hp := parseScalar_append t rest v ht hrest
  rw [hcs] at hp ⊢
  simp only [List.cons_append] at hp ⊢
  simp [parseValue, h4, h5, hp]

/-- Opening brackets that reach beyond the nesting limit are a syntax error. -/
theorem deep_brackets (n : Nat) :
    ∀ (f d : Nat) (rest : Text), maxNestingDepth ≤ d + n →
      parseValue f d ('[' :: (List.replicate n '[' ++ rest)) = none := by
  induction n with
  | zero =>
    intro f d rest h
    cases f with
    | zero => rfl
    | succ f =>
      have hd : d ≥ maxNestingDepth := by omega
      simp [parseValue, hd]
  | succ n ih =>
    intro f d rest h
    cases f with
    | zero => rfl
    | succ f =>
      by_cases hd : d ≥ maxNestingDepth
      · simp [parseValue, hd]
      · have hopen : opening ']' (List.replicate (n + 1) '[' ++ rest) =
            Opening.content ('[' :: (List.replicate n '[' ++ rest)) := by
          have := opening_content ']' [] ('[' :: (List.replicate n '[' ++ rest)) (by decide) '['
            _ rfl (by decide) (by decide)
          simpa [List.replicate_succ] using this
        have hinner : parseElems f (d + 1) ('[' :: (List.replicate n '[' ++ rest)) = none := by
          cases f with
          | zero => rfl
          | succ f => simp [parseElems, ih f (d + 1) rest (by omega)]
        simp [parseValue, hd, hopen, hinner]

/-- The scanner rejects an array of one object whose member `x` opens 9999
arrays inside one another: the innermost would be the 10001st container. -/
theorem parseJSON_deep (key : Text) (n : Nat) (hk : key.all isPlainChar = true) (rest : Text) :
    parseJSON ('[' :: openBrace :: '"' :: (key ++ '"' :: ':' ::
      (Nat.toDigits 10 n ++ ',' :: '"' :: 'x' :: '"' :: ':' :: '[' ::
        (List.replicate 9998 '[' ++ rest)))) = none := by
  have hkey := stringText_plain key hk
  generalize hD : List.replicate 9998 '[' ++ rest = D
  have hd : ∀ f, parseValue f 2 ('[' :: D) = none := by
    intro f
    rw [← hD]
    exact deep_brackets 9998 f 2 rest (by decide)
  have hx : ∀ f, parseMembers f 2 ('"' :: 'x' :: '"' :: ':' :: '[' :: D) = none := by
    intro f
    cases f with
    | zero => rfl
    | succ f =>
      have hm := memberKey_append ['x'] ['x'] [] [] ('[' :: D)
        (stringText_plain ['x'] (by decide)) (by decide) (by decide)
        ⟨'[', _, rfl, by decide, by decide, by decide⟩
      simp only [List.cons_append, List.nil_append] at hm
      rw [parseMembers]
      simp only [hm, hd]
  have hterm : Terminated (',' :: '"' :: 'x' :: '"' :: ':' :: '[' :: D) := by
    intro c hc
    simp only [List.head?_cons, Option.some.injEq] at hc
    subst hc
    decide
  have hstart : StartsValue
      (Nat.toDigits 10 n ++ ',' :: '"' :: 'x' :: '"' :: ':' :: '[' :: D) := by
    obtain ⟨c, cs, hcs, hc⟩ := intPart_head _ (toDigits_spec n).1
    have hf := numberStart_facts c (Or.inl hc)
    exact ⟨c, _, by rw [hcs]; rfl, hf.1, hf.2.1, hf.2.2.1⟩
  have hmem : ∀ f, parseMembers f 2 ('"' :: (key ++ '"' :: ':' ::
      (Nat.toDigits 10 n ++ ',' :: '"' :: 'x' :: '"' :: ':' :: '[' :: D))) = none := by
    intro f
    cases f with
    | zero => rfl
    | succ f =>
      have hm := memberKey_append key key [] [] _ hkey (by decide) (by decide) hstart
      simp only [List.nil_append] at hm
      cases f with
      | zero =>
        rw [parseMembers]
        simp only [hm, parseValue]
      | succ f =>
        have hv := parseValue_scalar f 2 (Nat.toDigits 10 n) _ _
          (ScalarText.num _ _ (NumberText.nat n)) hterm
        have hsep := separator_next closeBrace [] [] ('"' :: 'x' :: '"' :: ':' :: '[' :: D)
          (by decide) (by decide) (by decide) ⟨'"', _, rfl, by decide, by decide, by decide⟩
        simp only [List.nil_append] at hsep
        rw [parseMembers]
        simp only [hm, hv, hsep, hx]
  have hobj : ∀ f, parseValue f 1 (openBrace :: '"' :: (key ++ '"' :: ':' ::
      (Nat.toDigits 10 n ++ ',' :: '"' :: 'x' :: '"' :: ':' :: '[' :: D))) = none := by
    intro f
    cases f with
    | zero => rfl
    | succ f =>
      have hopen := opening_content closeBrace [] ('"' :: (key ++ '"' :: ':' ::
        (Nat.toDigits 10 n ++ ',' :: '"' :: 'x' :: '"' :: ':' :: '[' :: D))) (by decide)
        '"' _ rfl (by decide) (by decide)
      simp only [List.nil_append] at hopen
      have hob : ¬ openBrace = '[' := by decide
      have hdepth : ¬ 1 ≥ maxNestingDepth := by decide
      rw [parseValue]
      simp [hob, hdepth, hopen, hmem]
  have helems : ∀ f, parseElems f 1 (openBrace :: '"' :: (key ++ '"' :: ':' ::
      (Nat.toDigits 10 n ++ ',' :: '"' :: 'x' :: '"' :: ':' :: '[' :: D))) = none := by
    intro f
    cases f with
    | zero => rfl
    | succ f =>
      rw [parseElems]
      simp only [hobj]
  have hall : ∀ f, parseValue f 0 ('[' :: openBrace :: '"' :: (key ++ '"' :: ':' ::
      (Nat.toDigits 10 n ++ ',' :: '"' :: 'x' :: '"' :: ':' :: '[' :: D))) = none := by
    intro f
    cases f with
    | zero => rfl
    | succ f =>
      have hopen := opening_content ']' [] (openBrace :: '"' :: (key ++ '"' :: ':' ::
        (Nat.toDigits 10 n ++ ',' :: '"' :: 'x' :: '"' :: ':' :: '[' :: D))) (by decide)
        openBrace _ rfl (by decide) (by decide)
      simp only [List.nil_append] at hopen
      have hdepth : ¬ 0 ≥ maxNestingDepth := by decide
      rw [parseValue]
      simp [hdepth, hopen, helems]
  have hskip : ∀ t : Text, skipSpace ('[' :: t) = '[' :: t :=
    fun t => skipSpace_cons '[' t (by decide)
  unfold parseJSON
  rw [hskip, hall]

/-- The scanner rejects `deepPayload`. -/
theorem parseJSON_deepPayload (key : Text) (n : Nat) (hk : key.all isPlainChar = true) :
    parseJSON (deepPayload key n) = none := by
  unfold deepPayload deepTail
  exact parseJSON_deep key n hk _

/-- Arrays inside one another, `n + 1` deep, are a value of the grammar once
that much nesting is allowed. -/
theorem nested_text (n : Nat) :
    ValueText (n + 1) ('[' :: (List.replicate n '[' ++ (List.replicate n ']' ++ [']'])))
      (nestedArrays n) := by
  induction n with
  | zero =>
    exact valueText_container 0 _ _ (ContainerText.emptyArray [] (by decide))
  | succ n ih =>
    have h := valueText_container (n + 1) _ _
      (ContainerText.array [] _ [nestedArrays n] (by decide)
        (ElemsText.last _ [] (nestedArrays n) ih (by decide)))
    have heq : ([] : Text) ++
        ('[' :: (List.replicate n '[' ++ (List.replicate n ']' ++ [']'])) ++ ([] ++ [']'])) =
        List.replicate (n + 1) '[' ++ (List.replicate (n + 1) ']' ++ [']']) := by
      rw [List.replicate_succ, List.replicate_succ']
      simp
    rw [heq] at h
    exact h

/-- The shape of a text built member by member is the shape of
`deepPayload`. -/
theorem deep_shape (key digits opens closes : Text) :
    '[' :: ([] ++ (openBrace :: ([] ++ '"' :: (key ++ '"' :: ([] ++ ':' :: ([] ++ (digits ++
      ([] ++ ',' :: ([] ++ '"' :: (['x'] ++ '"' :: ([] ++ ':' :: ([] ++
        ('[' :: (opens ++ (closes ++ [']'])) ++ ([] ++ [closeBrace])))))))))))) ++
          ([] ++ [']']))) =
    '[' :: openBrace :: '"' :: (key ++ '"' :: ':' :: (digits ++ ',' :: '"' :: 'x' :: '"' :: ':' ::
      '[' :: (opens ++ ((closes ++ [']']) ++ [closeBrace, ']'])))) := by
  simp only [List.nil_append, List.cons_append, List.append_assoc, List.singleton_append]

/-- An array of one object with the member `key` = `n` and a member `x` holding
arrays `k + 1` deep is a JSON value once `k + 3` levels are allowed. -/
theorem deepShape_text (key : Text) (n k : Nat) (hk : key.all isPlainChar = true) :
    ValueText (k + 3)
      ('[' :: openBrace :: '"' :: (key ++ '"' :: ':' ::
        (Nat.toDigits 10 n ++ ',' :: '"' :: 'x' :: '"' :: ':' :: '[' ::
          (List.replicate k '[' ++ ((List.replicate k ']' ++ [']']) ++ [closeBrace, ']'])))))
      (JValue.arr [JValue.obj [(key, JValue.num (JNumber.nat n)),
        (['x'], nestedArrays k)]]) := by
  have hmembers :=
    MembersText.cons key key [] [] (Nat.toDigits 10 n) [] [] _ _ _
      (stringText_plain key hk) (by decide) (by decide) (valueText_nat (k + 1) n _ rfl)
      (by decide) (by decide)
      (MembersText.last ['x'] ['x'] [] [] _ [] _ (stringText_plain ['x'] (by decide))
        (by decide) (by decide) (nested_text k) (by decide))
  have hobject := valueText_container (k + 1) _ _
    (ContainerText.object [] _ _ (by decide) hmembers)
  have harray := valueText_container (k + 2) _ _
    (ContainerText.array [] _ _ (by decide) (ElemsText.last _ [] _ hobject (by decide)))
  rw [deep_shape] at harray
  exact harray

/-- Without the nesting limit `deepPayload` is a JSON text: an array of one
object whose first member is `key` with the number `n`; its containers nest
10001 deep. -/
theorem deepPayload_text (key : Text) (n : Nat) (hk : key.all isPlainChar = true) :
    ValueText 10001 (deepPayload key n)
      (JValue.arr [JValue.obj [(key, JValue.num (JNumber.nat n)),
        (['x'], nestedArrays 9998)]]) := by
  unfold deepPayload deepTail
  rw [List.replicate_succ' 9998 ']']
  exact deepShape_text key n 9998 hk
/-! ## Concrete payloads are JSON texts -/

/-- The last member of an object written without whitespace. -/
theorem members_last (b : Nat) (k t : Text) (v : JValue) (hk : k.all isPlainChar = true)
    (hv : ValueText b t v) :
    MembersText (ValueText b) ('"' :: (k ++ '"' :: ':' :: (t ++ [closeBrace]))) [(k, v)] :=
  MembersText.last k k [] [] t [] v (stringText_plain k hk) (by decide) (by decide) hv
    (by decide)

/-- A member of an object written without whitespace, followed by more. -/
theorem members_cons (b : Nat) (k t rest : Text) (v : JValue) (kvs : List (Text × JValue))
    (hk : k.all isPlainChar = true) (hv : ValueText b t v)
    (hrest : MembersText (ValueText b) rest kvs) :
    MembersText (ValueText b) ('"' :: (k ++ '"' :: ':' :: (t ++ ',' :: rest))) ((k, v) :: kvs) :=
  MembersText.cons k k [] [] t [] [] rest v kvs (stringText_plain k hk) (by decide) (by decide)
    hv (by decide) (by decide) hrest

/-- An object written without whitespace. -/
theorem object_text (b : Nat) (t : Text) (kvs : List (Text × JValue))
    (h : MembersText (ValueText b) t kvs) : ValueText (b + 1) (openBrace :: t) (JValue.obj kvs) :=
  valueText_container b _ _ (ContainerText.object [] t kvs (by decide) h)

/-- The last element of an array written without whitespace. -/
theorem elems_last (b : Nat) (t : Text) (v : JValue) (h : ValueText b t v) :
    ElemsText (ValueText b) (t ++ [']']) [v] :=
  ElemsText.last t [] v h (by decide)

/-- An element of an array written without whitespace, followed by more. -/
theorem elems_cons (b : Nat) (t rest : Text) (v : JValue) (vs : List JValue)
    (h : ValueText b t v) (hrest : ElemsText (ValueText b) rest vs) :
    ElemsText (ValueText b) (t ++ ',' :: rest) (v :: vs) :=
  ElemsText.cons t [] [] rest v vs h (by decide) (by decide) hrest

/-- An array written without whitespace. -/
theorem array_text (b : Nat) (t : Text) (xs : List JValue)
    (h : ElemsText (ValueText b) t xs) : ValueText (b + 1) ('[' :: t) (JValue.arr xs) :=
  valueText_container b _ _ (ContainerText.array [] t xs (by decide) h)

/-- A value with no whitespace around it is a JSON text. -/
theorem jsonText_of_value (raw t : Text) (v : JValue) (h : ValueText 10000 t v)
    (heq : raw = t) : JsonText raw v :=
  ⟨[], t, [], by decide, by decide, h, by rw [heq, List.nil_append, List.append_nil]⟩

/-- A number written with the fraction `.0`. -/
theorem fraction_text (b : Nat) (d : Char) (hd : IsIntPart [d]) :
    ValueText b [d, '.', '0'] (JValue.num JNumber.other) :=
  valueText_scalar b _ _ (ScalarText.num _ _
    (NumberText.other [] [d] ['.', '0'] [] (Or.inl rfl) hd (IsFracPart.some ['0'] (by decide))
      IsExpPart.none (Or.inr (Or.inl (by decide)))))

theorem spacedPayload_text : JsonText spacedPayload (JValue.arr [JValue.obj spacedMembers]) := by
  have hmembers : MembersText (ValueText 9998) _ spacedMembers :=
    MembersText.cons "external".toList "external".toList [] [' '] (Nat.toDigits 10 61045) []
      [' '] _ _ _ (stringText_plain _ (by decide)) (by decide) (by decide)
      (valueText_nat 9998 61045 _ rfl) (by decide) (by decide)
      (MembersText.last "internal".toList "internal".toList [] [' '] (Nat.toDigits 10 8080) [] _
        (stringText_plain _ (by decide)) (by decide) (by decide) (valueText_nat 9998 8080 _ rfl)
        (by decide))
  have hobject := valueText_container 9998 _ _ (ContainerText.object [] _ _ (by decide) hmembers)
  have harray := valueText_container 9999 _ _
    (ContainerText.array [' '] _ _ (by decide) (ElemsText.last _ [' '] _ hobject (by decide)))
  exact ⟨[], _, ['\n'], by decide, by decide, harray, rfl⟩

theorem proxyLinesPayload_text :
    JsonText proxyLinesPayload (JValue.arr [JValue.obj proxyLinesMembers]) := by
  have hmembers : MembersText (ValueText 9998) _ proxyLinesMembers :=
    MembersText.cons "internal".toList "internal".toList [] [] (Nat.toDigits 10 8080) []
      [' '] _ _ _ (stringText_plain _ (by decide)) (by decide) (by decide)
      (valueText_nat 9998 8080 _ rfl) (by decide) (by decide)
      (MembersText.last "external_tls_proxy".toList "external_tls_proxy".toList [] []
        (Nat.toDigits 10 61046) [] _
        (stringText_plain _ (by decide)) (by decide) (by decide) (valueText_nat 9998 61046 _ rfl)
        (by decide))
  have hobject := valueText_container 9998 _ _ (ContainerText.object [] _ _ (by decide) hmembers)
  have harray := valueText_container 9999 _ _
    (ContainerText.array ['\n', ' ', ' '] _ _ (by decide)
      (ElemsText.last _ ['\n'] _ hobject (by decide)))
  exact ⟨[], _, [], by decide, by decide, harray, rfl⟩

theorem overflowTailPayload_text :
    JsonText overflowTailPayload
      (JValue.arr
        [firstOfFive, JValue.obj [("external".toList, JValue.num (JNumber.nat 70000))]]) :=
  jsonText_of_value _ _ _
    (array_text 9999 _ _
      (elems_cons 9999 _ _ _ _
        (object_text 9998 _ _
          (members_last 9998 "external".toList _ _ (by decide) (valueText_nat 9998 5 _ rfl)))
        (elems_last 9999 _ _
          (object_text 9998 _ _
            (members_last 9998 "external".toList _ _ (by decide)
              (valueText_nat 9998 70000 _ rfl))))))
    rfl

theorem badProxyPayload_text :
    JsonText badProxyPayload (JValue.arr [JValue.obj badProxyMembers]) :=
  jsonText_of_value _ _ _
    (array_text 9999 _ _
      (elems_last 9999 _ _
        (object_text 9998 _ _
          (members_cons 9998 "external".toList _ _ _ _ (by decide) (valueText_nat 9998 5 _ rfl)
            (members_last 9998 "external_tls_proxy".toList _ _ (by decide)
              (valueText_scalar 9998 _ _
                (ScalarText.str ['x'] ['x'] (stringText_plain ['x'] (by decide)))))))))
    rfl

theorem upperCasePayload_text :
    JsonText upperCasePayload (JValue.arr [JValue.obj upperCaseMembers]) :=
  jsonText_of_value _ _ _
    (array_text 9999 _ _
      (elems_last 9999 _ _
        (object_text 9998 _ _
          (members_cons 9998 "external".toList _ _ _ _ (by decide) (valueText_nat 9998 5 _ rfl)
            (members_last 9998 "EXTERNAL".toList _ _ (by decide)
              (valueText_nat 9998 6 _ rfl))))))
    rfl

theorem fractionPayload_text :
    JsonText fractionPayload (JValue.arr [JValue.obj fractionMembers]) :=
  jsonText_of_value _ _ _
    (array_text 9999 _ _
      (elems_last 9999 _ _
        (object_text 9998 _ _
          (members_last 9998 "external".toList _ _ (by decide)
            (fraction_text 9998 '5' (by decide))))))
    rfl

theorem nullFirstPayload_text :
    JsonText nullFirstPayload (JValue.arr [JValue.null, firstOfFive]) :=
  jsonText_of_value _ _ _
    (array_text 9999 _ _
      (elems_cons 9999 _ _ _ _ (valueText_scalar 9999 _ _ ScalarText.null)
        (elems_last 9999 _ _
          (object_text 9998 _ _
            (members_last 9998 "external".toList _ _ (by decide)
              (valueText_nat 9998 5 _ rfl))))))
    rfl

theorem camelCasePayload_text :
    JsonText camelCasePayload (JValue.arr [JValue.obj camelCaseMembers]) :=
  jsonText_of_value _ _ _
    (array_text 9999 _ _
      (elems_last 9999 _ _
        (object_text 9998 _ _
          (members_cons 9998 "external".toList _ _ _ _ (by decide) (valueText_nat 9998 0 _ rfl)
            (members_last 9998 "externalTLSProxy".toList _ _ (by decide)
              (valueText_nat 9998 61046 _ rfl))))))
    rfl

theorem shadowedZeroPayload_text :
    JsonText shadowedZeroPayload (JValue.arr [JValue.obj shadowedZeroMembers]) :=
  jsonText_of_value _ _ _
    (array_text 9999 _ _
      (elems_last 9999 _ _
        (object_text 9998 _ _
          (members_cons 9998 "external".toList _ _ _ _ (by decide) (valueText_nat 9998 0 _ rfl)
            (members_cons 9998 "EXTERNAL".toList _ _ _ _ (by decide)
              (valueText_nat 9998 7 _ rfl)
              (members_last 9998 "external_tls_proxy".toList _ _ (by decide)
                (valueText_nat 9998 9 _ rfl)))))))
    rfl

theorem shadowedProxyPayload_text :
    JsonText shadowedProxyPayload (JValue.arr [JValue.obj shadowedProxyMembers]) :=
  jsonText_of_value _ _ _
    (array_text 9999 _ _
      (elems_last 9999 _ _
        (object_text 9998 _ _
          (members_cons 9998 "external_tls_proxy".toList _ _ _ _ (by decide)
            (valueText_nat 9998 9 _ rfl)
            (members_last 9998 "EXTERNAL_TLS_PROXY".toList _ _ (by decide)
              (valueText_nat 9998 7 _ rfl))))))
    rfl

theorem proxyOverflowTailPayload_text :
    JsonText proxyOverflowTailPayload
      (JValue.arr [JValue.obj proxyOfNineMembers,
        JValue.obj [("external".toList, JValue.num (JNumber.nat 70000))]]) :=
  jsonText_of_value _ _ _
    (array_text 9999 _ _
      (elems_cons 9999 _ _ _ _
        (object_text 9998 _ _
          (members_last 9998 "external_tls_proxy".toList _ _ (by decide)
            (valueText_nat 9998 9 _ rfl)))
        (elems_last 9999 _ _
          (object_text 9998 _ _
            (members_last 9998 "external".toList _ _ (by decide)
              (valueText_nat 9998 70000 _ rfl))))))
    rfl

theorem zeroFractionPayload_text :
    JsonText zeroFractionPayload (JValue.arr [JValue.obj zeroFractionMembers]) :=
  jsonText_of_value _ _ _
    (array_text 9999 _ _
      (elems_last 9999 _ _
        (object_text 9998 _ _
          (members_cons 9998 "external".toList _ _ _ _ (by decide)
            (fraction_text 9998 '0' (by decide))
            (members_last 9998 "external_tls_proxy".toList _ _ (by decide)
              (valueText_nat 9998 9 _ rfl))))))
    rfl
/-! ## `parseInstancePorts`: results -/

/-- The slice `json.Unmarshal` fills for an array whose elements are all
port-mapping elements and whose first element is the object `kvs`. -/
theorem Unmarshal_cons_obj (raw : Text) (kvs : List (Text × JValue)) (rest : List JValue)
    (hparse : parseJSON raw = some (JValue.arr (JValue.obj kvs :: rest)))
    (hshape : (JValue.obj kvs :: rest).all isPortElem = true) :
    ∃ pm pms, decodeObject kvs { External := 0, ExternalTLSProxy := 0 } = Except.ok pm ∧
      Unmarshal raw = Except.ok (pm :: pms) := by
  rw [List.all_cons, Bool.and_eq_true] at hshape
  obtain ⟨pm, hpm⟩ := (decodeObject_ok_iff kvs { External := 0, ExternalTLSProxy := 0 }).mpr
    (by simpa [isPortElem] using hshape.1)
  obtain ⟨pms, hpms⟩ := decodeElems_cons (JValue.obj kvs) rest pm (by simpa [decodeElem] using hpm)
    hshape.2
  exact ⟨pm, pms, hpm, by simp [Unmarshal, hparse, decodePorts, hpms]⟩

/-- The result of `parseInstancePorts` in terms of the decoded slice. -/
theorem parseInstancePorts_of_Unmarshal (raw : Text) :
    parseInstancePorts raw =
      match Unmarshal raw with
      | Except.error err => Except.error (Fatal.cannotUnmarshal err)
      | Except.ok [] => Except.error Fatal.emptyPorts
      | Except.ok (pm :: _) =>
        Except.ok (8080, if pm.External = 0 then pm.ExternalTLSProxy else pm.External) := by
  unfold parseInstancePorts
  cases h : Unmarshal raw with
  | error err => rfl
  | ok ports =>
    cases ports with
    | nil => rfl
    | cons pm pms => simp

/-- The call of `json.Unmarshal` returns no error exactly for the payloads of the
expected shape. -/
theorem Unmarshal_ok_iff (raw : Text) :
    (∃ pms, Unmarshal raw = Except.ok pms) ↔ hasPortsShape raw = true := by
  unfold Unmarshal hasPortsShape
  cases h : parseJSON raw with
  | none => simp
  | some v =>
    cases v with
    | arr xs => simpa [decodePorts] using decodeElems_ok_iff xs
    | _ => simp [decodePorts]

/-- The call of `json.Unmarshal` returns an empty slice exactly for the payloads
`null` and `[]`. -/
theorem Unmarshal_nil_iff (raw : Text) :
    Unmarshal raw = Except.ok [] ↔ isEmptyPayload raw = true := by
  unfold Unmarshal isEmptyPayload
  cases h : parseJSON raw with
  | none => simp
  | some v =>
    cases v with
    | arr xs =>
      cases xs with
      | nil => simp [decodePorts, decodeElems]
      | cons x rest =>
        simp only [decodePorts, decodeElems]
        cases decodeElem x with
        | error err => simp
        | ok pm =>
          cases decodeElems rest with
          | error err => simp
          | ok pms => simp
    | _ => simp [decodePorts]
/-- The text `deepPayload` makes `parseInstancePorts` exit: `json.Unmarshal`
returns a syntax error at the 10001st container. -/
theorem parseInstancePorts_deepPayload (key : Text) (n : Nat)
    (hk : key.all isPlainChar = true) :
    parseInstancePorts (deepPayload key n) =
      Except.error (Fatal.cannotUnmarshal UnmarshalError.invalidJSON) := by
  rw [parseInstancePorts_of_Unmarshal]
  unfold Unmarshal
  rw [parseJSON_deepPayload key n hk]

/-- C1, as stated, fails. Each payload below is a JSON text that denotes an
array whose first object has `external` = 5, and `parseInstancePorts` does not
return `(8080, 5)` on it. It exits when a later element holds a port that does
not fit 16 bits, when the first object holds a TLS proxy port that is not a
number, when `external` is written `5.0`, and when the text nests 10001 deep;
it returns `(8080, 6)` when a member `EXTERNAL` = 6 follows, and `(8080, 0)`
when the first element of the array is `null`. So the statement for every JSON
array whose first object has `external` = `e` does not hold. -/
theorem parseInstancePorts_external_unguarded :
    JsonText overflowTailPayload
      (JValue.arr
        [firstOfFive, JValue.obj [("external".toList, JValue.num (JNumber.nat 70000))]]) ∧
    parseInstancePorts overflowTailPayload =
      Except.error (Fatal.cannotUnmarshal UnmarshalError.typeMismatch) ∧
    JsonText badProxyPayload (JValue.arr [JValue.obj badProxyMembers]) ∧
    parseInstancePorts badProxyPayload =
      Except.error (Fatal.cannotUnmarshal UnmarshalError.typeMismatch) ∧
    JsonText fractionPayload (JValue.arr [JValue.obj fractionMembers]) ∧
    parseInstancePorts fractionPayload =
      Except.error (Fatal.cannotUnmarshal UnmarshalError.typeMismatch) ∧
    ValueText 10001 (deepPayload "external".toList 5)
      (JValue.arr [JValue.obj [("external".toList, JValue.num (JNumber.nat 5)),
        (['x'], nestedArrays 9998)]]) ∧
    parseInstancePorts (deepPayload "external".toList 5) =
      Except.error (Fatal.cannotUnmarshal UnmarshalError.invalidJSON) ∧
    JsonText upperCasePayload (JValue.arr [JValue.obj upperCaseMembers]) ∧
    parseInstancePorts upperCasePayload = Except.ok (8080, 6) ∧
    JsonText nullFirstPayload (JValue.arr [JValue.null, firstOfFive]) ∧
    parseInstancePorts nullFirstPayload = Except.ok (8080, 0) ∧
    ¬ (∀ (raw : Text) (kvs : List (Text × JValue)) (rest : List JValue) (e : Nat),
        JsonText raw (JValue.arr (JValue.obj kvs :: rest)) →
        HasField "external".toList kvs e → 0 < e → e ≤ 65535 →
        parseInstancePorts raw = Except.ok (8080, e)) := by
  refine ⟨overflowTailPayload_text, by decide, badProxyPayload_text, by decide,
    fractionPayload_text, by decide, deepPayload_text _ 5 (by decide),
    parseInstancePorts_deepPayload _ 5 (by decide), upperCasePayload_text, by decide,
    nullFirstPayload_text, by decide, fun h => ?_⟩
  have h5 := h overflowTailPayload [("external".toList, JValue.num (JNumber.nat 5))]
    [JValue.obj [("external".toList, JValue.num (JNumber.nat 70000))]] 5
    overflowTailPayload_text (by decide) (by decide) (by decide)
  revert h5
  decide

/-- C1, amended. Let the payload be a JSON text (one value with optional
whitespace around it, containers nested at most 10000 deep) that denotes an
array in which every element is `null` or an object whose members keyed
`external` or `external_tls_proxy` each carry `null` or a digits-only literal
in `0..65535`, and whose first element is an object with at least one member
keyed `external`, every member keyed `external` carrying the digits-only
literal `e`, `0 < e <= 65535`. Then `parseInstancePorts` returns `(8080, e)`.
A key counts as a name when it is equal to it, or equal after the case folding
of `encoding/json`. -/
theorem parseInstancePorts_external (raw : Text) (kvs : List (Text × JValue))
    (rest : List JValue) (e : Nat)
    (htext : JsonText raw (JValue.arr (JValue.obj kvs :: rest)))
    (hshape : (JValue.obj kvs :: rest).all isPortElem = true)
    (hext : HasField "external".toList kvs e) (hpos : 0 < e) (_hle : e ≤ 65535) :
    parseInstancePorts raw = Except.ok (8080, e) := by
  have hparse := parseJSON_of_jsonText raw _ htext
  obtain ⟨pm, pms, hpm, hU⟩ := Unmarshal_cons_obj raw kvs rest hparse hshape
  have hget := decodeObject_get Field.External e kvs _ pm hpm hext.2
  have hne : (membersNamed (fieldName Field.External) kvs).isEmpty = false := hext.1
  rw [hne] at hget
  have hE : pm.External = e := by simpa [PortMapping.get] using hget
  rw [parseInstancePorts_of_Unmarshal, hU]
  have : e ≠ 0 := by omega
  simp [hE, this]

/-- Witness for C1 amended: a payload written with whitespace between its
tokens. -/
theorem parseInstancePorts_external_witness :
    JsonText spacedPayload (JValue.arr [JValue.obj spacedMembers]) ∧
    parseInstancePorts spacedPayload = Except.ok (8080, 61045) :=
  ⟨spacedPayload_text,
    parseInstancePorts_external spacedPayload spacedMembers [] 61045 spacedPayload_text
      (by decide) (by decide) (by decide) (by decide)⟩

/-- C2, as stated, fails. An object with `external` = 0 and `externalTLSProxy`
= 61046 yields external port 0: the decoder reads the key
`external_tls_proxy`. With that key the statement still fails for some JSON
arrays whose first object has `external` zero or absent and
`external_tls_proxy` = 9: `parseInstancePorts` returns `(8080, 7)` when a
member `EXTERNAL` = 7 or `EXTERNAL_TLS_PROXY` = 7 follows, and exits when a
later element holds a port that does not fit 16 bits, when `external` is
written `0.0`, and when the text nests 10001 deep. -/
theorem parseInstancePorts_tls_proxy_unguarded :
    JsonText camelCasePayload (JValue.arr [JValue.obj camelCaseMembers]) ∧
    parseInstancePorts camelCasePayload = Except.ok (8080, 0) ∧
    ¬ (∀ (raw : Text) (kvs : List (Text × JValue)) (rest : List JValue) (p : Nat),
        JsonText raw (JValue.arr (JValue.obj kvs :: rest)) →
        ZeroOrAbsent "external".toList kvs →
        HasField "externalTLSProxy".toList kvs p → 0 < p → p ≤ 65535 →
        ∃ internal, parseInstancePorts raw = Except.ok (internal, p)) ∧
    JsonText shadowedZeroPayload (JValue.arr [JValue.obj shadowedZeroMembers]) ∧
    parseInstancePorts shadowedZeroPayload = Except.ok (8080, 7) ∧
    JsonText shadowedProxyPayload (JValue.arr [JValue.obj shadowedProxyMembers]) ∧
    parseInstancePorts shadowedProxyPayload = Except.ok (8080, 7) ∧
    JsonText proxyOverflowTailPayload
      (JValue.arr [JValue.obj proxyOfNineMembers,
        JValue.obj [("external".toList, JValue.num (JNumber.nat 70000))]]) ∧
    parseInstancePorts proxyOverflowTailPayload =
      Except.error (Fatal.cannotUnmarshal UnmarshalError.typeMismatch) ∧
    JsonText zeroFractionPayload (JValue.arr [JValue.obj zeroFractionMembers]) ∧
    parseInstancePorts zeroFractionPayload =
      Except.error (Fatal.cannotUnmarshal UnmarshalError.typeMismatch) ∧
    ValueText 10001 (deepPayload "external_tls_proxy".toList 9)
      (JValue.arr [JValue.obj [("external_tls_proxy".toList, JValue.num (JNumber.nat 9)),
        (['x'], nestedArrays 9998)]]) ∧
    parseInstancePorts (deepPayload "external_tls_proxy".toList 9) =
      Except.error (Fatal.cannotUnmarshal UnmarshalError.invalidJSON) := by
  refine ⟨camelCasePayload_text, by decide, fun h => ?_, shadowedZeroPayload_text, by decide,
    shadowedProxyPayload_text, by decide, proxyOverflowTailPayload_text, by decide,
    zeroFractionPayload_text, by decide, deepPayload_text _ 9 (by decide),
    parseInstancePorts_deepPayload _ 9 (by decide)⟩
  obtain ⟨i, hi⟩ := h camelCasePayload camelCaseMembers [] 61046 camelCasePayload_text
    (by decide) (by decide) (by decide) (by decide)
  have h0 : parseInstancePorts camelCasePayload = Except.ok (8080, 0) := by decide
  rw [h0] at hi
  have := Except.ok.inj hi
  simp at this

/-- C2, amended. Let the payload be a JSON text (one value with optional
whitespace around it, containers nested at most 10000 deep) that denotes an
array in which every element is `null` or an object whose members keyed
`external` or `external_tls_proxy` each carry `null` or a digits-only literal
in `0..65535`, and whose first element is an object in which every member keyed
`external` (there may be none) carries the literal `0`, with at least one
member keyed `external_tls_proxy`, every member keyed `external_tls_proxy`
carrying the digits-only literal `p`, `0 < p <= 65535`. Then
`parseInstancePorts` returns `(8080, p)`. A key counts as a name when it is
equal to it, or equal after the case folding of `encoding/json`. -/
theorem parseInstancePorts_tls_proxy_fallback (raw : Text) (kvs : List (Text × JValue))
    (rest : List JValue) (p : Nat)
    (htext : JsonText raw (JValue.arr (JValue.obj kvs :: rest)))
    (hshape : (JValue.obj kvs :: rest).all isPortElem = true)
    (hzero : ZeroOrAbsent "external".toList kvs)
    (htls : HasField "external_tls_proxy".toList kvs p) (_hpos : 0 < p) (_hle : p ≤ 65535) :
    parseInstancePorts raw = Except.ok (8080, p) := by
  have hparse := parseJSON_of_jsonText raw _ htext
  obtain ⟨pm, pms, hpm, hU⟩ := Unmarshal_cons_obj raw kvs rest hparse hshape
  have hget := decodeObject_get Field.External 0 kvs _ pm hpm hzero
  have hE : pm.External = 0 := by
    have : pm.get Field.External = 0 := by
      rw [hget]
      split <;> rfl
    simpa [PortMapping.get] using this
  have hget2 := decodeObject_get Field.ExternalTLSProxy p kvs _ pm hpm htls.2
  have hne : (membersNamed (fieldName Field.ExternalTLSProxy) kvs).isEmpty = false := htls.1
  rw [hne] at hget2
  have hT : pm.ExternalTLSProxy = p := by simpa [PortMapping.get] using hget2
  rw [parseInstancePorts_of_Unmarshal, hU]
  simp [hE, hT]

/-- Witness for C2 amended: a payload on several lines without an `external`
member. -/
theorem parseInstancePorts_tls_proxy_fallback_witness :
    JsonText proxyLinesPayload (JValue.arr [JValue.obj proxyLinesMembers]) ∧
    parseInstancePorts proxyLinesPayload = Except.ok (8080, 61046) :=
  ⟨proxyLinesPayload_text,
    parseInstancePorts_tls_proxy_fallback proxyLinesPayload proxyLinesMembers [] 61046
      proxyLinesPayload_text (by decide) (by decide) (by decide) (by decide) (by decide)⟩

/-- C3. `parseInstancePorts` exits exactly when `json.Unmarshal` returns an
error or an empty slice, and returns a port pair (with internal port 8080)
for every other payload; `json.Unmarshal` returns an error exactly for the
payloads that do not have the expected shape, and an empty slice exactly for
the payloads `null` and `[]`. -/
theorem parseInstancePorts_fatal_iff (raw : Text) :
    ((∃ f, parseInstancePorts raw = Except.error f) ↔
      ((∃ err, Unmarshal raw = Except.error err) ∨ Unmarshal raw = Except.ok [])) ∧
    ((∃ ext, parseInstancePorts raw = Except.ok (8080, ext)) ↔
      ¬ ((∃ err, Unmarshal raw = Except.error err) ∨ Unmarshal raw = Except.ok [])) ∧
    ((∃ err, Unmarshal raw = Except.error err) ↔ hasPortsShape raw = false) ∧
    (Unmarshal raw = Except.ok [] ↔ isEmptyPayload raw = true) := by
  refine ⟨?_, ?_, ?_, Unmarshal_nil_iff raw⟩
  · rw [parseInstancePorts_of_Unmarshal]
    cases h : Unmarshal raw with
    | error err => simp
    | ok ports => cases ports <;> simp
  · rw [parseInstancePorts_of_Unmarshal]
    cases h : Unmarshal raw with
    | error err => simp
    | ok ports => cases ports <;> simp
  · have hs := Unmarshal_ok_iff raw
    cases h : Unmarshal raw with
    | error err =>
      rw [h] at hs
      simp at hs
      simp [hs]
    | ok ports =>
      rw [h] at hs
      simp at hs
      simp [hs]

/-- C6, as stated, fails: two non-empty arrays with the same first element,
one of which has a second element that does not decode, have different
outcomes. -/
theorem parseInstancePorts_depends_on_tail :
    parseJSON singlePayload = some (JValue.arr [firstOfFive]) ∧
    parseJSON overflowTailPayload =
      some (JValue.arr
        [firstOfFive, JValue.obj [("external".toList, JValue.num (JNumber.nat 70000))]]) ∧
    parseInstancePorts singlePayload = Except.ok (8080, 5) ∧
    parseInstancePorts overflowTailPayload =
      Except.error (Fatal.cannotUnmarshal UnmarshalError.typeMismatch) ∧
    ¬ (∀ (raw1 raw2 : Text) (first : JValue) (rest1 rest2 : List JValue),
        parseJSON raw1 = some (JValue.arr (first :: rest1)) →
        parseJSON raw2 = some (JValue.arr (first :: rest2)) →
        parseInstancePorts raw1 = parseInstancePorts raw2) := by
  refine ⟨rfl, rfl, by decide, by decide, fun h => ?_⟩
  have := h singlePayload overflowTailPayload firstOfFive [] _ rfl rfl
  revert this
  decide

/-- C6, amended. Two payloads that parse as non-empty arrays with equal first
elements, and whose remaining elements are all port-mapping elements, have the
same outcome of `parseInstancePorts`. -/
theorem parseInstancePorts_first_element_only (raw1 raw2 : Text) (first : JValue)
    (rest1 rest2 : List JValue)
    (h1 : parseJSON raw1 = some (JValue.arr (first :: rest1)))
    (h2 : parseJSON raw2 = some (JValue.arr (first :: rest2)))
    (hrest1 : rest1.all isPortElem = true) (hrest2 : rest2.all isPortElem = true) :
    parseInstancePorts raw1 = parseInstancePorts raw2 := by
  obtain ⟨l1, hl1⟩ := (decodeElems_ok_iff rest1).mpr hrest1
  obtain ⟨l2, hl2⟩ := (decodeElems_ok_iff rest2).mpr hrest2
  rw [parseInstancePorts_of_Unmarshal, parseInstancePorts_of_Unmarshal]
  cases hf : decodeElem first with
  | error err => simp [Unmarshal, h1, h2, decodePorts, decodeElems, hf]
  | ok pm => simp [Unmarshal, h1, h2, decodePorts, decodeElems, hf, hl1, hl2]

/-- Witness for C6 amended: a one-element and a two-element payload. -/
theorem parseInstancePorts_first_element_only_witness :
    parseInstancePorts singlePayload = parseInstancePorts twoElementPayload :=
  parseInstancePorts_first_element_only singlePayload twoElementPayload firstOfFive []
    [JValue.obj [("external".toList, JValue.num (JNumber.nat 6))]] rfl rfl (by decide) (by decide)

/-! ## Address resolution: lemmas -/

theorem digitChar_isDigit (m : Nat) (h : m < 10) : (Nat.digitChar m).isDigit = true := by
  interval_cases m <;> decide

theorem toDigitsCore_all_isDigit (fuel n : Nat) (ds : List Char)
    (hds : ds.all Char.isDigit = true) :
    (Nat.toDigitsCore 10 fuel n ds).all Char.isDigit = true := by
  induction fuel generalizing n ds with
  | zero => simpa [Nat.toDigitsCore] using hds
  | succ fuel ih =>
    have hd : (Nat.digitChar (n % 10)).isDigit = true :=
      digitChar_isDigit (n % 10) (Nat.mod_lt n (by decide))
    have hcons : (Nat.digitChar (n % 10) :: ds).all Char.isDigit = true := by
      rw [List.all_cons, hd, hds]
      rfl
    simp only [Nat.toDigitsCore]
    split
    · exact hcons
    · exact ih (n / 10) _ hcons

theorem toDigitsCore_ne_nil (fuel n : Nat) (ds : List Char) (hds : ds ≠ []) :
    Nat.toDigitsCore 10 fuel n ds ≠ [] := by
  induction fuel generalizing n ds with
  | zero => simpa [Nat.toDigitsCore] using hds
  | succ fuel ih =>
    simp only [Nat.toDigitsCore]
    split
    · exact List.cons_ne_nil _ _
    · exact ih (n / 10) _ (List.cons_ne_nil _ _)

/-- The decimal form of a port is a non-empty run of digits. -/
theorem toDigits_digits (n : Nat) :
    (Nat.toDigits 10 n).all Char.isDigit = true ∧ (Nat.toDigits 10 n).isEmpty = false := by
  constructor
  · exact toDigitsCore_all_isDigit (n + 1) n [] rfl
  · have h : Nat.toDigits 10 n ≠ [] := by
      unfold Nat.toDigits
      simp only [Nat.toDigitsCore]
      split
      · exact List.cons_ne_nil _ _
      · exact toDigitsCore_ne_nil _ _ _ (List.cons_ne_nil _ _)
    cases hx : Nat.toDigits 10 n with
    | nil => exact absurd hx h
    | cons c cs => rfl

/-- An address built from a non-empty host without whitespace matches
`^\S+:\d+$`. -/
theorem matchesAddress_formatAddress (host : Text) (port : Nat)
    (hne : host.isEmpty = false) (hns : host.all (fun c => !isRegexSpace c) = true) :
    matchesAddress (formatAddress host port) = true := by
  unfold matchesAddress
  rw [List.any_eq_true]
  refine ⟨host.length, ?_, ?_⟩
  · simp [formatAddress]
    omega
  · have hd := toDigits_digits port
    unfold matchesAddressAt formatAddress
    have ht : (host ++ [':'] ++ Nat.toDigits 10 port).take host.length = host := by
      simp [List.take_append_eq_append_take]
    have hdr : (host ++ [':'] ++ Nat.toDigits 10 port).drop host.length =
        ':' :: Nat.toDigits 10 port := by
      simp [List.drop_append_eq_append_drop]
    rw [ht, hdr]
    simp [hne, hns, hd.1, hd.2]

/-- The internal port `parseInstancePorts` returns is 8080. -/
theorem parseInstancePorts_internal (raw : Text) (internalPort externalPort : Nat)
    (h : parseInstancePorts raw = Except.ok (internalPort, externalPort)) :
    internalPort = 8080 := by
  rw [parseInstancePorts_of_Unmarshal] at h
  cases hu : Unmarshal raw with
  | error err => simp [hu] at h
  | ok ports =>
    cases ports with
    | nil => simp [hu] at h
    | cons pm pms =>
      simp [hu] at h
      exact h.1.symm

/-- A successful poll returns a non-nil slice and appends one external and one
internal address. -/
theorem pollInstance_ok (text : Text) (addresses addresses1 : List Text)
    (actual : Option (List Text))
    (h : pollInstance text addresses = Except.ok (actual, addresses1)) :
    ∃ ext int, ResolvesTo text ext int ∧ actual = some [ext, int] ∧
      addresses1 = addresses ++ [ext, int] := by
  unfold pollInstance at h
  cases h1 : FindSubmatch "CF_INSTANCE_INTERNAL_IP".toList text with
  | none =>
    rw [h1] at h
    cases h
  | some internalIP =>
    cases h2 : FindSubmatch "CF_INSTANCE_IP".toList text with
    | none =>
      rw [h1, h2] at h
      cases h
    | some externalIP =>
      cases h3 : FindSubmatch "CF_INSTANCE_PORTS".toList text with
      | none =>
        rw [h1, h2, h3] at h
        cases h
      | some ports =>
        cases h4 : parseInstancePorts ports with
        | error f =>
          rw [h1, h2, h3] at h
          simp only [h4] at h
          cases h
        | ok pair =>
          obtain ⟨internalPort, externalPort⟩ := pair
          have hi := parseInstancePorts_internal ports internalPort externalPort h4
          subst hi
          rw [h1, h2, h3] at h
          simp only [h4] at h
          have h5 := Except.ok.inj h
          refine ⟨formatAddress externalIP externalPort, formatAddress internalIP 8080,
            ⟨internalIP, externalIP, ports, externalPort, h1, h2, h3, h4, rfl, rfl⟩, ?_, ?_⟩
          · exact (congrArg Prod.fst h5).symm
          · have h6 := (congrArg Prod.snd h5).symm
            simpa using h6

/-- The polled function is called once per instance: its first answer decides
the `Eventually`. -/
theorem Eventually_pollInstance (retries : Nat) (envi : Nat → Text)
    (addresses addresses1 : List Text)
    (h : Eventually retries notBeNil (fun attempt st => pollInstance (envi attempt) st)
      addresses = Except.ok addresses1) :
    ∃ ext int, ResolvesTo (envi 0) ext int ∧ addresses1 = addresses ++ [ext, int] := by
  unfold Eventually at h
  simp only [eventuallyLoop] at h
  cases hp : pollInstance (envi 0) addresses with
  | error e => simp [hp] at h
  | ok r =>
    obtain ⟨actual, st1⟩ := r
    obtain ⟨ext, int, hres, hact, hst⟩ := pollInstance_ok _ _ _ _ hp
    subst hact
    simp [hp, notBeNil] at h
    exact ⟨ext, int, hres, by rw [← h, hst]⟩

/-- The slice a successful `getSyslogDrainAddresses` returns. -/
theorem getSyslogDrainAddresses_eq (retries : Nat) (env : Nat → Nat → Text)
    (addresses : List Text) (h : getSyslogDrainAddresses retries env = Except.ok addresses) :
    ∃ ext0 int0 ext1 int1, ResolvesTo (env 0 0) ext0 int0 ∧ ResolvesTo (env 1 0) ext1 int1 ∧
      addresses = [ext0, int0, ext1, int1] := by
  unfold getSyslogDrainAddresses numberOfListenerApps at h
  simp only [resolveInstances] at h
  cases h0 : Eventually retries notBeNil (fun attempt st => pollInstance (env 0 attempt) st) []
    with
  | error e => simp [h0] at h
  | ok a0 =>
    obtain ⟨ext0, int0, hr0, ha0⟩ := Eventually_pollInstance retries (env 0) [] a0 h0
    simp only [h0] at h
    cases h1 : Eventually retries notBeNil
      (fun attempt st => pollInstance (env (0 + 1) attempt) st) a0 with
    | error e => simp [h1] at h
    | ok a1 =>
      obtain ⟨ext1, int1, hr1, ha1⟩ := Eventually_pollInstance retries (env (0 + 1)) a0 a1 h1
      simp only [h1] at h
      have : a1 = addresses := Except.ok.inj h
      subst this
      exact ⟨ext0, int0, ext1, int1, hr0, hr1, by simp [ha1, ha0]⟩

/-! ## Address resolution: results -/

/-- C4. On success `getSyslogDrainAddresses` returns `2 * numberOfListenerApps`
addresses; for every instance `i`, element `2 * i` is the `CF_INSTANCE_IP` of
the instance with the external port parsed from its `CF_INSTANCE_PORTS`, and
element `2 * i + 1` is its `CF_INSTANCE_INTERNAL_IP` with port 8080, all read
from the first poll of the instance. -/
theorem getSyslogDrainAddresses_layout (retries : Nat) (env : Nat → Nat → Text)
    (addresses : List Text) (h : getSyslogDrainAddresses retries env = Except.ok addresses) :
    addresses.length = 2 * numberOfListenerApps ∧
    ∀ i, i < numberOfListenerApps →
      ∃ internalIP externalIP ports externalPort,
        FindSubmatch "CF_INSTANCE_INTERNAL_IP".toList (env i 0) = some internalIP ∧
        FindSubmatch "CF_INSTANCE_IP".toList (env i 0) = some externalIP ∧
        FindSubmatch "CF_INSTANCE_PORTS".toList (env i 0) = some ports ∧
        parseInstancePorts ports = Except.ok (8080, externalPort) ∧
        addresses.get? (2 * i) = some (externalIP ++ [':'] ++ Nat.toDigits 10 externalPort) ∧
        addresses.get? (2 * i + 1) = some (internalIP ++ ":8080".toList) := by
  obtain ⟨ext0, int0, ext1, int1, hr0, hr1, hl⟩ := getSyslogDrainAddresses_eq retries env _ h
  subst hl
  refine ⟨rfl, fun i hi => ?_⟩
  have h8080 : ∀ host : Text, formatAddress host 8080 = host ++ ":8080".toList := by
    intro host
    simp [formatAddress]
    rfl
  unfold numberOfListenerApps at hi
  interval_cases i
  · obtain ⟨iip, eip, ports, ep, f1, f2, f3, f4, f5, f6⟩ := hr0
    exact ⟨iip, eip, ports, ep, f1, f2, f3, f4, by simp [f5, formatAddress],
      by simp [f6, h8080]⟩
  · obtain ⟨iip, eip, ports, ep, f1, f2, f3, f4, f5, f6⟩ := hr1
    exact ⟨iip, eip, ports, ep, f1, f2, f3, f4, by simp [f5, formatAddress],
      by simp [f6, h8080]⟩

/-- Witness for C4: two well-formed instances resolve to four addresses. -/
theorem getSyslogDrainAddresses_layout_witness :
    getSyslogDrainAddresses 3 sampleEnv = Except.ok sampleAddresses ∧
    sampleAddresses.length = 2 * numberOfListenerApps :=
  ⟨by decide, (getSyslogDrainAddresses_layout 3 sampleEnv sampleAddresses (by decide)).1⟩

/-- C7, as stated, fails: with `CF_INSTANCE_IP` set to the empty text every
variable is found and the ports parse, yet the external addresses have an
empty host and do not match `^\S+:\d+$`. -/
theorem getSyslogDrainAddresses_empty_host :
    getSyslogDrainAddresses 3 emptyHostEnv = Except.ok emptyHostAddresses ∧
    FindSubmatch "CF_INSTANCE_IP".toList (emptyHostEnv 0 0) = some [] ∧
    matchesAddress ":61045".toList = false ∧
    ¬ (∀ (retries : Nat) (env : Nat → Nat → Text) (addresses : List Text),
        getSyslogDrainAddresses retries env = Except.ok addresses →
        ∀ a, a ∈ addresses → matchesAddress a = true) := by
  refine ⟨by decide, by decide, by decide, fun h => ?_⟩
  have := h 3 emptyHostEnv emptyHostAddresses (by decide) ":61045".toList (by decide)
  revert this
  decide

/-- C7, amended. When resolution succeeds and the captured values of
`CF_INSTANCE_IP` and `CF_INSTANCE_INTERNAL_IP` of every instance are non-empty
and free of whitespace, every returned address matches `^\S+:\d+$`. -/
theorem getSyslogDrainAddresses_match (retries : Nat) (env : Nat → Nat → Text)
    (addresses : List Text) (h : getSyslogDrainAddresses retries env = Except.ok addresses)
    (hhosts : ∀ i, i < numberOfListenerApps → ∀ (key host : Text),
      key = "CF_INSTANCE_IP".toList ∨ key = "CF_INSTANCE_INTERNAL_IP".toList →
      FindSubmatch key (env i 0) = some host →
      host.isEmpty = false ∧ host.all (fun c => !isRegexSpace c) = true) :
    ∀ a, a ∈ addresses → matchesAddress a = true := by
  obtain ⟨ext0, int0, ext1, int1, hr0, hr1, hl⟩ := getSyslogDrainAddresses_eq retries env _ h
  subst hl
  obtain ⟨iip0, eip0, ports0, ep0, f1, f2, _, _, f5, f6⟩ := hr0
  obtain ⟨iip1, eip1, ports1, ep1, g1, g2, _, _, g5, g6⟩ := hr1
  have a0 := hhosts 0 (by decide) _ _ (Or.inl rfl) f2
  have b0 := hhosts 0 (by decide) _ _ (Or.inr rfl) f1
  have a1 := hhosts 1 (by decide) _ _ (Or.inl rfl) g2
  have b1 := hhosts 1 (by decide) _ _ (Or.inr rfl) g1
  intro a ha
  simp only [List.mem_cons, List.mem_singleton, List.not_mem_nil, or_false] at ha
  rcases ha with ha | ha | ha | ha
  · rw [ha, f5]
    exact matchesAddress_formatAddress _ _ a0.1 a0.2
  · rw [ha, f6]
    exact matchesAddress_formatAddress _ _ b0.1 b0.2
  · rw [ha, g5]
    exact matchesAddress_formatAddress _ _ a1.1 a1.2
  · rw [ha, g6]
    exact matchesAddress_formatAddress _ _ b1.1 b1.2

/-- The hosts captured from `sampleEnv` are non-empty and free of whitespace. -/
theorem sampleEnv_hosts (i : Nat) (hi : i < numberOfListenerApps) (key host : Text)
    (hkey : key = "CF_INSTANCE_IP".toList ∨ key = "CF_INSTANCE_INTERNAL_IP".toList)
    (hfind : FindSubmatch key (sampleEnv i 0) = some host) :
    host.isEmpty = false ∧ host.all (fun c => !isRegexSpace c) = true := by
  unfold numberOfListenerApps at hi
  interval_cases i
  · rcases hkey with rfl | rfl
    · have h : FindSubmatch "CF_INSTANCE_IP".toList (sampleEnv 0 0) = some "10.0.1.5".toList := by
        decide
      rw [h] at hfind
      cases hfind
      decide
    · have h : FindSubmatch "CF_INSTANCE_INTERNAL_IP".toList (sampleEnv 0 0) =
          some "10.255.0.1".toList := by decide
      rw [h] at hfind
      cases hfind
      decide
  · rcases hkey with rfl | rfl
    · have h : FindSubmatch "CF_INSTANCE_IP".toList (sampleEnv 1 0) = some "10.0.1.6".toList := by
        decide
      rw [h] at hfind
      cases hfind
      decide
    · have h : FindSubmatch "CF_INSTANCE_INTERNAL_IP".toList (sampleEnv 1 0) =
          some "10.255.0.2".toList := by decide
      rw [h] at hfind
      cases hfind
      decide

/-- Witness for C7 amended: the addresses of two well-formed instances. -/
theorem getSyslogDrainAddresses_match_witness :
    getSyslogDrainAddresses 3 sampleEnv = Except.ok sampleAddresses ∧
    ∀ a, a ∈ sampleAddresses → matchesAddress a = true :=
  ⟨by decide,
    getSyslogDrainAddresses_match 3 sampleEnv sampleAddresses (by decide) sampleEnv_hosts⟩

/-! ## Drain registration -/

theorem schemeOf_syslogDrainURL (cfg : Config) (address : Text) :
    schemeOf (syslogDrainURL cfg address) =
      if cfg.RequireProxiedAppTraffic then "syslog-tls".toList else "syslog".toList := by
  unfold schemeOf syslogDrainURL
  cases cfg.RequireProxiedAppTraffic <;> simp [List.takeWhile]

theorem schemeOf_tcpRoutingDrainURL (domainName externalPort : Text) :
    schemeOf (tcpRoutingDrainURL domainName externalPort) = "syslog".toList := by
  unfold schemeOf tcpRoutingDrainURL
  simp [List.takeWhile]

/-- The `cups` command keeps the name and the URL it is given. -/
theorem createService_eq (cfg : Config) (name url : Text) :
    ∃ creds, createService cfg name url = CfCommand.cups name url creds := by
  unfold createService
  dsimp only
  split
  · exact ⟨_, rfl⟩
  · exact ⟨_, rfl⟩

/-- The URLs registered by the IP based loop are the drain URLs of the
addresses, in order. -/
theorem drainURLs_registerDrains (cfg : Config) (names : List Text) (writer : Text)
    (i : Nat) (addresses : List Text) (cmds : List CfCommand)
    (h : registerDrains cfg names writer i addresses = Except.ok cmds) :
    drainURLs cmds = addresses.map (syslogDrainURL cfg) := by
  induction addresses generalizing i cmds with
  | nil =>
    simp only [registerDrains] at h
    cases h
    rfl
  | cons a rest ih =>
    simp only [registerDrains] at h
    cases hn : names.get? i with
    | none =>
      rw [hn] at h
      cases h
    | some name =>
      rw [hn] at h
      cases hr : registerDrains cfg names writer (i + 1) rest with
      | error e =>
        rw [hr] at h
        cases h
      | ok tail =>
        rw [hr] at h
        have h1 := Except.ok.inj h
        subst h1
        have := ih (i + 1) tail hr
        obtain ⟨creds, hc⟩ := createService_eq cfg name (syslogDrainURL cfg a)
        rw [hc]
        simp [drainURLs, this]

/-- C5, as stated, fails: with proxied traffic required, the tcp-routing based
scenario registers a drain URL of scheme `syslog`. -/
theorem tcpRoutingScenario_scheme_not_tls :
    proxiedTCPConfig.RequireProxiedAppTraffic = true ∧
    tcpRoutingScenario proxiedTCPConfig "SVIN1".toList "tcp.example.com".toList "1025".toList
        "WRITER1".toList =
      some [CfCommand.cups "SVIN1".toList "syslog://tcp.example.com:1025".toList none,
        CfCommand.bindService "WRITER1".toList "SVIN1".toList] ∧
    schemeOf "syslog://tcp.example.com:1025".toList = "syslog".toList ∧
    schemeOf "syslog://tcp.example.com:1025".toList ≠ "syslog-tls".toList := by
  refine ⟨rfl, by decide, by decide, by decide⟩

/-- C5, amended. In the IP based scenario every registered drain URL has scheme
`syslog-tls` if and only if proxied app traffic is required, and `syslog`
otherwise; in the tcp-routing based scenario every registered drain URL has
scheme `syslog`, whatever the setting. -/
theorem drain_scheme_by_scenario (cfg : Config) (CATSRandomName : Text → Text)
    (logWriterAppName1 : Text) (retries : Nat) (env : Nat → Nat → Text)
    (serviceName domainName externalPort : Text) :
    (∀ cmds, ipScenario cfg CATSRandomName logWriterAppName1 retries env =
        some (Except.ok cmds) →
      ∀ url, url ∈ drainURLs cmds →
        (schemeOf url = "syslog-tls".toList ↔ cfg.RequireProxiedAppTraffic = true) ∧
        (schemeOf url = "syslog".toList ↔ cfg.RequireProxiedAppTraffic = false)) ∧
    (∀ cmds, tcpRoutingScenario cfg serviceName domainName externalPort logWriterAppName1 =
        some cmds →
      ∀ url, url ∈ drainURLs cmds → schemeOf url = "syslog".toList) := by
  constructor
  · intro cmds h url hurl
    unfold ipScenario at h
    cases ht : cfg.IncludeTCPRouting with
    | true => simp [ht] at h
    | false =>
      simp only [ht] at h
      cases ha : getSyslogDrainAddresses retries env with
      | error e =>
        rw [ha] at h
        simp at h
      | ok addresses =>
        rw [ha] at h
        simp only [Bool.false_eq_true, if_false, Option.some.injEq] at h
        rw [drainURLs_registerDrains _ _ _ _ _ _ h, List.mem_map] at hurl
        obtain ⟨a, _, rfl⟩ := hurl
        rw [schemeOf_syslogDrainURL]
        cases cfg.RequireProxiedAppTraffic <;> simp
  · intro cmds h url hurl
    unfold tcpRoutingScenario at h
    cases ht : cfg.IncludeTCPRouting with
    | false => simp [ht] at h
    | true =>
      simp only [ht] at h
      simp at h
      subst h
      simp only [drainURLs, List.mem_singleton] at hurl
      rw [hurl]
      exact schemeOf_tcpRoutingDrainURL _ _

/-- C10. When address resolution succeeds, the addresses are no more than the
service names, the loop of the IP based scenario never indexes `serviceNames`
out of range, the service created for the `i`-th address is `serviceNames[i]`
(so the services created are the four service names, each used once), and
the bound services are the four service names, each bound to the first log
writer. -/
theorem serviceNames_index_in_bounds (cfg : Config) (CATSRandomName : Text → Text)
    (logWriterAppName1 : Text) (retries : Nat) (env : Nat → Nat → Text)
    (addresses : List Text) (h : getSyslogDrainAddresses retries env = Except.ok addresses) :
    addresses.length = 2 * numberOfListenerApps ∧
    addresses.length ≤ (serviceNames CATSRandomName).length ∧
    (∀ i, i < addresses.length → ((serviceNames CATSRandomName).get? i).isSome = true) ∧
    ∃ cmds, registerDrains cfg (serviceNames CATSRandomName) logWriterAppName1 0 addresses =
        Except.ok cmds ∧
      createdServices cmds =
        List.zip (serviceNames CATSRandomName) (addresses.map (syslogDrainURL cfg)) ∧
      (createdServices cmds).map Prod.fst = serviceNames CATSRandomName ∧
      bindings cmds = (serviceNames CATSRandomName).map (fun name => (logWriterAppName1, name)) := by
  obtain ⟨ext0, int0, ext1, int1, _, _, hl⟩ := getSyslogDrainAddresses_eq retries env _ h
  subst hl
  refine ⟨rfl, by simp [serviceNames], ?_, ?_⟩
  · intro i hi
    simp only [List.length_cons, List.length_nil] at hi
    interval_cases i <;> rfl
  · have hc := createService_eq cfg
    obtain ⟨c0, h0⟩ := hc (CATSRandomName "SVIN1".toList) (syslogDrainURL cfg ext0)
    obtain ⟨c1, h1⟩ := hc (CATSRandomName "SVIN-INT1".toList) (syslogDrainURL cfg int0)
    obtain ⟨c2, h2⟩ := hc (CATSRandomName "SVIN2".toList) (syslogDrainURL cfg ext1)
    obtain ⟨c3, h3⟩ := hc (CATSRandomName "SVIN-INT2".toList) (syslogDrainURL cfg int1)
    refine ⟨[CfCommand.cups (CATSRandomName "SVIN1".toList) (syslogDrainURL cfg ext0) c0,
        CfCommand.bindService logWriterAppName1 (CATSRandomName "SVIN1".toList),
        CfCommand.cups (CATSRandomName "SVIN-INT1".toList) (syslogDrainURL cfg int0) c1,
        CfCommand.bindService logWriterAppName1 (CATSRandomName "SVIN-INT1".toList),
        CfCommand.cups (CATSRandomName "SVIN2".toList) (syslogDrainURL cfg ext1) c2,
        CfCommand.bindService logWriterAppName1 (CATSRandomName "SVIN2".toList),
        CfCommand.cups (CATSRandomName "SVIN-INT2".toList) (syslogDrainURL cfg int1) c3,
        CfCommand.bindService logWriterAppName1 (CATSRandomName "SVIN-INT2".toList)],
        ?_, ?_, ?_, ?_⟩
    · simp only [registerDrains, serviceNames, List.get?, h0, h1, h2, h3]
    · rfl
    · rfl
    · rfl

/-- Witness for C10: two well-formed instances. -/
theorem serviceNames_index_in_bounds_witness :
    getSyslogDrainAddresses 3 sampleEnv = Except.ok sampleAddresses ∧
    sampleAddresses.length ≤ (serviceNames sampleRandomName).length :=
  ⟨by decide, (serviceNames_index_in_bounds plainIPConfig sampleRandomName "WRITER1".toList 3
    sampleEnv sampleAddresses (by decide)).2.1⟩

/-! ## Log emission -/

/-- One iteration: with the signal set the function returns and issues no
event; with the signal not set it issues one request and sleeps 3 seconds. -/
theorem writeLogsIteration_cases (cfg : Config) (interrupt : Chan)
    (randomMessage logWriterAppName : Text) :
    (interrupt.closed = true →
      writeLogsIteration cfg interrupt randomMessage logWriterAppName = none) ∧
    (interrupt.closed = false ∧ interrupt.buffered = 0 →
      writeLogsIteration cfg interrupt randomMessage logWriterAppName =
        some (iterationEvents cfg randomMessage logWriterAppName)) := by
  constructor
  · intro h
    unfold writeLogsIteration Chan.tryReceive
    by_cases hb : 0 < interrupt.buffered <;> simp [hb, h]
  · intro h
    unfold writeLogsIteration Chan.tryReceive
    simp [h.1, h.2, iterationEvents]

/-- The worker from iteration `k` on, when the signal is first set at iteration
`k + n`. -/
theorem writeLogsUntilInterrupted_from (cfg : Config) (interrupt : Nat → Chan)
    (randomMessage logWriterAppName : Text) (n : Nat) :
    ∀ (fuel k : Nat),
      (∀ j, j < n → (interrupt (k + j)).closed = false ∧ (interrupt (k + j)).buffered = 0) →
      (interrupt (k + n)).closed = true → n < fuel →
      writeLogsUntilInterrupted cfg interrupt randomMessage logWriterAppName fuel k =
        (repeatedEvents n (iterationEvents cfg randomMessage logWriterAppName), true) := by
  induction n with
  | zero =>
    intro fuel k _ hset hfuel
    obtain ⟨f, rfl⟩ : ∃ f, fuel = f + 1 := ⟨fuel - 1, by omega⟩
    have := (writeLogsIteration_cases cfg (interrupt k) randomMessage logWriterAppName).1
      (by simpa using hset)
    simp [writeLogsUntilInterrupted, this, repeatedEvents]
  | succ n ih =>
    intro fuel k hopen hset hfuel
    obtain ⟨f, rfl⟩ : ∃ f, fuel = f + 1 := ⟨fuel - 1, by omega⟩
    have h0 := (writeLogsIteration_cases cfg (interrupt k) randomMessage logWriterAppName).2
      (by simpa using hopen 0 (by omega))
    have hrec := ih f (k + 1)
      (fun j hj => by
        have := hopen (j + 1) (by omega)
        rwa [show k + 1 + j = k + (j + 1) by omega])
      (by rwa [show k + 1 + n = k + (n + 1) by omega]) (by omega)
    simp [writeLogsUntilInterrupted, h0, hrec, repeatedEvents]

/-- C8. Every iteration of `writeLogsUntilInterrupted` first checks the signal:
when the signal is not set at the first `n` iterations and set when iteration
`n` begins, the worker issues, `n` times, one request for `/log/` followed by
the tag against its own producer and then a sleep of 3 seconds, and returns at
iteration `n` without a request; with `n = 0` it issues nothing. -/
theorem writeLogsUntilInterrupted_trace (cfg : Config) (interrupt : Nat → Chan)
    (randomMessage logWriterAppName : Text) (n fuel : Nat)
    (hopen : ∀ j, j < n → (interrupt j).closed = false ∧ (interrupt j).buffered = 0)
    (hset : (interrupt n).closed = true) (hfuel : n < fuel) :
    writeLogsUntilInterrupted cfg interrupt randomMessage logWriterAppName fuel 0 =
      (repeatedEvents n
        [Event.curl logWriterAppName ("/log/".toList ++ randomMessage)
          cfg.DefaultTimeoutDuration, Event.sleep 3], true) ∧
    writeLogsIteration cfg (interrupt n) randomMessage logWriterAppName = none ∧
    (∀ j, j < n → writeLogsIteration cfg (interrupt j) randomMessage logWriterAppName =
      some [Event.curl logWriterAppName ("/log/".toList ++ randomMessage)
        cfg.DefaultTimeoutDuration, Event.sleep 3]) ∧
    (n = 0 → writeLogsUntilInterrupted cfg interrupt randomMessage logWriterAppName fuel 0 =
      ([], true)) := by
  have hmain := writeLogsUntilInterrupted_from cfg interrupt randomMessage logWriterAppName n
    fuel 0 (by simpa using hopen) (by simpa using hset) hfuel
  refine ⟨hmain, ?_, ?_, ?_⟩
  · exact (writeLogsIteration_cases cfg (interrupt n) randomMessage logWriterAppName).1 hset
  · intro j hj
    exact (writeLogsIteration_cases cfg (interrupt j) randomMessage logWriterAppName).2
      (hopen j hj)
  · intro h0
    subst h0
    rw [hmain]
    rfl

/-- Witness for C8: the signal is set when the third iteration begins. -/
theorem writeLogsUntilInterrupted_trace_witness :
    writeLogsUntilInterrupted plainIPConfig closedFromThird "TAG-A".toList "WRITER1".toList 5 0 =
      ([Event.curl "WRITER1".toList "/log/TAG-A".toList 30, Event.sleep 3,
        Event.curl "WRITER1".toList "/log/TAG-A".toList 30, Event.sleep 3], true) :=
  (writeLogsUntilInterrupted_trace plainIPConfig closedFromThird "TAG-A".toList
    "WRITER1".toList 2 5 (by decide) (by decide) (by decide)).1

/-- While the signal stays unset the worker keeps issuing requests and does not
return. -/
theorem writeLogsUntilInterrupted_running (cfg : Config) (interrupt : Nat → Chan)
    (randomMessage logWriterAppName : Text) (fuel : Nat) :
    ∀ k, (∀ j, (interrupt j).closed = false ∧ (interrupt j).buffered = 0) →
      writeLogsUntilInterrupted cfg interrupt randomMessage logWriterAppName fuel k =
        (repeatedEvents fuel (iterationEvents cfg randomMessage logWriterAppName), false) := by
  induction fuel with
  | zero =>
    intro k _
    rfl
  | succ f ih =>
    intro k hopen
    have h0 := (writeLogsIteration_cases cfg (interrupt k) randomMessage logWriterAppName).2
      (hopen k)
    simp [writeLogsUntilInterrupted, h0, ih (k + 1) hopen, repeatedEvents]


/-! ## The cancel signal -/

/-- The body of an `AfterEach` on variables whose channel is open and whose
`logs` is set: it completes and leaves the channel closed. -/
theorem tearDown_open (vars : SuiteVars) (c : Chan) (session : LogSession)
    (hi : vars.interrupt = some c) (hc : c.closed = false) (hl : vars.logs = some session) :
    tearDown vars =
      HookResult.completed
        { vars with logs := some LogSession.killed, interrupt := some { c with closed := true } }
        (cleanUp vars) := by
  simp [tearDown, killLogs, closeInterrupt, Chan.close, hi, hc, hl]

/-- The body of an `AfterEach` on variables whose channel is closed and whose
`logs` is set: the close panics. -/
theorem tearDown_closed (vars : SuiteVars) (c : Chan) (session : LogSession)
    (hi : vars.interrupt = some c) (hc : c.closed = true) (hl : vars.logs = some session) :
    tearDown vars = HookResult.panicked (Panic.failure Failure.closeOfClosedChannel) := by
  simp [tearDown, killLogs, closeInterrupt, Chan.close, hi, hc, hl]

theorem ipAfterEach_eq (cfg : Config) (vars : SuiteVars) (h : cfg.IncludeTCPRouting = false) :
    ipAfterEach cfg vars = tearDown vars := by
  simp [ipAfterEach, h]

theorem tcpRoutingAfterEach_eq (cfg : Config) (vars : SuiteVars)
    (h : cfg.IncludeTCPRouting = true) : tcpRoutingAfterEach cfg vars = tearDown vars := by
  simp [tcpRoutingAfterEach, h]

/-- C9, as stated, fails. The cancel operation of the scenarios is the
statement `close(interrupt)` of `AfterEach`: on the open channel it succeeds,
on the channel it has closed it panics, so a second cancel is not a no-op. In
both scenarios the `AfterEach` run a second time on the variables the first
run left panics at `close(interrupt)`, while the first run completes. -/
theorem afterEach_twice_panics :
    closeInterrupt (some makeInterrupt) = Except.ok (some closedInterrupt) ∧
    closeInterrupt (some closedInterrupt) =
      Except.error (Panic.failure Failure.closeOfClosedChannel) ∧
    ¬ (∀ (interrupt interrupt1 : Option Chan),
        closeInterrupt interrupt = Except.ok interrupt1 →
        closeInterrupt interrupt1 = Except.ok interrupt1) ∧
    ipAfterEach plainIPConfig sampleRunVars =
      HookResult.completed sampleTornDownVars (cleanUp sampleRunVars) ∧
    ipAfterEach plainIPConfig sampleTornDownVars =
      HookResult.panicked (Panic.failure Failure.closeOfClosedChannel) ∧
    tcpRoutingAfterEach proxiedTCPConfig sampleRunVars =
      HookResult.completed sampleTornDownVars (cleanUp sampleRunVars) ∧
    tcpRoutingAfterEach proxiedTCPConfig sampleTornDownVars =
      HookResult.panicked (Panic.failure Failure.closeOfClosedChannel) := by
  refine ⟨by decide, by decide, fun h => ?_, by decide, by decide, by decide, by decide⟩
  have h1 := h (some makeInterrupt) (some closedInterrupt) (by decide)
  revert h1
  decide

/-- C9, amended. Cancellation happens once and is not idempotent. In each
scenario that is not skipped (the IP based one when TCP routing is not
included, the tcp-routing based one when it is), whatever the shared variables
hold before: `BeforeEach` completes and assigns `interrupt` a fresh open
channel; once the `It` has set `logs`, `AfterEach` completes and leaves
`interrupt` closed; `AfterEach` run a second time on the variables the first
run left panics with close of closed channel. A receive on the closed channel
does not block, and a loop iteration of a worker on it returns without a
request. The `cf` commands of the hooks are taken to succeed. -/
theorem cancel_once (cfg : Config) (CATSRandomName : Text → Text) (vars0 : SuiteVars) :
    (cfg.IncludeTCPRouting = false →
      ∃ vars1 vars2 cmds,
        ipBeforeEach cfg CATSRandomName vars0 = HookResult.completed vars1 [] ∧
        vars1.interrupt = some makeInterrupt ∧
        ipAfterEach cfg (followLogs vars1) = HookResult.completed vars2 cmds ∧
        vars2.interrupt = some closedInterrupt ∧
        ipAfterEach cfg vars2 =
          HookResult.panicked (Panic.failure Failure.closeOfClosedChannel)) ∧
    (cfg.IncludeTCPRouting = true →
      ∃ vars1 vars2 cmds,
        tcpRoutingBeforeEach cfg CATSRandomName vars0 = HookResult.completed vars1 [] ∧
        vars1.interrupt = some makeInterrupt ∧
        tcpRoutingAfterEach cfg (followLogs vars1) = HookResult.completed vars2 cmds ∧
        vars2.interrupt = some closedInterrupt ∧
        tcpRoutingAfterEach cfg vars2 =
          HookResult.panicked (Panic.failure Failure.closeOfClosedChannel)) ∧
    closedInterrupt.tryReceive = some closedInterrupt ∧
    (∀ (cfg1 : Config) (randomMessage logWriterAppName : Text),
      writeLogsIteration cfg1 closedInterrupt randomMessage logWriterAppName = none) := by
  refine ⟨fun h => ?_, fun h => ?_, by decide, fun cfg1 m a => ?_⟩
  · have h1 := tearDown_open (followLogs (setUp CATSRandomName (serviceNames CATSRandomName) vars0))
      makeInterrupt LogSession.following rfl rfl rfl
    refine ⟨setUp CATSRandomName (serviceNames CATSRandomName) vars0,
      { followLogs (setUp CATSRandomName (serviceNames CATSRandomName) vars0) with
        logs := some LogSession.killed, interrupt := some closedInterrupt },
      cleanUp (followLogs (setUp CATSRandomName (serviceNames CATSRandomName) vars0)),
      ?_, rfl, ?_, rfl, ?_⟩
    · simp [ipBeforeEach, h]
    · rw [ipAfterEach_eq cfg _ h]
      exact h1
    · rw [ipAfterEach_eq cfg _ h]
      apply tearDown_closed _ closedInterrupt LogSession.killed <;> rfl
  · have h1 := tearDown_open
      (followLogs (setUp CATSRandomName [CATSRandomName "SVIN1".toList] vars0))
      makeInterrupt LogSession.following rfl rfl rfl
    refine ⟨setUp CATSRandomName [CATSRandomName "SVIN1".toList] vars0,
      { followLogs (setUp CATSRandomName [CATSRandomName "SVIN1".toList] vars0) with
        logs := some LogSession.killed, interrupt := some closedInterrupt },
      cleanUp (followLogs (setUp CATSRandomName [CATSRandomName "SVIN1".toList] vars0)),
      ?_, rfl, ?_, rfl, ?_⟩
    · simp [tcpRoutingBeforeEach, h]
    · rw [tcpRoutingAfterEach_eq cfg _ h]
      exact h1
    · rw [tcpRoutingAfterEach_eq cfg _ h]
      apply tearDown_closed _ closedInterrupt LogSession.killed <;> rfl
  · exact (writeLogsIteration_cases cfg1 closedInterrupt m a).1 rfl

/-- Witness for C9 amended: the IP based scenario without TCP routing, from
the zero values of the variables. -/
theorem cancel_once_witness :
    plainIPConfig.IncludeTCPRouting = false ∧
    ∃ vars1 vars2 cmds,
      ipBeforeEach plainIPConfig sampleRandomName zeroVars = HookResult.completed vars1 [] ∧
      vars1.interrupt = some makeInterrupt ∧
      ipAfterEach plainIPConfig (followLogs vars1) = HookResult.completed vars2 cmds ∧
      vars2.interrupt = some closedInterrupt ∧
      ipAfterEach plainIPConfig vars2 =
        HookResult.panicked (Panic.failure Failure.closeOfClosedChannel) :=
  ⟨rfl, (cancel_once plainIPConfig sampleRandomName zeroVars).1 rfl⟩

end SyslogDrain
